import Mathlib

/-!
# Bug Auction: round and bid arbitration

A shallow embedding of `src/server/index.js` and `src/server/db.js`.

* The SQLite tables `teams`, `rounds`, `bids`, `events` are lists of rows; the
  `AUTOINCREMENT` counters of `rounds`, `bids` and `events` are explicit fields.
* `UPDATE ... WHERE` is a `List.map`, `DELETE ... WHERE` a `List.filter`,
  `INSERT` appends a row, `ORDER BY` is a sort of the selected rows.
* The process-local `teamCooldowns` map is an association list next to the database.
* Every handler is a function from the state, its request arguments and the clock
  reading `now` (`Date.now()`) to the new state and the reply sent to the caller.
  Handlers are synchronous: the event rows written by `logEvent` carry the same reading.
  Random identifiers (`uuid()`) are arguments of `join`.
* Numbers are integers (`Int`); `broadcastAll` is a function from the database to the
  payloads it emits, and the views it pushes do not change the state.
* The admin password comparison is left out: a request that fails it changes nothing.
-/

namespace BugAuction

/-! ## Constants (`index.js`, lines 13-17) -/

def START_WALLET : Int := 12000
def START_BID : Int := 400
def INCREMENT : Int := 200
def MAX_BID : Int := 2000
def COOLDOWN_MS : Int := 300

/-! ## Tables (`db.js`) -/

/-- A row of `teams`. `locked` is the stored integer flag (0 = unlocked). -/
structure Team where
  id : String
  name : String
  wallet : Int
  currentBid : Int
  lastBidTime : Option Int
  locked : Int
  token : String
deriving DecidableEq, Repr

/-- The values of `rounds.status` that the server writes or tests for. -/
inductive RoundStatus where
  | idle
  | active
  | closed
  | pendingClose
deriving DecidableEq, Repr

/-- A row of `rounds`. -/
structure Round where
  id : Nat
  bugName : String
  startTime : Int
  endTime : Int
  status : RoundStatus
deriving DecidableEq, Repr

/-- A row of `bids`. -/
structure Bid where
  id : Nat
  roundId : Nat
  teamId : String
  amount : Int
  timestamp : Int
deriving DecidableEq, Repr

/-- A row of the query in `computeWinners`: `b.teamId, t.name, b.amount, b.timestamp`. -/
structure WinRow where
  teamId : String
  name : String
  amount : Int
  timestamp : Int
deriving DecidableEq, Repr

/-- The object returned by `computeWinners`. -/
structure Winners where
  winner : Option WinRow
  secondHighest : Option WinRow
  fastestBidder : Option WinRow
deriving DecidableEq, Repr

/-- The `(type, payload)` pairs passed to `logEvent`. -/
inductive Payload where
  | teamJoin (teamId name : String)
  | bid (roundId : Nat) (teamId : String) (amount : Int)
  | roundStart (bugName : String) (durationSeconds : Int)
  | roundClose (roundId : Nat) (winners : Winners)
  | roundReset
  | walletEdit (teamId : String) (wallet : Int)
  | teamLock (teamId : String) (locked : Bool)
  | cancelLastBid (teamId : String)
  | teamRemove (teamId : String)
  | walletsReset
deriving DecidableEq, Repr

/-- A row of `events`. -/
structure Event where
  id : Nat
  payload : Payload
  timestamp : Int
deriving DecidableEq, Repr

/-- The database: four tables and the three `AUTOINCREMENT` sequences. -/
structure Db where
  teams : List Team
  rounds : List Round
  bids : List Bid
  events : List Event
  roundSeq : Nat
  bidSeq : Nat
  eventSeq : Nat
deriving DecidableEq, Repr

/-- The server state: the database and the in-memory `teamCooldowns` map. -/
structure State where
  db : Db
  teamCooldowns : List (String × Int)
deriving DecidableEq, Repr

/-- The store before any request: empty tables, empty cooldown map. -/
def State.empty : State :=
  { db := { teams := [], rounds := [], bids := [], events := [],
            roundSeq := 0, bidSeq := 0, eventSeq := 0 },
    teamCooldowns := [] }

/-- An HTTP error reply: status code and the `error` field of the body. -/
structure HttpError where
  status : Nat
  error : String
deriving DecidableEq, Repr

/-! ## Storage helpers -/

/-- The clause `ORDER BY id DESC LIMIT 1` over the selected rows: the row with the greatest id. -/
def orderByIdDescLimit1 {α : Type} (key : α → Nat) : List α → Option α
  | [] => none
  | r :: rs =>
    match orderByIdDescLimit1 key rs with
    | none => some r
    | some b => if key r < key b then some b else some r

/-- The function `logEvent(type, payload)` of `db.js`: append an event row with the next id. -/
def logEvent (db : Db) (p : Payload) (now : Int) : Db :=
  { db with
    events := db.events ++ [{ id := db.eventSeq + 1, payload := p, timestamp := now }],
    eventSeq := db.eventSeq + 1 }

/-- The statement `INSERT INTO bids (roundId, teamId, amount, timestamp)`. -/
def insertBid (db : Db) (roundId : Nat) (teamId : String) (amount now : Int) : Db :=
  { db with
    bids := db.bids ++ [{ id := db.bidSeq + 1, roundId := roundId, teamId := teamId,
                          amount := amount, timestamp := now }],
    bidSeq := db.bidSeq + 1 }

/-- The statement `INSERT INTO rounds (bugName, startTime, endTime, status)`. -/
def insertRound (db : Db) (bugName : String) (startTime endTime : Int)
    (status : RoundStatus) : Db :=
  { db with
    rounds := db.rounds ++ [{ id := db.roundSeq + 1, bugName := bugName,
                              startTime := startTime, endTime := endTime, status := status }],
    roundSeq := db.roundSeq + 1 }

/-- The statement `INSERT INTO teams`: fails (`none`) when the primary key `id` or one of the
`UNIQUE` columns `name`, `token` is already present. -/
def insertTeam (db : Db) (t : Team) : Option Db :=
  if db.teams.any (fun u => u.id = t.id ∨ u.name = t.name ∨ u.token = t.token) then none
  else some { db with teams := db.teams ++ [t] }

/-- The query `SELECT * FROM teams WHERE token = ?`. -/
def teamByToken (db : Db) (token : String) : Option Team :=
  db.teams.find? (fun t => t.token = token)

/-- The query `SELECT * FROM teams WHERE id = ?`. -/
def teamById (db : Db) (teamId : String) : Option Team :=
  db.teams.find? (fun t => t.id = teamId)

/-- The statement `UPDATE teams SET currentBid = ?, lastBidTime = ? WHERE id = ?`. -/
def setTeamBid (db : Db) (teamId : String) (bid : Int) (time : Option Int) : Db :=
  { db with teams := db.teams.map (fun t =>
      if t.id = teamId then { t with currentBid := bid, lastBidTime := time } else t) }

/-- The statement `UPDATE teams SET wallet = ? WHERE id = ?`. -/
def setTeamWallet (db : Db) (teamId : String) (wallet : Int) : Db :=
  { db with teams := db.teams.map (fun t =>
      if t.id = teamId then { t with wallet := wallet } else t) }

/-- The statement `UPDATE teams SET currentBid = 0, lastBidTime = NULL`. -/
def resetBids (db : Db) : Db :=
  { db with teams := db.teams.map (fun t => { t with currentBid := 0, lastBidTime := none }) }

/-- The expression `teamCooldowns.get(id) || 0`. -/
def cooldownGet (m : List (String × Int)) (teamId : String) : Int :=
  match m.lookup teamId with
  | none => 0
  | some v => v

/-- The call `teamCooldowns.set(id, now)`: overwrite the entry of `id`, or add one. -/
def cooldownSet (m : List (String × Int)) (teamId : String) (now : Int) : List (String × Int) :=
  if m.any (fun e => e.1 = teamId) then
    m.map (fun e => if e.1 = teamId then (teamId, now) else e)
  else m ++ [(teamId, now)]

/-! ## Helpers of `index.js` -/

/-- The query of `getActiveRound` on the rows of `rounds`:
`WHERE status IN ('active', 'pending-close') ORDER BY id DESC LIMIT 1`. -/
def latestOpenRound (rounds : List Round) : Option Round :=
  orderByIdDescLimit1 (fun r => r.id)
    (rounds.filter (fun r => r.status = .active ∨ r.status = .pendingClose))

/-- The function `getActiveRound`: the latest round whose status is `active` or `pending-close`. -/
def getActiveRound (db : Db) : Option Round :=
  latestOpenRound db.rounds

/-- The rows selected by `SELECT * FROM bids WHERE teamId = ? AND roundId = ?`. -/
def bidsOf (bids : List Bid) (roundId : Nat) (teamId : String) : List Bid :=
  bids.filter (fun b => decide (b.teamId = teamId ∧ b.roundId = roundId))

/-- The key `lastBidTime ASC` on a nullable column: SQLite puts `NULL` first. -/
def nullsFirstLE : Option Int → Option Int → Prop
  | none, _ => True
  | some _, none => False
  | some a, some b => a ≤ b

instance : DecidableRel nullsFirstLE := fun a b => by
  cases a <;> cases b <;> unfold nullsFirstLE <;> exact inferInstance

/-- The clause `ORDER BY currentBid DESC, lastBidTime ASC` on team rows. -/
def standingsOrder (a b : Team) : Prop :=
  b.currentBid < a.currentBid ∨
    (a.currentBid = b.currentBid ∧ nullsFirstLE a.lastBidTime b.lastBidTime)

instance : DecidableRel standingsOrder := fun a b => by
  unfold standingsOrder; exact inferInstance

/-- A team row of `getCurrentState`: the selected columns and the computed `rank`. -/
structure Standing where
  id : String
  name : String
  wallet : Int
  currentBid : Int
  lastBidTime : Option Int
  locked : Int
  rank : Option Nat
deriving DecidableEq, Repr

/-- One selected row with its rank attached (`t.rank = ...`). -/
def Standing.ofTeam (t : Team) (rank : Option Nat) : Standing :=
  { id := t.id, name := t.name, wallet := t.wallet, currentBid := t.currentBid,
    lastBidTime := t.lastBidTime, locked := t.locked, rank := rank }

/-- The ranking loop of `getCurrentState` (lines 55-72), with the loop variables
`rank` and `lastBid` as arguments. -/
def rankLoop : Nat → Option Int → List Team → List Standing
  | _, _, [] => []
  | rank, none, t :: ts =>
    Standing.ofTeam t (if t.currentBid > 0 then some rank else none)
      :: rankLoop rank (some t.currentBid) ts
  | rank, some lastBid, t :: ts =>
    if t.currentBid = 0 then
      Standing.ofTeam t none :: rankLoop rank (some lastBid) ts
    else if t.currentBid = lastBid then
      Standing.ofTeam t (some rank) :: rankLoop rank (some lastBid) ts
    else
      Standing.ofTeam t (some (rank + 1)) :: rankLoop (rank + 1) (some t.currentBid) ts

/-- The object returned by `getCurrentState`. -/
structure CurrentState where
  round : Option Round
  teams : List Standing
  highestBid : Int
deriving DecidableEq, Repr

/-- The function `getCurrentState`. -/
def getCurrentState (db : Db) : CurrentState :=
  let teams := rankLoop 1 none (db.teams.insertionSort standingsOrder)
  { round := getActiveRound db,
    teams := teams,
    highestBid := teams.foldl (fun max t => if t.currentBid > max then t.currentBid else max) 0 }

/-- The clause `ORDER BY b.amount DESC, b.timestamp ASC` on the rows of `computeWinners`. -/
def winOrder (a b : WinRow) : Prop :=
  b.amount < a.amount ∨ (a.amount = b.amount ∧ a.timestamp ≤ b.timestamp)

instance : DecidableRel winOrder := fun a b => by
  unfold winOrder; exact inferInstance

/-- The selected columns of a bid row joined with its team row. -/
def WinRow.ofJoin (b : Bid) (t : Team) : WinRow :=
  { teamId := b.teamId, name := t.name, amount := b.amount, timestamp := b.timestamp }

/-- The query of `computeWinners`: the bids of the round joined with their team,
ordered by amount descending, then timestamp ascending. -/
def roundRows (db : Db) (roundId : Nat) : List WinRow :=
  ((db.bids.filter (fun b => b.roundId = roundId)).flatMap (fun b =>
      (db.teams.filter (fun t => t.id = b.teamId)).map (fun t =>
        WinRow.ofJoin b t))).insertionSort winOrder

/-- The function `computeWinners`. -/
def computeWinners (db : Db) (roundId : Nat) : Winners :=
  match roundRows db roundId with
  | [] => { winner := none, secondHighest := none, fastestBidder := none }
  | winner :: rest =>
    let bids := winner :: rest
    { winner := some winner,
      secondHighest :=
        match bids.find? (fun b => b.amount < winner.amount) with
        | some b => some b
        | none => rest.head?,
      fastestBidder :=
        bids.foldl (fun min b =>
          match min with
          | none => some b
          | some m => if b.timestamp < m.timestamp then some b else some m) none }

/-- The object returned by `teamStateFor`. -/
structure TeamState where
  wallet : Int
  currentBid : Int
  highestBid : Int
  rank : Option Nat
  roundActive : Bool
  locked : Bool
  endsAt : Option Int
deriving DecidableEq, Repr

/-- The function `teamStateFor`; `none` when the team row is gone (the JavaScript
throws on `current.wallet`). -/
def teamStateFor (db : Db) (teamId : String) : Option TeamState :=
  let cs := getCurrentState db
  match cs.teams.find? (fun t => t.id = teamId) with
  | none => none
  | some current =>
    let active : Bool :=
      match cs.round with
      | some r => decide (r.status = .active)
      | none => false
    some { wallet := current.wallet,
           currentBid := current.currentBid,
           highestBid := cs.highestBid,
           rank := current.rank,
           roundActive := active,
           locked := decide (current.locked ≠ 0),
           endsAt :=
             match cs.round with
             | some r => if r.status = .active then some r.endTime else none
             | none => none }

/-- The test `round && round.status === 'active'` on the result of `getActiveRound`, used
by the views (`roundActive`) and by the start handler (`existing && ...`). -/
def roundActive (db : Db) : Bool :=
  match getActiveRound db with
  | some r => decide (r.status = .active)
  | none => false

/-- The `admin:state` payload (lines 91-99). -/
structure AdminState where
  roundActive : Bool
  bugName : String
  endsAt : Option Int
  teams : List Standing
  winner : Option WinRow
  secondHighest : Option WinRow
  fastestBidder : Option WinRow
deriving DecidableEq, Repr

/-- The `display:state` payload (lines 102-108). -/
structure DisplayState where
  bugName : String
  roundActive : Bool
  endsAt : Option Int
  teams : List Standing
  highestBid : Int
deriving DecidableEq, Repr

/-- What one call of `broadcastAll` emits: the admin payload, the display payload and,
for each team row, the payload sent to the room of that team. -/
structure Broadcast where
  admin : AdminState
  display : DisplayState
  teams : List (String × Option TeamState)
deriving DecidableEq, Repr

/-- The function `broadcastAll` (lines 86-117), as the payloads it emits for a database. -/
def broadcastAll (db : Db) : Broadcast :=
  let cs := getCurrentState db
  let endsAt : Option Int :=
    match cs.round with
    | some r => if r.status = .active then some r.endTime else none
    | none => none
  let active : Bool :=
    match cs.round with
    | some r => decide (r.status = .active)
    | none => false
  let bugName : String :=
    match cs.round with
    | some r => r.bugName
    | none => ""
  { admin := AdminState.mk active bugName endsAt cs.teams none none none,
    display := DisplayState.mk bugName active endsAt cs.teams cs.highestBid,
    teams := cs.teams.map (fun t => (t.id, teamStateFor db t.id)) }

/-! ## Bid arbitration (`socket.on('team:bid')`, lines 581-661) -/

/-- The body of the bid transaction (lines 613-639): re-read the team, compute the
next rung, check ceiling and wallet, then write team, bid and event. An `error` is a
`throw`, raised before any write. -/
def bidTx (db : Db) (teamId : String) (roundId : Nat) (now : Int) : Except String Db :=
  match teamById db teamId with
  | none => .error "TypeError"
  | some freshTeam =>
    let nextBid :=
      if freshTeam.currentBid = 0 then START_BID else freshTeam.currentBid + INCREMENT
    if nextBid > MAX_BID then .error "Max bid reached"
    else if nextBid > freshTeam.wallet then .error "Insufficient wallet"
    else
      .ok (logEvent (insertBid (setTeamBid db teamId nextBid (some now)) roundId teamId nextBid now)
        (.bid roundId teamId nextBid) now)

/-- The handler of `team:bid`. The reply is the `error:team` message or the
`team:state` payload. A transaction that throws is rolled back: the state is kept. -/
def attemptBid (s : State) (token : String) (now : Int) : State × Except String TeamState :=
  if token = "" then (s, .error "Missing token")
  else
    match teamByToken s.db token with
    | none => (s, .error "Unknown team")
    | some team =>
      match getActiveRound s.db with
      | none => (s, .error "Round is not active")
      | some round =>
        if round.status ≠ .active then (s, .error "Round is not active")
        else if team.locked ≠ 0 then (s, .error "Your team is locked")
        else
          let lastBidAt := cooldownGet s.teamCooldowns team.id
          if now - lastBidAt < COOLDOWN_MS then (s, .error "Slow down! Cooldown in effect.")
          else
            match bidTx s.db team.id round.id now with
            | .error msg => (s, .error msg)
            | .ok db1 =>
              let s1 : State :=
                { db := db1, teamCooldowns := cooldownSet s.teamCooldowns team.id now }
              match teamStateFor db1 team.id with
              | none => (s1, .error "TypeError")
              | some view => (s1, .ok view)

/-! ## Team join (`/api/team/join`, lines 166-213) -/

/-- White space and line terminators removed by JavaScript `String.prototype.trim`. -/
def jsWhiteSpace (c : Char) : Bool :=
  let n := c.toNat
  n = 0x09 || n = 0x0A || n = 0x0B || n = 0x0C || n = 0x0D || n = 0x20 || n = 0xA0 ||
  n = 0x1680 || (0x2000 ≤ n && n ≤ 0x200A) || n = 0x2028 || n = 0x2029 || n = 0x202F ||
  n = 0x205F || n = 0x3000 || n = 0xFEFF

/-- JavaScript `name.trim()`. -/
def jsTrim (s : String) : String :=
  String.mk ((s.data.dropWhile jsWhiteSpace).reverse.dropWhile jsWhiteSpace).reverse

/-- SQLite `LOWER(x)`: lower-cases the ASCII letters only. -/
def sqlLower (s : String) : String :=
  String.mk (s.data.map Char.toLower)

/-- The row written by `INSERT INTO teams (id, name, wallet, currentBid, locked, token)
VALUES (?, ?, ?, 0, 0, ?)` with the wallet START_WALLET. -/
def newTeam (id name token : String) : Team :=
  { id := id, name := name, wallet := START_WALLET, currentBid := 0, lastBidTime := none,
    locked := 0, token := token }

/-- The body of a successful join reply. -/
structure JoinReply where
  token : String
  state : TeamState
deriving DecidableEq, Repr

/-- The handler of `/api/team/join`. `newId` and `newToken` are the two `uuid()` values.
An exception inside the `try` block gives the reply 500 and keeps what was written. -/
def join (s : State) (name token newId newToken : String) (now : Int) :
    State × Except HttpError JoinReply :=
  if name = "" then (s, .error { status := 400, error := "Team name is required" })
  else
    let trimmed := jsTrim name
    let existingByToken := if token = "" then none else teamByToken s.db token
    match existingByToken with
    | some existing =>
      match teamStateFor s.db existing.id with
      | none => (s, .error { status := 500, error := "Failed to join team" })
      | some view => (s, .ok { token := existing.token, state := view })
    | none =>
      match s.db.teams.find? (fun t => sqlLower t.name = sqlLower trimmed) with
      | some _ => (s, .error { status := 400, error := "Team name already taken" })
      | none =>
        match insertTeam s.db (newTeam newId trimmed newToken) with
        | none => (s, .error { status := 500, error := "Failed to join team" })
        | some db1 =>
          let db2 := logEvent db1 (.teamJoin newId trimmed) now
          match teamStateFor db2 newId with
          | none => ({ s with db := db2 }, .error { status := 500, error := "Failed to join team" })
          | some view => ({ s with db := db2 }, .ok { token := newToken, state := view })

/-! ## Admin actions (lines 247-508) -/

/-- The handler of `/api/admin/round/start`. A `durationSeconds` of 0 stands for every
falsy `Number(durationSeconds)`, which the code replaces by 90. -/
def adminStart (s : State) (bugName : String) (durationSeconds : Int) (now : Int) :
    State × Except HttpError Unit :=
  let duration := if durationSeconds = 0 then 90 else durationSeconds
  let endTime := now + duration * 1000
  if roundActive s.db then
    (s, .error { status := 400, error := "There is already an active round" })
  else
    let db1 := resetBids (insertRound s.db bugName now endTime .active)
    ({ s with db := logEvent db1 (.roundStart bugName duration) now }, .ok ())

/-- The wallet written for the winner at close (lines 312-315):
`Math.max(0, (winnerTeam.wallet || START_WALLET) - amount)`. -/
def settledWallet (wallet amount : Int) : Int :=
  max 0 ((if wallet = 0 then START_WALLET else wallet) - amount)

/-- The close transaction (lines 301-321). -/
def closeTx (db : Db) (roundId : Nat) (winners : Winners) (now : Int) : Except String Db :=
  let db1 : Db := { db with rounds := db.rounds.map (fun r =>
    if r.id = roundId then { r with status := .closed, endTime := now } else r) }
  match winners.winner with
  | none => .ok db1
  | some w =>
    match teamById db1 w.teamId with
    | none => .error "TypeError"
    | some winnerTeam =>
      .ok (setTeamWallet db1 winnerTeam.id (settledWallet winnerTeam.wallet w.amount))

/-- The handler of `/api/admin/round/close`. -/
def adminClose (s : State) (now : Int) : State × Except HttpError Winners :=
  match getActiveRound s.db with
  | none => (s, .error { status := 400, error := "No active round" })
  | some round =>
    let winners := computeWinners s.db round.id
    match closeTx s.db round.id winners now with
    | .error _ => (s, .error { status := 500, error := "Failed to close round" })
    | .ok db1 =>
      ({ s with db := logEvent db1 (.roundClose round.id winners) now }, .ok winners)

/-- The handler of `/api/admin/round/reset`. -/
def adminReset (s : State) (now : Int) : State × Except HttpError Unit :=
  let db1 := resetBids s.db
  let db2 : Db := { db1 with rounds := db1.rounds.map (fun r =>
    if r.status = .active ∨ r.status = .pendingClose then { r with status := .idle } else r) }
  ({ s with db := logEvent db2 .roundReset now }, .ok ())

/-- The handler of `/api/admin/team/wallet`. -/
def adminSetWallet (s : State) (teamId : String) (wallet : Int) (now : Int) :
    State × Except HttpError Unit :=
  if teamId = "" then (s, .error { status := 400, error := "teamId and wallet are required" })
  else
    ({ s with db := logEvent (setTeamWallet s.db teamId wallet) (.walletEdit teamId wallet) now },
      .ok ())

/-- The handler of `/api/admin/team/lock`. -/
def adminSetLocked (s : State) (teamId : String) (locked : Bool) (now : Int) :
    State × Except HttpError Unit :=
  if teamId = "" then (s, .error { status := 400, error := "teamId is required" })
  else
    let db1 : Db := { s.db with teams := s.db.teams.map (fun t =>
      if t.id = teamId then { t with locked := if locked then 1 else 0 } else t) }
    ({ s with db := logEvent db1 (.teamLock teamId locked) now }, .ok ())

/-- The expression `prevBid ? prevBid.amount : 0`. -/
def prevAmount : Option Bid → Int
  | some prev => prev.amount
  | none => 0

/-- The expression `prevBid ? prevBid.timestamp : null`. -/
def prevTimestamp : Option Bid → Option Int
  | some prev => some prev.timestamp
  | none => none

/-- The handler of `/api/admin/team/cancel-last-bid`. -/
def adminCancelLastBid (s : State) (teamId : String) (now : Int) :
    State × Except HttpError Unit :=
  if teamId = "" then (s, .error { status := 400, error := "teamId is required" })
  else
    match getActiveRound s.db with
    | none => (s, .error { status := 400, error := "No active round" })
    | some round =>
      match orderByIdDescLimit1 (fun b => b.id) (bidsOf s.db.bids round.id teamId) with
      | none => (s, .error { status := 400, error := "No bid to cancel for this team" })
      | some lastBid =>
        let db1 : Db := { s.db with bids := s.db.bids.filter (fun b => b.id ≠ lastBid.id) }
        let prevBid := orderByIdDescLimit1 (fun b => b.id) (bidsOf db1.bids round.id teamId)
        let db2 := setTeamBid db1 teamId (prevAmount prevBid) (prevTimestamp prevBid)
        ({ s with db := logEvent db2 (.cancelLastBid teamId) now }, .ok ())

/-- The handler of `/api/admin/team/remove`. -/
def adminRemoveTeam (s : State) (teamId : String) (now : Int) :
    State × Except HttpError Unit :=
  if teamId = "" then (s, .error { status := 400, error := "teamId is required" })
  else
    let db1 : Db := { s.db with bids := s.db.bids.filter (fun b => b.teamId ≠ teamId) }
    let db2 : Db := { db1 with teams := db1.teams.filter (fun t => t.id ≠ teamId) }
    ({ s with db := logEvent db2 (.teamRemove teamId) now }, .ok ())

/-- The handler of `/api/admin/wallets/reset`. -/
def adminResetAllWallets (s : State) (now : Int) : State × Except HttpError Unit :=
  let db1 : Db := { s.db with teams := s.db.teams.map (fun t => { t with wallet := START_WALLET }) }
  ({ s with db := logEvent db1 .walletsReset now }, .ok ())

/-! ## Reachable states -/

/-- The state-changing requests the server accepts. -/
inductive Op where
  | join (name token newId newToken : String)
  | attemptBid (token : String)
  | adminStart (bugName : String) (durationSeconds : Int)
  | adminClose
  | adminReset
  | adminSetWallet (teamId : String) (wallet : Int)
  | adminSetLocked (teamId : String) (locked : Bool)
  | adminCancelLastBid (teamId : String)
  | adminRemoveTeam (teamId : String)
  | adminResetAllWallets
deriving DecidableEq, Repr

/-- The state after serving one request at clock reading `now`. -/
def step (s : State) (now : Int) : Op → State
  | .join name token newId newToken => (join s name token newId newToken now).1
  | .attemptBid token => (attemptBid s token now).1
  | .adminStart bugName durationSeconds => (adminStart s bugName durationSeconds now).1
  | .adminClose => (adminClose s now).1
  | .adminReset => (adminReset s now).1
  | .adminSetWallet teamId wallet => (adminSetWallet s teamId wallet now).1
  | .adminSetLocked teamId locked => (adminSetLocked s teamId locked now).1
  | .adminCancelLastBid teamId => (adminCancelLastBid s teamId now).1
  | .adminRemoveTeam teamId => (adminRemoveTeam s teamId now).1
  | .adminResetAllWallets => (adminResetAllWallets s now).1

/-- The values drawn from `uuid()` by a join are non-empty strings; the other requests
draw none. -/
def Op.uuidsOk : Op → Prop
  | .join _ _ newId newToken => newId ≠ "" ∧ newToken ≠ ""
  | _ => True

instance : DecidablePred Op.uuidsOk := fun op => by
  cases op <;> unfold Op.uuidsOk <;> exact inferInstance

/-- States reachable from the empty store by serving requests one after the other. -/
inductive Reachable : State → Prop where
  | init : Reachable State.empty
  | next {s : State} (now : Int) (op : Op) :
      op.uuidsOk → Reachable s → Reachable (step s now op)

/-! ## Specification-side definitions -/

/-- The error message of a reply, if it is a rejection. -/
def rejection {α : Type} : Except String α → Option String
  | .error msg => some msg
  | .ok _ => none

/-- The six rejection messages of a bid attempt, in the order of the checks. -/
def bidRejections : List String :=
  ["Unknown team", "Round is not active", "Your team is locked",
   "Slow down! Cooldown in effect.", "Max bid reached", "Insufficient wallet"]

/-- The validation order of the specification (section 4.3), written from its words:
known team, active round, not locked, cooldown, bid ceiling, wallet; the first check
that fails gives the rejection, `none` when all pass. -/
def firstFailingCheck (s : State) (token : String) (now : Int) : Option String :=
  match teamByToken s.db token with
  | none => some "Unknown team"
  | some team =>
    let nextBid := if team.currentBid = 0 then START_BID else team.currentBid + INCREMENT
    if roundActive s.db = false then some "Round is not active"
    else if team.locked ≠ 0 then some "Your team is locked"
    else if now - cooldownGet s.teamCooldowns team.id < COOLDOWN_MS then
      some "Slow down! Cooldown in effect."
    else if nextBid > MAX_BID then some "Max bid reached"
    else if nextBid > team.wallet then some "Insufficient wallet"
    else none

/-- Dense rank of a bid value, written from the ranking rule "shared across ties, next
distinct amount continues from the current counter": one plus the number of distinct
`currentBid` values among the teams that are strictly greater. -/
def denseRank (db : Db) (c : Int) : Nat :=
  1 + ((db.teams.map (fun t => t.currentBid)).toFinset.filter (fun v => c < v)).card

/-- Standard competition rank of a bid value ("1,1,3"): one plus the number of teams whose
`currentBid` is strictly greater. -/
def competitionRank (db : Db) (c : Int) : Nat :=
  1 + (db.teams.filter (fun t => c < t.currentBid)).length

/-- The bid rows of one team in one round, taken in id order. -/
def teamRoundBids (db : Db) (roundId : Nat) (teamId : String) : List Bid :=
  (bidsOf db.bids roundId teamId).insertionSort (fun a b => a.id ≤ b.id)

/-- The first `k` rungs of the bid ladder: START_BID, START_BID + INCREMENT, ... -/
def ladder (k : Nat) : List Int :=
  (List.range k).map (fun (i : Nat) => START_BID + (i : Int) * INCREMENT)

/-- A current bid on the ladder: 0, or a rung START_BID + j * INCREMENT that is at most
MAX_BID (j at most 8). -/
def isRung (c : Int) : Prop :=
  c = 0 ∨ ∃ j : Nat, j ≤ 8 ∧ c = START_BID + (j : Int) * INCREMENT

/-- The team row agrees with the latest bid row, or is zeroed when there is none. -/
def lastMatches (t : Team) : Option Bid → Prop
  | none => t.currentBid = 0 ∧ t.lastBidTime = none
  | some b => t.currentBid = b.amount ∧ t.lastBidTime = some b.timestamp

/-- The invariant of the ledger kept by every request: bid ids increase along the table
and stay below the sequence; bids reference stored rounds ids and stored teams; no round is
pending, an active round is the one `getActiveRound` returns; the bids of a team in a
round form a ladder prefix; in the current round every team row agrees with its latest
bid; every current bid is 0 or a rung; team ids and tokens are non-empty; round ids
increase along the table; and team ids, tokens and lower-cased names are unique. -/
structure LedgerInv (teams : List Team) (rounds : List Round) (bids : List Bid)
    (roundSeq bidSeq : Nat) : Prop where
  bidIds : bids.Pairwise (fun a b => a.id < b.id)
  bidSeq_le : ∀ b ∈ bids, b.id ≤ bidSeq
  bidRound_le : ∀ b ∈ bids, b.roundId ≤ roundSeq
  roundSeq_le : ∀ r ∈ rounds, r.id ≤ roundSeq
  noPending : ∀ r ∈ rounds, r.status ≠ .pendingClose
  oneActive : ∀ r ∈ rounds, r.status = .active → latestOpenRound rounds = some r
  fk : ∀ b ∈ bids, ∃ t ∈ teams, t.id = b.teamId
  ladders : ∀ roundId teamId, ∃ k, k ≤ 9 ∧
    (bidsOf bids roundId teamId).map (fun b => b.amount) = ladder k
  sync : ∀ r, latestOpenRound rounds = some r →
    ∀ t ∈ teams, lastMatches t (bidsOf bids r.id t.id).getLast?
  rungs : ∀ t ∈ teams, isRung t.currentBid
  ids : ∀ t ∈ teams, t.id ≠ "" ∧ t.token ≠ ""
  roundIds : rounds.Pairwise (fun a b => a.id < b.id)
  teamIds : (teams.map (fun t => t.id)).Nodup
  tokens : (teams.map (fun t => t.token)).Nodup
  names : (teams.map (fun t => sqlLower t.name)).Nodup

/-- The ledger invariant of a database. -/
def Inv (db : Db) : Prop :=
  LedgerInv db.teams db.rounds db.bids db.roundSeq db.bidSeq

/-- A wallet edit whose amount is not negative; the other requests carry no amount. -/
def Op.walletOk : Op → Prop
  | .adminSetWallet _ wallet => 0 ≤ wallet
  | _ => True

instance : DecidablePred Op.walletOk := fun op => by
  cases op <;> unfold Op.walletOk <;> exact inferInstance

/-- A round row with its deadline replaced by `e` when the round is active. -/
def moveDeadline (e : Int) (r : Round) : Round :=
  if r.status = .active then { r with endTime := e } else r

/-- The database that differs from `db` only in the deadline of the active round. -/
def setDeadline (db : Db) (e : Int) : Db :=
  { db with rounds := db.rounds.map (moveDeadline e) }

/-- The state that differs from `s` only in the deadline of the active round. -/
def withDeadline (s : State) (e : Int) : State :=
  { s with db := setDeadline s.db e }

/-- A team view with its deadline, when it shows one, replaced by `e`. -/
def viewWithDeadline (e : Int) (v : TeamState) : TeamState :=
  { v with endsAt := v.endsAt.map (fun _ => e) }

/-- Case folding of one character, written from the words "unique, case-insensitive" of the
specification for the letters of the Latin-1 range: the upper-case letters A..Z and
U+00C0..U+00DE (the sign U+00D7 apart) go to the letter 32 code points above. -/
def foldChar (c : Char) : Char :=
  if (0x41 ≤ c.toNat ∧ c.toNat ≤ 0x5A) ∨
      (0xC0 ≤ c.toNat ∧ c.toNat ≤ 0xDE ∧ c.toNat ≠ 0xD7) then
    Char.ofNat (c.toNat + 32)
  else c

/-- Two names that are equal ignoring case, for letters of the Latin-1 range. -/
def equalIgnoringCase (a b : String) : Prop :=
  a.data.map foldChar = b.data.map foldChar

instance (a b : String) : Decidable (equalIgnoringCase a b) := by
  unfold equalIgnoringCase; exact inferInstance

/-! ## Sample data -/

/-- A team that has just joined. -/
def sampleTeam (id name token : String) : Team :=
  { id := id, name := name, wallet := START_WALLET, currentBid := 0, lastBidTime := none,
    locked := 0, token := token }

/-- Team Ada, just joined. -/
def sampleAda : Team := sampleTeam "a" "Ada" "ta"

/-- Team Bob, just joined. -/
def sampleBob : Team := sampleTeam "b" "Bob" "tb"

/-- A running round with id 1. -/
def sampleRound : Round :=
  { id := 1, bugName := "null pointer", startTime := 1000, endTime := 91000, status := .active }

/-- Two teams in a running round, no bid placed yet. -/
def sampleState : State :=
  { db := { teams := [sampleAda, sampleBob],
            rounds := [sampleRound], bids := [], events := [],
            roundSeq := 1, bidSeq := 0, eventSeq := 0 },
    teamCooldowns := [] }

/-- Team Cy: wallet 500 and a standing bid of 400, so the next rung 600 is out of reach. -/
def sampleCy : Team :=
  { id := "c", name := "Cy", wallet := 500, currentBid := 400, lastBidTime := some 2000,
    locked := 0, token := "tc" }

/-- Team Dee: locked, standing bid 2000 and wallet 1000. -/
def sampleDee : Team :=
  { id := "d", name := "Dee", wallet := 1000, currentBid := 2000, lastBidTime := some 3000,
    locked := 1, token := "td" }

/-- Team Eve: unlocked, standing bid 2000 and wallet 1000. -/
def sampleEve : Team :=
  { id := "e", name := "Eve", wallet := 1000, currentBid := 2000, lastBidTime := some 3000,
    locked := 0, token := "te" }

/-- A running round with teams Cy, Dee and Eve; Dee bid last at time 4900. -/
def sampleBusy : State :=
  { db := { teams := [sampleCy, sampleDee, sampleEve],
            rounds := [sampleRound], bids := [], events := [],
            roundSeq := 1, bidSeq := 0, eventSeq := 0 },
    teamCooldowns := [("d", 4900), ("c", 2000)] }

/-- The same teams with the round closed. -/
def sampleIdle : State :=
  { sampleBusy with db := { sampleBusy.db with
      rounds := [{ sampleRound with status := .closed }] } }

/-- The bids of the winner example: (A, 1000, t=5), (B, 1000, t=3), (C, 800, t=1). -/
def sampleTie : Db :=
  { teams := [sampleTeam "A" "Team A" "tA", sampleTeam "B" "Team B" "tB",
              sampleTeam "C" "Team C" "tC"],
    rounds := [sampleRound],
    bids := [{ id := 1, roundId := 1, teamId := "A", amount := 1000, timestamp := 5 },
             { id := 2, roundId := 1, teamId := "B", amount := 1000, timestamp := 3 },
             { id := 3, roundId := 1, teamId := "C", amount := 800, timestamp := 1 }],
    events := [], roundSeq := 1, bidSeq := 3, eventSeq := 0 }

/-- Two teams that both bid only 400 in round 1, Ada at time 10 and Bob at time 20. -/
def sampleTwoAt400 : Db :=
  { teams := [{ sampleAda with currentBid := 400, lastBidTime := some 10 },
              { sampleBob with currentBid := 400, lastBidTime := some 20 }],
    rounds := [sampleRound],
    bids := [{ id := 1, roundId := 1, teamId := "a", amount := 400, timestamp := 10 },
             { id := 2, roundId := 1, teamId := "b", amount := 400, timestamp := 20 }],
    events := [], roundSeq := 1, bidSeq := 2, eventSeq := 0 }

/-- The requests that lead to a winner with an empty wallet: Ada joins, a round starts, Ada
bids 400, the admin sets her wallet to 0. -/
def zeroWalletOps : List (Int × Op) :=
  [(1000, .join "Ada" "" "a" "ta"), (2000, .adminStart "null pointer" 90),
   (3000, .attemptBid "ta"), (4000, .adminSetWallet "a" 0)]

/-- The state after serving a list of timed requests, starting from `s`. -/
def run (s : State) (ops : List (Int × Op)) : State :=
  ops.foldl (fun st o => step st o.1 o.2) s

/-- Three teams with current bids 600, 600 and 400. -/
def sampleThree : Db :=
  { teams := [{ sampleAda with currentBid := 600, lastBidTime := some 30 },
              { sampleBob with currentBid := 400, lastBidTime := some 20 },
              { sampleCy with currentBid := 600, lastBidTime := some 40 }],
    rounds := [sampleRound], bids := [], events := [],
    roundSeq := 1, bidSeq := 0, eventSeq := 0 }

/-- The standings row of Ada in `sampleThree`: bid 600, rank 1. -/
def sampleThreeAdaRow : Standing :=
  Standing.ofTeam { sampleAda with currentBid := 600, lastBidTime := some 30 } (some 1)

/-- The standings row of Bob in `sampleThree`: bid 400, rank 2. -/
def sampleThreeBobRow : Standing :=
  Standing.ofTeam { sampleBob with currentBid := 400, lastBidTime := some 20 } (some 2)

/-- The requests that lead to a round in which Ada has placed two bids. -/
def twoBidsOps : List (Int × Op) :=
  [(1000, .join "Ada" "" "a" "ta"), (1500, .join "Bob" "" "b" "tb"),
   (2000, .adminStart "null pointer" 90), (3000, .attemptBid "ta"),
   (4000, .attemptBid "tb"), (5000, .attemptBid "ta")]

/-- The requests that lead to a round in which Ada has placed one bid. -/
def oneBidOps : List (Int × Op) :=
  [(1000, .join "Ada" "" "a" "ta"), (1500, .join "Bob" "" "b" "tb"),
   (2000, .adminStart "null pointer" 90), (3000, .attemptBid "ta")]

/-- The requests after which Ada stands at MAX_BID: she joins, a round starts, and she
places nine bids one second apart. -/
def maxedOps : List (Int × Op) :=
  [(1000, .join "Ada" "" "a" "ta"), (2000, .adminStart "null pointer" 90),
   (3000, .attemptBid "ta"), (4000, .attemptBid "ta"), (5000, .attemptBid "ta"),
   (6000, .attemptBid "ta"), (7000, .attemptBid "ta"), (8000, .attemptBid "ta"),
   (9000, .attemptBid "ta"), (10000, .attemptBid "ta"), (11000, .attemptBid "ta")]

/-- The requests after which two teams have joined and no round was started. -/
def lobbyOps : List (Int × Op) :=
  [(1000, .join "Ada" "" "a" "ta"), (1500, .join "Bob" "" "b" "tb")]

/-- The busy round with Dee unlocked: her cooldown entry is 4900. -/
def sampleCooling : State :=
  { sampleBusy with db := { sampleBusy.db with
      teams := [sampleCy, { sampleDee with locked := 0 }, sampleEve] } }

/-- The single request of a join under the name "ÉCOLE". -/
def ecoleOps : List (Int × Op) :=
  [(1000, .join "ÉCOLE" "" "a" "ta")]

/-- The requests after which a wallet is negative: Ada and Bob join and the admin sets the
wallet of Ada to -5. -/
def negativeWalletOps : List (Int × Op) :=
  [(1000, .join "Ada" "" "a" "ta"), (1500, .join "Bob" "" "b" "tb"),
   (2000, .adminSetWallet "a" (-5))]

/-- The requests of a settlement that hits the floor: Ada joins, a round starts, she bids
400, her wallet is set to 300 and the round is closed. -/
def settleOps : List (Int × Op) :=
  [(1000, .join "Ada" "" "a" "ta"), (2000, .adminStart "null pointer" 90),
   (3000, .attemptBid "ta"), (4000, .adminSetWallet "a" 300), (5000, .adminClose)]

/-- The winner row of Ada for her bid of 400 at time 3000. -/
def sampleAdaWin : WinRow :=
  { teamId := "a", name := "Ada", amount := 400, timestamp := 3000 }

/-- The requests of a round in which only Ada bids: she joins, a round starts, and she
bids 400 at time 3000 and 600 at time 4000. -/
def soloOps : List (Int × Op) :=
  [(1000, .join "Ada" "" "a" "ta"), (2000, .adminStart "null pointer" 90),
   (3000, .attemptBid "ta"), (4000, .attemptBid "ta")]

/-- The winner row of Ada for her bid of 600 at time 4000. -/
def sampleAdaWin600 : WinRow :=
  { teamId := "a", name := "Ada", amount := 600, timestamp := 4000 }

/-- The round that `oneBidOps` starts at time 2000 for 90 seconds. -/
def sampleOpenRound : Round :=
  { id := 1, bugName := "null pointer", startTime := 2000, endTime := 92000, status := .active }

/-! ## Basic facts about the helpers -/

theorem rankLoop_ids (ts : List Team) : ∀ (rank : Nat) (lastBid : Option Int),
    (rankLoop rank lastBid ts).map (fun r => r.id) = ts.map (fun t => t.id) := by
  induction ts with
  | nil => intro rank lastBid; cases lastBid <;> simp [rankLoop]
  | cons t ts ih =>
    intro rank lastBid
    cases lastBid with
    | none => simp [rankLoop, Standing.ofTeam, ih]
    | some lb =>
      simp only [rankLoop]
      split_ifs <;> simp [Standing.ofTeam, ih]

theorem teamStateFor_isSome (db : Db) (teamId : String)
    (h : ∃ t ∈ db.teams, t.id = teamId) : ∃ view, teamStateFor db teamId = some view := by
  obtain ⟨t, ht, hid⟩ := h
  have hmem : teamId ∈ (getCurrentState db).teams.map (fun r => r.id) := by
    simp only [getCurrentState, rankLoop_ids]
    exact List.mem_map.mpr
      ⟨t, (List.perm_insertionSort standingsOrder db.teams).mem_iff.mpr ht, hid⟩
  obtain ⟨r, hr, hrid⟩ := List.mem_map.mp hmem
  have hsome : ((getCurrentState db).teams.find? (fun t => t.id = teamId)).isSome := by
    rw [List.find?_isSome]
    exact ⟨r, hr, by simpa using hrid⟩
  obtain ⟨c, hc⟩ := Option.isSome_iff_exists.mp hsome
  simp only [teamStateFor, hc]
  exact ⟨_, rfl⟩

/-- Under the primary key of `teams`, selecting by the id of a stored row returns that row. -/
theorem teamById_of_mem (db : Db) (team : Team)
    (hpk : (db.teams.map (fun t => t.id)).Nodup) (hmem : team ∈ db.teams) :
    teamById db team.id = some team := by
  unfold teamById
  generalize db.teams = l at hpk hmem
  induction l with
  | nil => simp at hmem
  | cons a l ih =>
    simp only [List.map_cons, List.nodup_cons, List.mem_map, not_exists, not_and] at hpk
    rcases List.mem_cons.mp hmem with h | h
    · subst h; simp
    · have hne : a.id ≠ team.id := Ne.symm (hpk.1 team h)
      simp [List.find?_cons, hne, ih hpk.2 h]

theorem teamByToken_mem {db : Db} {token : String} {team : Team}
    (h : teamByToken db token = some team) : team ∈ db.teams ∧ team.token = token := by
  unfold teamByToken at h
  exact ⟨List.mem_of_find?_eq_some h, by simpa using List.find?_some h⟩

/-! ## Accepted bids -/

/-- Claim C1. In a state with an active round, a known, unlocked team whose cooldown has
elapsed and whose next rung `n` (START_BID from 0, else currentBid + INCREMENT) is within
MAX_BID and its wallet gets its bid accepted: the reply is the team view, every row of that team
gets `currentBid = n` and `lastBidTime = now` and nothing else in `teams` changes (so every
wallet and every other team is unchanged), and exactly the bid row
`(round id, team id, n, now)` is appended to `bids`. -/
theorem attemptBid_accepts (s : State) (token : String) (now : Int) (team : Team) (round : Round)
    (n : Int)
    (hpk : (s.db.teams.map (fun t => t.id)).Nodup)
    (htoken : token ≠ "")
    (hteam : teamByToken s.db token = some team)
    (hround : getActiveRound s.db = some round)
    (hactive : round.status = .active)
    (hunlocked : team.locked = 0)
    (hcool : COOLDOWN_MS ≤ now - cooldownGet s.teamCooldowns team.id)
    (hn : n = if team.currentBid = 0 then START_BID else team.currentBid + INCREMENT)
    (hmax : n ≤ MAX_BID)
    (hwallet : n ≤ team.wallet) :
    (∃ view, (attemptBid s token now).2 = .ok view) ∧
    (attemptBid s token now).1.db.teams =
      s.db.teams.map (fun t =>
        if t.id = team.id then { t with currentBid := n, lastBidTime := some now } else t) ∧
    teamByToken (attemptBid s token now).1.db token =
      some { team with currentBid := n, lastBidTime := some now } ∧
    (attemptBid s token now).1.db.bids =
      s.db.bids ++ [{ id := s.db.bidSeq + 1, roundId := round.id, teamId := team.id,
                      amount := n, timestamp := now }] := by
  have hmem := (teamByToken_mem hteam).1
  have hfresh := teamById_of_mem s.db team hpk hmem
  have hcool2 : ¬ (now - cooldownGet s.teamCooldowns team.id < COOLDOWN_MS) := not_lt.mpr hcool
  have hmax2 : ¬ (n > MAX_BID) := not_lt.mpr hmax
  have hwallet2 : ¬ (n > team.wallet) := not_lt.mpr hwallet
  have htx : bidTx s.db team.id round.id now =
      .ok (logEvent (insertBid (setTeamBid s.db team.id n (some now)) round.id team.id n now)
        (.bid round.id team.id n) now) := by
    simp only [bidTx, hfresh, ← hn, hmax2, hwallet2, if_false]
  have hview := teamStateFor_isSome
    (logEvent (insertBid (setTeamBid s.db team.id n (some now)) round.id team.id n now)
        (.bid round.id team.id n) now) team.id
    ⟨{ team with currentBid := n, lastBidTime := some now }, by
      simp only [logEvent, insertBid, setTeamBid, List.mem_map]
      exact ⟨team, hmem, by simp⟩, rfl⟩
  obtain ⟨view, hview⟩ := hview
  have hrun : attemptBid s token now =
      ({ db := logEvent (insertBid (setTeamBid s.db team.id n (some now)) round.id team.id n now)
            (.bid round.id team.id n) now,
         teamCooldowns := cooldownSet s.teamCooldowns team.id now }, .ok view) := by
    simp only [attemptBid, htoken, hteam, hround, hactive, hunlocked, hcool2, htx, hview,
      if_false, ne_eq, not_true_eq_false]
  rw [hrun]
  refine ⟨⟨view, rfl⟩, rfl, ?_, rfl⟩
  simp only [teamByToken, logEvent, insertBid, setTeamBid, List.find?_map]
  have hcomp : ((fun t : Team => decide (t.token = token)) ∘ fun t : Team =>
      if t.id = team.id then { t with currentBid := n, lastBidTime := some now } else t)
      = fun t : Team => decide (t.token = token) := by
    funext t
    simp only [Function.comp]
    split_ifs <;> rfl
  rw [hcomp]
  have := hteam
  unfold teamByToken at this
  rw [this]
  simp

/-- Witness for C1: team Ada places the opening bid of 400 at time 5000. -/
theorem attemptBid_accepts_witness :
    (∃ view, (attemptBid sampleState "ta" 5000).2 = .ok view) ∧
    (attemptBid sampleState "ta" 5000).1.db.teams =
      sampleState.db.teams.map (fun t =>
        if t.id = sampleAda.id then
          { t with currentBid := 400, lastBidTime := some 5000 } else t) ∧
    teamByToken (attemptBid sampleState "ta" 5000).1.db "ta" =
      some { sampleAda with currentBid := 400, lastBidTime := some 5000 } ∧
    (attemptBid sampleState "ta" 5000).1.db.bids =
      sampleState.db.bids ++
        [{ id := sampleState.db.bidSeq + 1, roundId := sampleRound.id, teamId := sampleAda.id,
           amount := 400, timestamp := 5000 }] :=
  attemptBid_accepts sampleState "ta" 5000 sampleAda sampleRound 400
    (by decide) (by decide) (by decide) (by decide) (by decide) (by decide) (by decide)
    (by decide) (by decide) (by decide)

/-! ## Rejected bids -/

theorem bidTx_ok_team {db db1 : Db} {teamId : String} {roundId : Nat} {now : Int}
    (h : bidTx db teamId roundId now = .ok db1) : ∃ t ∈ db1.teams, t.id = teamId := by
  unfold bidTx at h
  cases hf : teamById db teamId with
  | none => simp [hf] at h
  | some fresh =>
    have hmem : fresh ∈ db.teams := List.mem_of_find?_eq_some hf
    have hid : fresh.id = teamId := by simpa using List.find?_some hf
    simp only [hf] at h
    split_ifs at h <;>
    · simp only [Except.ok.injEq] at h
      subst h
      simp only [logEvent, insertBid, setTeamBid, List.mem_map]
      exact ⟨_, ⟨fresh, hmem, rfl⟩, by simp [hid]⟩

/-- Claim C3. For a non-empty token and a teams table with unique ids, the rejection
reported by `attemptBid` is the first failing check in the order unknown session, no
active round, team locked, cooldown, bid ceiling, insufficient funds (and no rejection
when all pass). In particular a locked team with no active round gets the no-active-round
message, a locked team inside its cooldown gets the locked message, a team whose next rung
exceeds both MAX_BID and its wallet gets the bid-ceiling message; the six messages are
pairwise distinct and every rejection is one of them. -/
theorem attemptBid_first_failure (s : State) (token : String) (now : Int)
    (htoken : token ≠ "") (hpk : (s.db.teams.map (fun t => t.id)).Nodup) :
    rejection (attemptBid s token now).2 = firstFailingCheck s token now ∧
    (∀ team, teamByToken s.db token = some team → team.locked ≠ 0 →
      roundActive s.db = false →
      rejection (attemptBid s token now).2 = some "Round is not active") ∧
    (∀ team, teamByToken s.db token = some team → roundActive s.db = true →
      team.locked ≠ 0 → now - cooldownGet s.teamCooldowns team.id < COOLDOWN_MS →
      rejection (attemptBid s token now).2 = some "Your team is locked") ∧
    (∀ team, teamByToken s.db token = some team → roundActive s.db = true →
      team.locked = 0 → COOLDOWN_MS ≤ now - cooldownGet s.teamCooldowns team.id →
      (if team.currentBid = 0 then START_BID else team.currentBid + INCREMENT) > MAX_BID →
      (if team.currentBid = 0 then START_BID else team.currentBid + INCREMENT) > team.wallet →
      rejection (attemptBid s token now).2 = some "Max bid reached") ∧
    bidRejections.Nodup ∧
    (∀ msg, rejection (attemptBid s token now).2 = some msg → msg ∈ bidRejections) := by
  have main : rejection (attemptBid s token now).2 = firstFailingCheck s token now := by
    unfold firstFailingCheck attemptBid
    simp only [htoken, if_false]
    cases hteam : teamByToken s.db token with
    | none => simp [rejection]
    | some team =>
      have hfresh := teamById_of_mem s.db team hpk (teamByToken_mem hteam).1
      cases hround : getActiveRound s.db with
      | none => simp [rejection, roundActive, hround]
      | some round =>
        by_cases hact : round.status = .active
        · by_cases hl : team.locked = 0
          · by_cases hc : now - cooldownGet s.teamCooldowns team.id < COOLDOWN_MS
            · simp [rejection, roundActive, hround, hact, hl, hc]
            · by_cases hm :
                (if team.currentBid = 0 then START_BID else team.currentBid + INCREMENT) > MAX_BID
              · simp [rejection, roundActive, hround, hact, hl, hc, hm, bidTx, hfresh]
              · by_cases hw :
                  (if team.currentBid = 0 then START_BID else team.currentBid + INCREMENT)
                    > team.wallet
                · simp [rejection, roundActive, hround, hact, hl, hc, hm, hw, bidTx, hfresh]
                · have htx : bidTx s.db team.id round.id now = .ok
                      (logEvent (insertBid (setTeamBid s.db team.id
                        (if team.currentBid = 0 then START_BID else team.currentBid + INCREMENT)
                        (some now)) round.id team.id
                        (if team.currentBid = 0 then START_BID else team.currentBid + INCREMENT)
                        now) (.bid round.id team.id
                        (if team.currentBid = 0 then START_BID else team.currentBid + INCREMENT))
                        now) := by
                    simp only [bidTx, hfresh, hm, hw, if_false]
                  obtain ⟨view, hview⟩ := teamStateFor_isSome _ team.id (bidTx_ok_team htx)
                  simp [rejection, roundActive, hround, hact, hl, hc, hm, hw, htx, hview]
          · simp [rejection, roundActive, hround, hact, hl]
        · simp [rejection, roundActive, hround, hact]
  refine ⟨main, ?_, ?_, ?_, by decide, ?_⟩
  · intro team hteam hl hr
    rw [main]; simp [firstFailingCheck, hteam, hr]
  · intro team hteam hr hl hc
    rw [main]; simp [firstFailingCheck, hteam, hr, hl]
  · intro team hteam hr hl hc hm hw
    rw [main]; simp [firstFailingCheck, hteam, hr, hl, not_lt.mpr hc, hm]
  · intro msg hmsg
    rw [main] at hmsg
    unfold firstFailingCheck at hmsg
    unfold bidRejections
    split at hmsg
    · simp only [Option.some.injEq] at hmsg; subst hmsg; simp
    · simp only at hmsg
      split_ifs at hmsg <;> simp only [Option.some.injEq] at hmsg <;> subst hmsg <;> simp

/-- Witness for C3: locked Dee with the round closed, locked Dee inside her cooldown, and
Eve whose next rung 2200 is above both MAX_BID and her wallet. -/
theorem attemptBid_first_failure_witness :
    rejection (attemptBid sampleIdle "td" 5000).2 = some "Round is not active" ∧
    rejection (attemptBid sampleBusy "td" 5000).2 = some "Your team is locked" ∧
    rejection (attemptBid sampleBusy "te" 5000).2 = some "Max bid reached" :=
  ⟨(attemptBid_first_failure sampleIdle "td" 5000 (by decide) (by decide)).2.1
      sampleDee (by decide) (by decide) (by decide),
   (attemptBid_first_failure sampleBusy "td" 5000 (by decide) (by decide)).2.2.1
      sampleDee (by decide) (by decide) (by decide) (by decide),
   (attemptBid_first_failure sampleBusy "te" 5000 (by decide) (by decide)).2.2.2.1
      sampleEve (by decide) (by decide) (by decide) (by decide) (by decide) (by decide)⟩

/-- Claim C4. A rejected bid attempt leaves the whole state (team, round, bid and event
rows, sequences, and the cooldown map) exactly as it was. In particular a known, unlocked
team with wallet 500 and currentBid 400 bidding in an active round after its cooldown is
rejected with the insufficient-wallet message, and the state, hence its currentBid of 400
and its cooldown entry, is unchanged. -/
theorem attemptBid_rejected_unchanged (s : State) (token : String) (now : Int) :
    (∀ msg, (attemptBid s token now).2 = .error msg → (attemptBid s token now).1 = s) ∧
    (∀ team, token ≠ "" → (s.db.teams.map (fun t => t.id)).Nodup →
      teamByToken s.db token = some team → roundActive s.db = true → team.locked = 0 →
      COOLDOWN_MS ≤ now - cooldownGet s.teamCooldowns team.id →
      team.wallet = 500 → team.currentBid = 400 →
      attemptBid s token now = (s, .error "Insufficient wallet")) := by
  constructor
  · intro msg hmsg
    by_cases h1 : token = ""
    · simp [attemptBid, h1]
    · cases hteam : teamByToken s.db token with
      | none => simp [attemptBid, h1, hteam]
      | some team =>
        cases hround : getActiveRound s.db with
        | none => simp [attemptBid, h1, hteam, hround]
        | some round =>
          by_cases hact : round.status = .active
          · by_cases hl : team.locked = 0
            · by_cases hc : now - cooldownGet s.teamCooldowns team.id < COOLDOWN_MS
              · simp [attemptBid, h1, hteam, hround, hact, hl, hc]
              · cases htx : bidTx s.db team.id round.id now with
                | error e => simp [attemptBid, h1, hteam, hround, hact, hl, hc, htx]
                | ok db1 =>
                  obtain ⟨view, hview⟩ := teamStateFor_isSome db1 _ (bidTx_ok_team htx)
                  simp [attemptBid, h1, hteam, hround, hact, hl, hc, htx, hview] at hmsg
            · simp [attemptBid, h1, hteam, hround, hact, hl]
          · simp [attemptBid, h1, hteam, hround, hact]
  · intro team htoken hpk hteam hr hl hc hw hb
    have hfresh := teamById_of_mem s.db team hpk (teamByToken_mem hteam).1
    unfold roundActive at hr
    cases hround : getActiveRound s.db with
    | none => simp [hround] at hr
    | some round =>
      simp only [hround, decide_eq_true_eq] at hr
      simp [attemptBid, htoken, hteam, hround, hr, hl, not_lt.mpr hc, bidTx, hfresh, hw, hb,
        START_BID, INCREMENT, MAX_BID]

/-- Witness for C4: Cy (wallet 500, currentBid 400) bids at time 5000 and is rejected; the
state is unchanged. -/
theorem attemptBid_rejected_unchanged_witness :
    attemptBid sampleBusy "tc" 5000 = (sampleBusy, .error "Insufficient wallet") ∧
    (attemptBid sampleBusy "tc" 5000).1 = sampleBusy :=
  ⟨(attemptBid_rejected_unchanged sampleBusy "tc" 5000).2 sampleCy
      (by decide) (by decide) (by decide) (by decide) (by decide) (by decide) rfl rfl,
   (attemptBid_rejected_unchanged sampleBusy "tc" 5000).1 "Insufficient wallet"
      (by rw [(attemptBid_rejected_unchanged sampleBusy "tc" 5000).2 sampleCy
        (by decide) (by decide) (by decide) (by decide) (by decide) (by decide) rfl rfl])⟩

/-! ## Winner resolution -/

instance winOrder_total : IsTotal WinRow winOrder :=
  ⟨fun a b => by unfold winOrder; omega⟩

instance winOrder_trans : IsTrans WinRow winOrder :=
  ⟨fun a b c h1 h2 => by unfold winOrder at *; omega⟩

theorem roundRows_sorted (db : Db) (roundId : Nat) :
    (roundRows db roundId).Sorted winOrder :=
  List.sorted_insertionSort winOrder _

theorem mem_roundRows {db : Db} {roundId : Nat} {w : WinRow} :
    w ∈ roundRows db roundId ↔
      ∃ b ∈ db.bids, b.roundId = roundId ∧ ∃ t ∈ db.teams, t.id = b.teamId ∧
        w = WinRow.ofJoin b t := by
  unfold roundRows
  rw [(List.perm_insertionSort winOrder _).mem_iff]
  simp only [List.mem_flatMap, List.mem_filter, List.mem_map, decide_eq_true_eq]
  constructor
  · rintro ⟨b, ⟨hb, hr⟩, t, ⟨ht, hid⟩, rfl⟩
    exact ⟨b, hb, hr, t, ht, hid, rfl⟩
  · rintro ⟨b, hb, hr, t, ht, hid, rfl⟩
    exact ⟨b, ⟨hb, hr⟩, t, ⟨ht, hid⟩, rfl⟩

theorem winner_eq_head (db : Db) (roundId : Nat) :
    (computeWinners db roundId).winner = (roundRows db roundId).head? := by
  unfold computeWinners
  cases roundRows db roundId <;> rfl

/-- Claim C6. When every bid row references a stored team (the foreign key of `bids`), the
winner of a round is null exactly when the round has no bid; otherwise it is a bid of
the round whose amount is at least that of every bid of the round and whose timestamp is
at most that of every bid with the same amount. On the bids (A,1000,t=5), (B,1000,t=3),
(C,800,t=1) the winner is B, secondHighest is C and fastestBidder is C. -/
theorem computeWinners_winner (db : Db) (roundId : Nat)
    (hfk : ∀ b ∈ db.bids, ∃ t ∈ db.teams, t.id = b.teamId) :
    ((computeWinners db roundId).winner = none ↔ ∀ b ∈ db.bids, b.roundId ≠ roundId) ∧
    (∀ w, (computeWinners db roundId).winner = some w →
      (∃ b ∈ db.bids, b.roundId = roundId ∧ b.teamId = w.teamId ∧ b.amount = w.amount ∧
        b.timestamp = w.timestamp) ∧
      (∀ b ∈ db.bids, b.roundId = roundId →
        b.amount ≤ w.amount ∧ (b.amount = w.amount → w.timestamp ≤ b.timestamp))) ∧
    computeWinners sampleTie 1 =
      { winner := some { teamId := "B", name := "Team B", amount := 1000, timestamp := 3 },
        secondHighest := some { teamId := "C", name := "Team C", amount := 800, timestamp := 1 },
        fastestBidder := some { teamId := "C", name := "Team C", amount := 800, timestamp := 1 } } := by
  refine ⟨?_, ?_, by decide⟩
  · rw [winner_eq_head]
    constructor
    · intro h b hb hr
      obtain ⟨t, ht, hid⟩ := hfk b hb
      have hmem : WinRow.ofJoin b t ∈ roundRows db roundId :=
        mem_roundRows.mpr ⟨b, hb, hr, t, ht, hid, rfl⟩
      cases hrows : roundRows db roundId with
      | nil => rw [hrows] at hmem; simp at hmem
      | cons x xs => rw [hrows] at h; simp at h
    · intro h
      cases hrows : roundRows db roundId with
      | nil => rfl
      | cons x xs =>
        have hx : x ∈ roundRows db roundId := by rw [hrows]; simp
        obtain ⟨b, hb, hr, _⟩ := mem_roundRows.mp hx
        exact absurd hr (h b hb)
  · intro w hw
    rw [winner_eq_head] at hw
    cases hrows : roundRows db roundId with
    | nil => rw [hrows] at hw; simp at hw
    | cons x xs =>
      rw [hrows] at hw
      simp only [List.head?_cons, Option.some.injEq] at hw
      subst hw
      have hx : x ∈ roundRows db roundId := by rw [hrows]; simp
      have hsorted := roundRows_sorted db roundId
      rw [hrows, List.sorted_cons] at hsorted
      constructor
      · obtain ⟨b, hb, hr, t, _, _, hxe⟩ := mem_roundRows.mp hx
        exact ⟨b, hb, hr, by rw [hxe]; rfl, by rw [hxe]; rfl, by rw [hxe]; rfl⟩
      · intro b hb hr
        obtain ⟨t, ht, hid⟩ := hfk b hb
        have hmem : WinRow.ofJoin b t ∈ roundRows db roundId :=
          mem_roundRows.mpr ⟨b, hb, hr, t, ht, hid, rfl⟩
        rw [hrows] at hmem
        rcases List.mem_cons.mp hmem with h | h
        · rw [← h]; simp [WinRow.ofJoin]
        · have := hsorted.1 _ h
          unfold winOrder at this
          simp only [WinRow.ofJoin] at this
          omega

/-- Witness for C6: the winner of the example bids is B, a bid of round 1 with the greatest
amount and the earliest timestamp at that amount. -/
theorem computeWinners_winner_witness :
    (∃ b ∈ sampleTie.bids, b.roundId = 1 ∧ b.teamId = "B" ∧ b.amount = 1000 ∧
      b.timestamp = 3) ∧
    (∀ b ∈ sampleTie.bids, b.roundId = 1 →
      b.amount ≤ 1000 ∧ (b.amount = 1000 → (3 : Int) ≤ b.timestamp)) :=
  (computeWinners_winner sampleTie 1 (by decide)).2.1
    { teamId := "B", name := "Team B", amount := 1000, timestamp := 3 } (by decide)

theorem secondHighest_eq_find (db : Db) (roundId : Nat) (w : WinRow)
    (rest : List WinRow) (hrows : roundRows db roundId = w :: rest) :
    (computeWinners db roundId).secondHighest =
      match rest.find? (fun b => b.amount < w.amount) with
      | some b => some b
      | none => rest.head? := by
  simp [computeWinners, hrows, List.find?_cons]

/-- Counterexample to C7 as stated: two teams that both bid only 400; every bid of the
round has the winning amount, yet secondHighest is the second row (Bob, 400), not null,
and its amount is not strictly below the winning amount. -/
theorem secondHighest_tie_counterexample :
    (∀ b ∈ sampleTwoAt400.bids, b.roundId = 1 ∧ b.amount = 400) ∧
    (computeWinners sampleTwoAt400 1).winner =
      some { teamId := "a", name := "Ada", amount := 400, timestamp := 10 } ∧
    (computeWinners sampleTwoAt400 1).secondHighest =
      some { teamId := "b", name := "Bob", amount := 400, timestamp := 20 } := by
  decide

/-- Claim C7, amended. Let `w :: rest` be the bids of a round in (amount descending,
timestamp ascending) order. The winner is `w`. If some later row has an amount strictly
below the winning amount, secondHighest is the first such row. If none has, secondHighest is
the second row of the order (a bid with the winning amount), and null when there is no second
row. Hence secondHighest is null exactly when the round has a single row, and a non-null
secondHighest is one of the later rows with an amount at most the winning amount. -/
theorem computeWinners_secondHighest (db : Db) (roundId : Nat) (w : WinRow)
    (rest : List WinRow) (hrows : roundRows db roundId = w :: rest) :
    (computeWinners db roundId).winner = some w ∧
    (∀ pre x post, rest = pre ++ x :: post → (∀ y ∈ pre, ¬ y.amount < w.amount) →
      x.amount < w.amount → (computeWinners db roundId).secondHighest = some x) ∧
    ((∀ y ∈ rest, ¬ y.amount < w.amount) →
      (computeWinners db roundId).secondHighest = rest.head?) ∧
    ((computeWinners db roundId).secondHighest = none ↔ rest = []) ∧
    (∀ x, (computeWinners db roundId).secondHighest = some x →
      x ∈ rest ∧ x.amount ≤ w.amount) := by
  have hsorted := roundRows_sorted db roundId
  rw [hrows, List.sorted_cons] at hsorted
  have hle : ∀ y ∈ rest, y.amount ≤ w.amount := by
    intro y hy
    have := hsorted.1 y hy
    unfold winOrder at this
    omega
  rw [secondHighest_eq_find db roundId w rest hrows]
  refine ⟨by rw [winner_eq_head, hrows]; rfl, ?_, ?_, ?_, ?_⟩
  · intro pre x post hsplit hpre hx
    have hfind : rest.find? (fun b => decide (b.amount < w.amount)) = some x := by
      rw [List.find?_eq_some]
      exact ⟨by simpa using hx, pre, post, hsplit, by simpa using hpre⟩
    rw [hfind]
  · intro hnone
    have hfind : rest.find? (fun b => decide (b.amount < w.amount)) = none := by
      rw [List.find?_eq_none]
      simpa using hnone
    rw [hfind]
  · cases hfind : rest.find? (fun b => decide (b.amount < w.amount)) with
    | none => cases rest <;> simp
    | some b =>
      have hb := List.mem_of_find?_eq_some hfind
      constructor
      · intro h; simp at h
      · intro h; rw [h] at hb; simp at hb
  · intro x hx
    cases hfind : rest.find? (fun b => decide (b.amount < w.amount)) with
    | none =>
      rw [hfind] at hx
      have hmem : x ∈ rest := List.mem_of_mem_head? hx
      exact ⟨hmem, hle x hmem⟩
    | some b =>
      rw [hfind] at hx
      simp only [Option.some.injEq] at hx
      subst hx
      have hmem := List.mem_of_find?_eq_some hfind
      exact ⟨hmem, hle _ hmem⟩

/-- Witness for C7: in the tie at 400 no row is below the winning amount, and secondHighest
is the second row. -/
theorem computeWinners_secondHighest_witness :
    (computeWinners sampleTwoAt400 1).secondHighest =
      [({ teamId := "b", name := "Bob", amount := 400, timestamp := 20 } : WinRow)].head? :=
  (computeWinners_secondHighest sampleTwoAt400 1
    { teamId := "a", name := "Ada", amount := 400, timestamp := 10 }
    [{ teamId := "b", name := "Bob", amount := 400, timestamp := 20 }] (by decide)).2.2.1
    (by decide)

/-! ## Settlement at close -/

theorem reachable_run (ops : List (Int × Op)) (hops : ∀ o ∈ ops, o.2.uuidsOk) :
    ∀ s, Reachable s → Reachable (run s ops) := by
  induction ops with
  | nil => intro s hs; exact hs
  | cons o ops ih =>
    intro s hs
    exact ih (fun o2 ho2 => hops o2 (List.mem_cons_of_mem _ ho2)) _
      (Reachable.next o.1 o.2 (hops o (List.mem_cons_self _ _)) hs)

/-- For a non-zero wallet the settlement is the debit floored at zero. -/
theorem settledWallet_of_ne_zero (wallet amount : Int) (h : wallet ≠ 0) :
    settledWallet wallet amount = max 0 (wallet - amount) := by
  simp [settledWallet, h]

/-- Claim C8 at its failing input. Ada joins, a round starts, she bids 400 and the admin
sets her wallet to 0. The state is reachable, her wallet is 0 and close finds her winning
with 400; after the close her wallet is 11600 (START_WALLET - 400), where the floor
max(0, 0 - 400) is 0. -/
theorem adminClose_zero_wallet :
    Reachable (run State.empty zeroWalletOps) ∧
    (run State.empty zeroWalletOps).db.teams.map (fun t => t.wallet) = [0] ∧
    (computeWinners (run State.empty zeroWalletOps).db 1).winner =
      some { teamId := "a", name := "Ada", amount := 400, timestamp := 3000 } ∧
    (adminClose (run State.empty zeroWalletOps) 5000).1.db.teams.map (fun t => t.wallet)
      = [11600] ∧
    settledWallet 0 400 = 11600 ∧ max (0 : Int) (0 - 400) = 0 := by
  refine ⟨reachable_run _ (by decide) _ Reachable.init, ?_, ?_, ?_, ?_, ?_⟩ <;> decide

/-! ## Standings -/

instance standingsOrder_total : IsTotal Team standingsOrder :=
  ⟨fun a b => by
    unfold standingsOrder
    rcases lt_trichotomy a.currentBid b.currentBid with h | h | h
    · exact Or.inr (Or.inl h)
    · cases ha : a.lastBidTime <;> cases hb : b.lastBidTime <;>
        simp only [nullsFirstLE, h, lt_self_iff_false, true_and, false_or, and_true]
      all_goals first | exact Or.inl trivial | exact Or.inr trivial | exact le_total _ _
    · exact Or.inl (Or.inl h)⟩

theorem nullsFirstLE_trans {a b c : Option Int} (h1 : nullsFirstLE a b)
    (h2 : nullsFirstLE b c) : nullsFirstLE a c := by
  cases a <;> cases b <;> cases c <;> simp only [nullsFirstLE] at *
  omega

instance standingsOrder_trans : IsTrans Team standingsOrder :=
  ⟨fun a b c h1 h2 => by
    unfold standingsOrder at *
    rcases h1 with h1 | ⟨h1, h1t⟩ <;> rcases h2 with h2 | ⟨h2, h2t⟩
    · exact Or.inl (by omega)
    · exact Or.inl (by omega)
    · exact Or.inl (by omega)
    · exact Or.inr ⟨by omega, nullsFirstLE_trans h1t h2t⟩⟩

theorem rankLoop_mem (ts : List Team) : ∀ (rank : Nat) (lastBid : Option Int),
    ∀ r ∈ rankLoop rank lastBid ts, ∃ t ∈ ts, r.id = t.id ∧ r.currentBid = t.currentBid := by
  induction ts with
  | nil => intro rank lastBid r hr; cases lastBid <;> simp [rankLoop] at hr
  | cons t ts ih =>
    intro rank lastBid r hr
    cases lastBid with
    | none =>
      simp only [rankLoop, List.mem_cons] at hr
      rcases hr with hr | hr
      · exact ⟨t, List.mem_cons_self _ _, by rw [hr]; rfl, by rw [hr]; rfl⟩
      · obtain ⟨u, hu, h⟩ := ih _ _ r hr
        exact ⟨u, List.mem_cons_of_mem _ hu, h⟩
    | some lb =>
      simp only [rankLoop] at hr
      split_ifs at hr <;>
      · simp only [List.mem_cons] at hr
        rcases hr with hr | hr
        · exact ⟨t, List.mem_cons_self _ _, by rw [hr]; rfl, by rw [hr]; rfl⟩
        · obtain ⟨u, hu, h⟩ := ih _ _ r hr
          exact ⟨u, List.mem_cons_of_mem _ hu, h⟩

/-- The ranking loop after its first row: over rows in descending order of non-negative
bids, all at most the last seen bid `lb`, a row is unranked exactly when its bid is 0, and a
positive bid gets the counter plus the number of distinct values above it among `lb` and
the remaining rows. -/
theorem rankLoop_spec (ts : List Team) : ∀ (rank : Nat) (lb : Int),
    (∀ t ∈ ts, 0 ≤ t.currentBid ∧ t.currentBid ≤ lb) →
    ts.Pairwise (fun a b => b.currentBid ≤ a.currentBid) →
    ∀ r ∈ rankLoop rank (some lb) ts,
      (r.rank = none ↔ r.currentBid = 0) ∧
      (0 < r.currentBid → r.rank = some (rank +
        ((lb :: ts.map (fun t => t.currentBid)).toFinset.filter
          (fun v => r.currentBid < v)).card)) := by
  induction ts with
  | nil => intro rank lb _ _ r hr; simp [rankLoop] at hr
  | cons t ts ih =>
    intro rank lb hb hp r hr
    have hpt := List.pairwise_cons.mp hp
    have hbt := hb t (List.mem_cons_self _ _)
    have hts : ∀ u ∈ ts, 0 ≤ u.currentBid ∧ u.currentBid ≤ lb :=
      fun u hu => hb u (List.mem_cons_of_mem _ hu)
    simp only [rankLoop] at hr
    by_cases h0 : t.currentBid = 0
    · rw [if_pos h0, List.mem_cons] at hr
      rcases hr with hr | hr
      · subst hr; simp [Standing.ofTeam, h0]
      · obtain ⟨h1, h2⟩ := ih rank lb hts hpt.2 r hr
        refine ⟨h1, fun hpos => ?_⟩
        rw [h2 hpos]
        congr 3
        ext v
        simp only [List.map_cons, List.toFinset_cons, Finset.mem_filter, Finset.mem_insert, h0]
        constructor
        · rintro ⟨h | h, hc⟩
          · exact ⟨Or.inl h, hc⟩
          · exact ⟨Or.inr (Or.inr h), hc⟩
        · rintro ⟨h | h | h, hc⟩
          · exact ⟨Or.inl h, hc⟩
          · omega
          · exact ⟨Or.inr h, hc⟩
    · rw [if_neg h0] at hr
      by_cases hl : t.currentBid = lb
      · rw [if_pos hl, List.mem_cons] at hr
        rcases hr with hr | hr
        · subst hr
          refine ⟨by simp [Standing.ofTeam, h0], fun _ => ?_⟩
          simp only [Standing.ofTeam, Option.some.injEq, self_eq_add_right,
            Finset.card_eq_zero, Finset.filter_eq_empty_iff, List.mem_toFinset, List.mem_cons,
            List.mem_map, not_lt]
          rintro v (h | ⟨u, hu, rfl⟩)
          · omega
          · rcases hu with h | h
            · subst h; exact le_refl _
            · exact hpt.1 u h
        · obtain ⟨h1, h2⟩ := ih rank lb hts hpt.2 r hr
          refine ⟨h1, fun hpos => ?_⟩
          rw [h2 hpos]
          congr 3
          ext v
          simp only [List.map_cons, List.toFinset_cons, Finset.mem_filter, Finset.mem_insert, hl]
          constructor
          · rintro ⟨h | h, hc⟩
            · exact ⟨Or.inl h, hc⟩
            · exact ⟨Or.inr (Or.inr h), hc⟩
          · rintro ⟨h | h | h, hc⟩
            · exact ⟨Or.inl h, hc⟩
            · exact ⟨Or.inl h, hc⟩
            · exact ⟨Or.inr h, hc⟩
      · rw [if_neg hl, List.mem_cons] at hr
        have hlt : t.currentBid < lb := lt_of_le_of_ne hbt.2 hl
        have hts2 : ∀ u ∈ ts, 0 ≤ u.currentBid ∧ u.currentBid ≤ t.currentBid :=
          fun u hu => ⟨(hts u hu).1, hpt.1 u hu⟩
        rcases hr with hr | hr
        · subst hr
          refine ⟨by simp [Standing.ofTeam, h0], fun _ => ?_⟩
          have hset : ((lb :: List.map (fun t => t.currentBid) (t :: ts)).toFinset.filter
              (fun v => t.currentBid < v)) = {lb} := by
            ext v
            simp only [List.map_cons, List.toFinset_cons, Finset.mem_filter, Finset.mem_insert,
              List.mem_toFinset, List.mem_map, Finset.mem_singleton]
            constructor
            · rintro ⟨h | h | ⟨u, hu, rfl⟩, hc⟩
              · exact h
              · omega
              · have := hpt.1 u hu; omega
            · intro h; exact ⟨Or.inl h, by omega⟩
          simp only [Standing.ofTeam]
          rw [hset]; rfl
        · obtain ⟨h1, h2⟩ := ih (rank + 1) t.currentBid hts2 hpt.2 r hr
          refine ⟨h1, fun hpos => ?_⟩
          rw [h2 hpos]
          obtain ⟨u, hu, _, hcu⟩ := rankLoop_mem ts _ _ r hr
          have hru : r.currentBid ≤ t.currentBid := by rw [hcu]; exact hpt.1 u hu
          have hset : ((lb :: List.map (fun t => t.currentBid) (t :: ts)).toFinset.filter
              (fun v => r.currentBid < v)) =
              insert lb ((t.currentBid :: List.map (fun t => t.currentBid) ts).toFinset.filter
                (fun v => r.currentBid < v)) := by
            ext v
            simp only [List.map_cons, List.toFinset_cons, Finset.mem_filter, Finset.mem_insert,
              List.mem_toFinset, List.mem_map]
            constructor
            · rintro ⟨h | h, hc⟩
              · exact Or.inl h
              · exact Or.inr ⟨h, hc⟩
            · rintro (h | ⟨h, hc⟩)
              · exact ⟨Or.inl h, by omega⟩
              · exact ⟨Or.inr h, hc⟩
          have hnot : lb ∉ ((t.currentBid :: List.map (fun t => t.currentBid) ts).toFinset.filter
                (fun v => r.currentBid < v)) := by
            simp only [List.toFinset_cons, Finset.mem_filter, Finset.mem_insert,
              List.mem_toFinset, List.mem_map, not_and]
            rintro (h | ⟨u, hu, h⟩)
            · omega
            · have := hpt.1 u hu; omega
          rw [hset, Finset.card_insert_of_not_mem hnot]
          congr 1
          omega

theorem standings_descending (db : Db) :
    (db.teams.insertionSort standingsOrder).Pairwise
      (fun a b => b.currentBid ≤ a.currentBid) := by
  have h := List.sorted_insertionSort standingsOrder db.teams
  refine List.Pairwise.imp ?_ h
  intro a b hab
  unfold standingsOrder at hab
  omega

/-- The whole ranking loop, from `rank = 1` and `lastBid = null`, over rows in descending
order of non-negative bids. -/
theorem rankLoop_top (L : List Team) (hnn : ∀ t ∈ L, 0 ≤ t.currentBid)
    (hdesc : L.Pairwise (fun a b => b.currentBid ≤ a.currentBid)) :
    ∀ r ∈ rankLoop 1 none L,
      (r.rank = none ↔ r.currentBid = 0) ∧
      (0 < r.currentBid → r.rank = some (1 +
        ((L.map (fun t => t.currentBid)).toFinset.filter (fun v => r.currentBid < v)).card)) := by
  intro r hr
  cases L with
  | nil => simp [rankLoop] at hr
  | cons t ts =>
    have hpt := List.pairwise_cons.mp hdesc
    have ht0 := hnn t (List.mem_cons_self _ _)
    have hts : ∀ u ∈ ts, 0 ≤ u.currentBid ∧ u.currentBid ≤ t.currentBid :=
      fun u hu => ⟨hnn u (List.mem_cons_of_mem _ hu), hpt.1 u hu⟩
    simp only [rankLoop, List.mem_cons] at hr
    rcases hr with hr | hr
    · subst hr
      constructor
      · simp only [Standing.ofTeam]
        constructor
        · intro h; split_ifs at h; omega
        · intro h; rw [if_neg (by omega)]
      · intro hpos
        simp only [Standing.ofTeam] at hpos ⊢
        rw [if_pos hpos]
        simp only [Option.some.injEq, self_eq_add_right, Finset.card_eq_zero,
          Finset.filter_eq_empty_iff, List.mem_toFinset, List.mem_cons, List.mem_map, not_lt]
        rintro v ⟨u, hu, rfl⟩
        rcases hu with h | h
        · subst h; exact le_refl _
        · exact hpt.1 u h
    · exact rankLoop_spec ts 1 t.currentBid hts hpt.2 r hr

/-- The ranks of `getCurrentState` over non-negative bids: a row is unranked exactly when
its bid is 0, a positive bid is ranked by `denseRank`, and every row carries the bid of a
stored team. -/
theorem getCurrentState_rank_spec (db : Db) (hnn : ∀ t ∈ db.teams, 0 ≤ t.currentBid) :
    ∀ r ∈ (getCurrentState db).teams,
      (r.rank = none ↔ r.currentBid = 0) ∧
      (0 < r.currentBid → r.rank = some (denseRank db r.currentBid)) ∧
      r.currentBid ∈ db.teams.map (fun t => t.currentBid) := by
  intro r hr
  have hperm := List.perm_insertionSort standingsOrder db.teams
  have hvals : (db.teams.map (fun t => t.currentBid)).toFinset =
      ((db.teams.insertionSort standingsOrder).map (fun t => t.currentBid)).toFinset :=
    List.toFinset_eq_of_perm _ _ (hperm.map _).symm
  have hrows : (getCurrentState db).teams =
      rankLoop 1 none (db.teams.insertionSort standingsOrder) := rfl
  rw [hrows] at hr
  have hmemV : r.currentBid ∈ db.teams.map (fun t => t.currentBid) := by
    obtain ⟨u, hu, _, hcu⟩ := rankLoop_mem _ _ _ r hr
    exact List.mem_map.mpr ⟨u, hperm.mem_iff.mp hu, hcu.symm⟩
  have h := rankLoop_top (db.teams.insertionSort standingsOrder)
    (fun u hu => hnn u (hperm.mem_iff.mp hu)) (standings_descending db) r hr
  refine ⟨h.1, ?_, hmemV⟩
  unfold denseRank
  rw [hvals]
  exact h.2

/-- Counterexample to C9 as stated: for current bids 600, 600 and 400 the standings carry
the ranks 1, 1 and 2, while one plus the number of teams with a strictly greater bid is 3
for the team at 400. -/
theorem competition_rank_counterexample :
    (getCurrentState sampleThree).teams.map (fun r => (r.currentBid, r.rank)) =
      [(600, some 1), (600, some 1), (400, some 2)] ∧
    competitionRank sampleThree 400 = 3 ∧
    ¬ (∀ r ∈ (getCurrentState sampleThree).teams, ∀ k, r.rank = some k →
        k = competitionRank sampleThree r.currentBid) := by
  decide

/-- Claim C9, amended. Over teams with non-negative current bids, the rank of a ranked
team in the standings of `getCurrentState` is one plus the number of distinct current
bid values strictly greater than its own (dense ranking); three teams with current bids
600, 600 and 400 receive the ranks 1, 1 and 2. -/
theorem getCurrentState_dense_rank (db : Db) (hnn : ∀ t ∈ db.teams, 0 ≤ t.currentBid) :
    (∀ r ∈ (getCurrentState db).teams, ∀ k, r.rank = some k →
      k = denseRank db r.currentBid) ∧
    (getCurrentState sampleThree).teams.map (fun r => (r.name, r.currentBid, r.rank)) =
      [("Ada", 600, some 1), ("Cy", 600, some 1), ("Bob", 400, some 2)] := by
  refine ⟨?_, by decide⟩
  intro r hr k hk
  obtain ⟨h1, h2, hmem⟩ := getCurrentState_rank_spec db hnn r hr
  obtain ⟨u, hu, hcu⟩ := List.mem_map.mp hmem
  have hpos : 0 < r.currentBid := by
    have h0 := hnn u hu
    rcases eq_or_lt_of_le h0 with h | h
    · have : r.rank = none := h1.mpr (by rw [← hcu, ← h])
      rw [this] at hk; simp at hk
    · rw [← hcu]; exact h
  rw [h2 hpos] at hk
  exact (Option.some.inj hk).symm

/-- Witness for C9: the team at 400 among 600, 600, 400 has dense rank 2. -/
theorem getCurrentState_dense_rank_witness :
    sampleThreeBobRow ∈ (getCurrentState sampleThree).teams ∧
    2 = denseRank sampleThree sampleThreeBobRow.currentBid :=
  ⟨by decide, (getCurrentState_dense_rank sampleThree (by decide)).1
    sampleThreeBobRow (by decide) 2 (by decide)⟩

theorem rankLoop_rows (ts : List Team) : ∀ (rank : Nat) (lastBid : Option Int),
    (rankLoop rank lastBid ts).map (fun r => (r.id, r.currentBid)) =
      ts.map (fun t => (t.id, t.currentBid)) := by
  induction ts with
  | nil => intro rank lastBid; cases lastBid <;> simp [rankLoop]
  | cons t ts ih =>
    intro rank lastBid
    cases lastBid with
    | none => simp [rankLoop, Standing.ofTeam, ih]
    | some lb =>
      simp only [rankLoop]
      split_ifs <;> simp [Standing.ofTeam, ih]

/-- Claim C10. Over teams with non-negative current bids, in the standings of
`getCurrentState` every team has a row; a row has rank null exactly when its bid is 0; two
rows with equal positive bids have equal ranks; of two rows with positive bids the one with
the strictly greater bid has the strictly smaller rank number; and a row whose positive bid
is the maximum over all teams has rank 1. -/
theorem getCurrentState_ranks_preorder (db : Db) (hnn : ∀ t ∈ db.teams, 0 ≤ t.currentBid) :
    (∀ t ∈ db.teams, ∃ r ∈ (getCurrentState db).teams,
      r.id = t.id ∧ r.currentBid = t.currentBid) ∧
    (∀ r ∈ (getCurrentState db).teams, r.rank = none ↔ r.currentBid = 0) ∧
    (∀ r1 ∈ (getCurrentState db).teams, ∀ r2 ∈ (getCurrentState db).teams,
      0 < r1.currentBid → r1.currentBid = r2.currentBid → r1.rank = r2.rank) ∧
    (∀ r1 ∈ (getCurrentState db).teams, ∀ r2 ∈ (getCurrentState db).teams,
      0 < r2.currentBid → r2.currentBid < r1.currentBid →
      ∃ k1 k2, r1.rank = some k1 ∧ r2.rank = some k2 ∧ k1 < k2) ∧
    (∀ r ∈ (getCurrentState db).teams, 0 < r.currentBid →
      (∀ t ∈ db.teams, t.currentBid ≤ r.currentBid) → r.rank = some 1) := by
  have hspec := getCurrentState_rank_spec db hnn
  refine ⟨?_, fun r hr => (hspec r hr).1, ?_, ?_, ?_⟩
  · intro t ht
    have hperm := List.perm_insertionSort standingsOrder db.teams
    have hrows : (getCurrentState db).teams.map (fun r => (r.id, r.currentBid)) =
        (db.teams.insertionSort standingsOrder).map (fun t => (t.id, t.currentBid)) :=
      rankLoop_rows _ 1 none
    have hmem : (t.id, t.currentBid) ∈
        (getCurrentState db).teams.map (fun r => (r.id, r.currentBid)) := by
      rw [hrows]
      exact List.mem_map.mpr ⟨t, hperm.mem_iff.mpr ht, rfl⟩
    obtain ⟨r, hr, hpair⟩ := List.mem_map.mp hmem
    simp only [Prod.mk.injEq] at hpair
    exact ⟨r, hr, hpair.1, hpair.2⟩
  · intro r1 hr1 r2 hr2 hpos heq
    rw [(hspec r1 hr1).2.1 hpos, (hspec r2 hr2).2.1 (heq ▸ hpos), heq]
  · intro r1 hr1 r2 hr2 hpos hlt
    refine ⟨_, _, (hspec r1 hr1).2.1 (lt_trans hpos hlt), (hspec r2 hr2).2.1 hpos, ?_⟩
    unfold denseRank
    have hsub : (db.teams.map (fun t => t.currentBid)).toFinset.filter
          (fun v => r1.currentBid < v) ⊆
        (db.teams.map (fun t => t.currentBid)).toFinset.filter
          (fun v => r2.currentBid < v) := by
      intro v hv
      simp only [Finset.mem_filter] at hv ⊢
      exact ⟨hv.1, lt_trans hlt hv.2⟩
    have hss := (Finset.ssubset_iff_of_subset hsub).mpr
      ⟨r1.currentBid, by
        simp only [Finset.mem_filter, List.mem_toFinset]
        exact ⟨(hspec r1 hr1).2.2, hlt⟩, by simp⟩
    have := Finset.card_lt_card hss
    omega
  · intro r hr hpos hmax
    rw [(hspec r hr).2.1 hpos]
    unfold denseRank
    simp only [Option.some.injEq, add_right_eq_self, Finset.card_eq_zero,
      Finset.filter_eq_empty_iff, List.mem_toFinset, List.mem_map, not_lt]
    rintro v ⟨t, ht, rfl⟩
    exact hmax t ht

/-- Witness for C10: among current bids 600, 400 and 600, Ada at 600 has rank 1 and is
ranked strictly before Bob at 400. -/
theorem getCurrentState_ranks_preorder_witness :
    sampleThreeAdaRow.rank = some 1 ∧
    (∃ k1 k2, sampleThreeAdaRow.rank = some k1 ∧ sampleThreeBobRow.rank = some k2 ∧ k1 < k2) :=
  ⟨(getCurrentState_ranks_preorder sampleThree (by decide)).2.2.2.2
      sampleThreeAdaRow (by decide) (by decide) (by decide),
   (getCurrentState_ranks_preorder sampleThree (by decide)).2.2.2.1
      sampleThreeAdaRow (by decide) sampleThreeBobRow (by decide) (by decide) (by decide)⟩

/-! ## The ledger invariant -/

theorem orderByIdDescLimit1_mem {α : Type} (key : α → Nat) :
    ∀ (l : List α) (x : α), orderByIdDescLimit1 key l = some x → x ∈ l := by
  intro l
  induction l with
  | nil => intro x h; simp [orderByIdDescLimit1] at h
  | cons r rs ih =>
    intro x h
    simp only [orderByIdDescLimit1] at h
    cases hrs : orderByIdDescLimit1 key rs with
    | none =>
      rw [hrs] at h
      simp only [Option.some.injEq] at h
      exact h ▸ List.mem_cons_self _ _
    | some b =>
      rw [hrs] at h
      simp only at h
      split_ifs at h
      · simp only [Option.some.injEq] at h
        exact List.mem_cons_of_mem _ (ih x (h ▸ hrs))
      · simp only [Option.some.injEq] at h
        exact h ▸ List.mem_cons_self _ _

theorem orderByIdDescLimit1_eq_none {α : Type} (key : α → Nat) (l : List α) :
    orderByIdDescLimit1 key l = none ↔ l = [] := by
  cases l with
  | nil => simp [orderByIdDescLimit1]
  | cons r rs =>
    simp only [orderByIdDescLimit1]
    cases orderByIdDescLimit1 key rs with
    | none => simp
    | some b => simp only; split_ifs <;> simp

/-- On rows stored in increasing id order, `ORDER BY id DESC LIMIT 1` is the last row. -/
theorem orderByIdDescLimit1_eq_getLast? {α : Type} (key : α → Nat) (l : List α)
    (h : l.Pairwise (fun a b => key a < key b)) :
    orderByIdDescLimit1 key l = l.getLast? := by
  induction l with
  | nil => rfl
  | cons r rs ih =>
    have hp := List.pairwise_cons.mp h
    simp only [orderByIdDescLimit1, ih hp.2]
    cases hrs : rs.getLast? with
    | none =>
      have : rs = [] := List.getLast?_eq_none_iff.mp hrs
      subst this; rfl
    | some b =>
      have hb : b ∈ rs := List.mem_of_mem_getLast? hrs
      simp only [if_pos (hp.1 b hb)]
      cases rs with
      | nil => simp at hb
      | cons x xs => rw [List.getLast?_cons_cons, hrs]

theorem latestOpenRound_mem {rounds : List Round} {r : Round}
    (h : latestOpenRound rounds = some r) :
    r ∈ rounds ∧ (r.status = .active ∨ r.status = .pendingClose) := by
  have := orderByIdDescLimit1_mem _ _ _ h
  simpa using this

theorem latestOpenRound_eq_none {rounds : List Round} :
    latestOpenRound rounds = none ↔
      ∀ r ∈ rounds, ¬ (r.status = .active ∨ r.status = .pendingClose) := by
  unfold latestOpenRound
  rw [orderByIdDescLimit1_eq_none, List.filter_eq_nil_iff]
  simp

theorem ladder_succ (k : Nat) :
    ladder (k + 1) = ladder k ++ [START_BID + (k : Int) * INCREMENT] := by
  simp [ladder, List.range_succ]

theorem ladder_getLast? (k : Nat) :
    (ladder (k + 1)).getLast? = some (START_BID + (k : Int) * INCREMENT) := by
  rw [ladder_succ]; simp

theorem mem_ladder {k : Nat} {a : Int} (h : a ∈ ladder k) :
    ∃ j : Nat, j < k ∧ a = START_BID + (j : Int) * INCREMENT := by
  simp only [ladder, List.mem_map, List.mem_range] at h
  obtain ⟨j, hj, rfl⟩ := h
  exact ⟨j, hj, rfl⟩

theorem ladder_length (k : Nat) : (ladder k).length = k := by
  simp [ladder]

theorem Inv_logEvent (db : Db) (p : Payload) (now : Int) :
    Inv (logEvent db p now) ↔ Inv db := Iff.rfl

theorem inv_init : Inv State.empty.db := by
  refine ⟨?_, ?_, ?_, ?_, ?_, ?_, ?_, ?_, ?_, ?_, ?_, ?_, ?_, ?_, ?_⟩ <;>
    simp [State.empty, bidsOf]
  exact ⟨0, by omega, rfl⟩

theorem mem_bidsOf {bids : List Bid} {roundId : Nat} {teamId : String} {b : Bid} :
    b ∈ bidsOf bids roundId teamId ↔ b ∈ bids ∧ b.teamId = teamId ∧ b.roundId = roundId := by
  simp [bidsOf]

theorem bidsOf_append (bids more : List Bid) (roundId : Nat) (teamId : String) :
    bidsOf (bids ++ more) roundId teamId =
      bidsOf bids roundId teamId ++ bidsOf more roundId teamId := by
  simp [bidsOf]

theorem bidsOf_filter (bids : List Bid) (p : Bid → Bool) (roundId : Nat) (teamId : String) :
    bidsOf (bids.filter p) roundId teamId = (bidsOf bids roundId teamId).filter p := by
  simp only [bidsOf, List.filter_filter]
  apply List.filter_congr
  intro x _
  exact Bool.and_comm _ _

theorem bidsOf_pairwise {bids : List Bid} (h : bids.Pairwise (fun a b => a.id < b.id))
    (roundId : Nat) (teamId : String) :
    (bidsOf bids roundId teamId).Pairwise (fun a b => a.id < b.id) :=
  List.Pairwise.filter _ h

theorem pairwise_id_unique {bids : List Bid} (h : bids.Pairwise (fun a b => a.id < b.id)) :
    ∀ a ∈ bids, ∀ b ∈ bids, a.id = b.id → a = b := by
  induction bids with
  | nil => simp
  | cons x xs ih =>
    have hp := List.pairwise_cons.mp h
    intro a ha b hb hab
    rcases List.mem_cons.mp ha with ha | ha <;> rcases List.mem_cons.mp hb with hb | hb
    · rw [ha, hb]
    · have := hp.1 b hb; rw [ha] at hab; omega
    · have := hp.1 a ha; rw [hb] at hab; omega
    · exact ih hp.2 a ha b hb hab

theorem filter_ne_last {l : List Bid} {lb : Bid} (h : l.Pairwise (fun a b => a.id < b.id))
    (hl : l.getLast? = some lb) :
    l.filter (fun b => decide (b.id ≠ lb.id)) = l.dropLast := by
  have hsplit : l.dropLast ++ [lb] = l := List.dropLast_append_getLast? lb hl
  generalize l.dropLast = l0 at hsplit
  subst hsplit
  have hp := List.pairwise_append.mp h
  rw [List.filter_append]
  have h1 : l0.filter (fun b => decide (b.id ≠ lb.id)) = l0 := by
    rw [List.filter_eq_self]
    intro a ha
    have := hp.2.2 a ha lb (List.mem_singleton_self _)
    simp only [ne_eq, decide_not, Bool.not_eq_true', decide_eq_false_iff_not]
    omega
  rw [h1]
  simp

theorem lastMatches_congr {t u : Team} (h1 : u.currentBid = t.currentBid)
    (h2 : u.lastBidTime = t.lastBidTime) (ob : Option Bid) :
    lastMatches u ob ↔ lastMatches t ob := by
  cases ob <;> simp [lastMatches, h1, h2]

theorem nodup_map_key {α : Type} {teams : List Team} (f : Team → Team) (key : Team → α)
    (hk : ∀ t, key (f t) = key t) (h : (teams.map key).Nodup) :
    ((teams.map f).map key).Nodup := by
  have heq : (teams.map f).map key = teams.map key := by
    rw [List.map_map]
    exact List.map_congr_left (fun t _ => hk t)
  rw [heq]
  exact h

theorem nodup_filter_key {α : Type} {teams : List Team} (p : Team → Bool) (key : Team → α)
    (h : (teams.map key).Nodup) : ((teams.filter p).map key).Nodup :=
  h.sublist ((List.filter_sublist teams).map key)

theorem nodup_concat_key {α : Type} {teams : List Team} {new : Team} (key : Team → α)
    (h : (teams.map key).Nodup) (hnew : ∀ u ∈ teams, key u ≠ key new) :
    ((teams ++ [new]).map key).Nodup := by
  rw [List.map_append, List.map_singleton]
  refine List.Nodup.append h (List.nodup_singleton _) ?_
  intro a ha hb
  simp only [List.mem_singleton] at hb
  obtain ⟨u, hu, rfl⟩ := List.mem_map.mp ha
  exact hnew u hu hb

theorem roundIds_map {rounds : List Round} (f : Round → Round) (hid : ∀ r, (f r).id = r.id)
    (h : rounds.Pairwise (fun a b => a.id < b.id)) :
    (rounds.map f).Pairwise (fun a b => a.id < b.id) := by
  rw [List.pairwise_map]
  refine h.imp ?_
  intro a b hab
  rw [hid a, hid b]
  exact hab

theorem roundIds_concat {rounds : List Round} {new : Round} {rs : Nat}
    (h : rounds.Pairwise (fun a b => a.id < b.id)) (hle : ∀ r ∈ rounds, r.id ≤ rs)
    (hid : new.id = rs + 1) : (rounds ++ [new]).Pairwise (fun a b => a.id < b.id) := by
  refine List.pairwise_append.mpr ⟨h, List.pairwise_singleton _ _, ?_⟩
  intro a ha b hb
  simp only [List.mem_singleton] at hb
  have := hle a ha
  rw [hb, hid]
  omega

/-- An update of team rows that keeps id, current bid and last bid time keeps the invariant. -/
theorem LedgerInv.map_teams {teams : List Team} {rounds : List Round} {bids : List Bid}
    {rs bs : Nat} (f : Team → Team)
    (hf : ∀ t, (f t).id = t.id ∧ (f t).currentBid = t.currentBid ∧
      (f t).lastBidTime = t.lastBidTime ∧ (f t).token = t.token ∧ (f t).name = t.name)
    (h : LedgerInv teams rounds bids rs bs) : LedgerInv (teams.map f) rounds bids rs bs := by
  refine ⟨h.bidIds, h.bidSeq_le, h.bidRound_le, h.roundSeq_le, h.noPending, h.oneActive,
    ?_, h.ladders, ?_, ?_, ?_, h.roundIds,
    nodup_map_key f _ (fun t => (hf t).1) h.teamIds,
    nodup_map_key f _ (fun t => (hf t).2.2.2.1) h.tokens,
    nodup_map_key f (fun t => sqlLower t.name) (fun t => congrArg sqlLower (hf t).2.2.2.2) h.names⟩
  · intro b hb
    obtain ⟨t, ht, hid⟩ := h.fk b hb
    exact ⟨f t, List.mem_map.mpr ⟨t, ht, rfl⟩, by rw [(hf t).1, hid]⟩
  · intro r hr u hu
    obtain ⟨t, ht, rfl⟩ := List.mem_map.mp hu
    rw [(hf t).1, lastMatches_congr (hf t).2.1 (hf t).2.2.1]
    exact h.sync r hr t ht
  · intro u hu
    obtain ⟨t, ht, rfl⟩ := List.mem_map.mp hu
    rw [(hf t).2.1]
    exact h.rungs t ht
  · intro u hu
    obtain ⟨t, ht, rfl⟩ := List.mem_map.mp hu
    rw [(hf t).1, (hf t).2.2.2.1]
    exact h.ids t ht

theorem isRung_zero : isRung 0 := Or.inl rfl

/-- Starting a round when none is open keeps the invariant. -/
theorem LedgerInv.start {teams : List Team} {rounds : List Round} {bids : List Bid}
    {rs bs : Nat} (h : LedgerInv teams rounds bids rs bs)
    (hnone : latestOpenRound rounds = none) (new : Round) (hid : new.id = rs + 1)
    (hst : new.status = .active) :
    LedgerInv (teams.map (fun t => { t with currentBid := 0, lastBidTime := none }))
      (rounds ++ [new]) bids (rs + 1) bs := by
  have hclosed := latestOpenRound_eq_none.mp hnone
  have hlatest : latestOpenRound (rounds ++ [new]) = some new := by
    have hfil : rounds.filter
        (fun r => decide (r.status = .active ∨ r.status = .pendingClose)) = [] := by
      rw [List.filter_eq_nil_iff]
      intro r hr
      simpa using hclosed r hr
    unfold latestOpenRound
    rw [List.filter_append, hfil]
    simp [orderByIdDescLimit1, hst]
  refine ⟨h.bidIds, h.bidSeq_le, ?_, ?_, ?_, ?_, ?_, h.ladders, ?_, ?_, ?_,
    roundIds_concat h.roundIds h.roundSeq_le hid,
    nodup_map_key _ _ (fun _ => rfl) h.teamIds,
    nodup_map_key _ _ (fun _ => rfl) h.tokens,
    nodup_map_key _ (fun t => sqlLower t.name) (fun _ => rfl) h.names⟩
  · intro b hb
    exact Nat.le_succ_of_le (h.bidRound_le b hb)
  · intro r hr
    rcases List.mem_append.mp hr with hr | hr
    · exact Nat.le_succ_of_le (h.roundSeq_le r hr)
    · simp only [List.mem_singleton] at hr
      rw [hr, hid]
  · intro r hr
    rcases List.mem_append.mp hr with hr | hr
    · exact h.noPending r hr
    · simp only [List.mem_singleton] at hr
      rw [hr, hst]
      simp
  · intro r hr hact
    rcases List.mem_append.mp hr with hr | hr
    · exact absurd (Or.inl hact) (hclosed r hr)
    · simp only [List.mem_singleton] at hr
      rw [hr]
      exact hlatest
  · intro b hb
    obtain ⟨t, ht, hid⟩ := h.fk b hb
    exact ⟨_, List.mem_map.mpr ⟨t, ht, rfl⟩, hid⟩
  · intro r hr u hu
    rw [hlatest] at hr
    simp only [Option.some.injEq] at hr
    subst hr
    obtain ⟨t, ht, rfl⟩ := List.mem_map.mp hu
    have hempty : bidsOf bids new.id t.id = [] := by
      rw [bidsOf, List.filter_eq_nil_iff]
      intro b hb
      have := h.bidRound_le b hb
      simp only [decide_eq_true_eq, not_and]
      intro _
      omega
    simp [hempty, lastMatches]
  · intro u hu
    obtain ⟨t, ht, rfl⟩ := List.mem_map.mp hu
    exact isRung_zero
  · intro u hu
    obtain ⟨t, ht, rfl⟩ := List.mem_map.mp hu
    exact h.ids t ht

/-- Closing the round that `getActiveRound` returns leaves no open round and keeps the
invariant. -/
theorem LedgerInv.close {teams : List Team} {rounds : List Round} {bids : List Bid}
    {rs bs : Nat} (h : LedgerInv teams rounds bids rs bs) (round : Round)
    (hround : latestOpenRound rounds = some round) (now : Int) :
    LedgerInv teams
      (rounds.map (fun r =>
        if r.id = round.id then { r with status := .closed, endTime := now } else r))
      bids rs bs := by
  have hnoact : ∀ r ∈ rounds.map (fun r =>
      if r.id = round.id then { r with status := .closed, endTime := now } else r),
      ¬ (r.status = .active ∨ r.status = .pendingClose) := by
    intro r hr
    obtain ⟨r0, hr0, rfl⟩ := List.mem_map.mp hr
    by_cases hid : r0.id = round.id
    · simp [hid]
    · simp only [hid, if_false]
      rintro (hact | hpend)
      · have := h.oneActive r0 hr0 hact
        rw [hround] at this
        simp only [Option.some.injEq] at this
        exact hid (by rw [this])
      · exact h.noPending r0 hr0 hpend
  have hnone := latestOpenRound_eq_none.mpr hnoact
  refine ⟨h.bidIds, h.bidSeq_le, h.bidRound_le, ?_, ?_, ?_, h.fk, h.ladders, ?_, h.rungs,
    h.ids, roundIds_map _ (fun r => by split_ifs <;> rfl) h.roundIds,
    h.teamIds, h.tokens, h.names⟩
  · intro r hr
    obtain ⟨r0, hr0, rfl⟩ := List.mem_map.mp hr
    have := h.roundSeq_le r0 hr0
    split_ifs <;> simpa using this
  · intro r hr
    exact fun hp => hnoact r hr (Or.inr hp)
  · intro r hr hact
    exact absurd (Or.inl hact) (hnoact r hr)
  · intro r hr
    rw [hnone] at hr
    simp at hr

/-- Resetting (every team zeroed, every open round set to idle) keeps the invariant. -/
theorem LedgerInv.reset {teams : List Team} {rounds : List Round} {bids : List Bid}
    {rs bs : Nat} (h : LedgerInv teams rounds bids rs bs) :
    LedgerInv (teams.map (fun t => { t with currentBid := 0, lastBidTime := none }))
      (rounds.map (fun r =>
        if r.status = .active ∨ r.status = .pendingClose then { r with status := .idle }
        else r))
      bids rs bs := by
  have hnoact : ∀ r ∈ rounds.map (fun r =>
      if r.status = .active ∨ r.status = .pendingClose then { r with status := .idle }
      else r), ¬ (r.status = .active ∨ r.status = .pendingClose) := by
    intro r hr
    obtain ⟨r0, hr0, rfl⟩ := List.mem_map.mp hr
    by_cases hop : r0.status = .active ∨ r0.status = .pendingClose
    · simp [hop]
    · rw [if_neg hop]
      exact hop
  have hnone := latestOpenRound_eq_none.mpr hnoact
  refine ⟨h.bidIds, h.bidSeq_le, h.bidRound_le, ?_, ?_, ?_, ?_, h.ladders, ?_, ?_, ?_,
    roundIds_map _ (fun r => by split_ifs <;> rfl) h.roundIds,
    nodup_map_key _ _ (fun _ => rfl) h.teamIds,
    nodup_map_key _ _ (fun _ => rfl) h.tokens,
    nodup_map_key _ (fun t => sqlLower t.name) (fun _ => rfl) h.names⟩
  · intro r hr
    obtain ⟨r0, hr0, rfl⟩ := List.mem_map.mp hr
    have := h.roundSeq_le r0 hr0
    split_ifs <;> simpa using this
  · intro r hr
    exact fun hp => hnoact r hr (Or.inr hp)
  · intro r hr hact
    exact absurd (Or.inl hact) (hnoact r hr)
  · intro b hb
    obtain ⟨t, ht, hid⟩ := h.fk b hb
    exact ⟨_, List.mem_map.mpr ⟨t, ht, rfl⟩, hid⟩
  · intro r hr
    rw [hnone] at hr
    simp at hr
  · intro u hu
    obtain ⟨t, ht, rfl⟩ := List.mem_map.mp hu
    exact isRung_zero
  · intro u hu
    obtain ⟨t, ht, rfl⟩ := List.mem_map.mp hu
    exact h.ids t ht

/-- When a team row agrees with the last of its `k` ladder bids, its next bid is rung `k`. -/
theorem next_rung {F : List Bid} {k : Nat} {t : Team}
    (hlad : F.map (fun b => b.amount) = ladder k) (hm : lastMatches t F.getLast?) :
    (if t.currentBid = 0 then START_BID else t.currentBid + INCREMENT) =
      START_BID + (k : Int) * INCREMENT := by
  cases k with
  | zero =>
    have hF : F = [] := by
      have : F.map (fun b => b.amount) = [] := by rw [hlad]; rfl
      exact List.map_eq_nil_iff.mp this
    subst hF
    simp only [List.getLast?_nil, lastMatches] at hm
    simp [hm.1]
  | succ k =>
    have hl : (F.map (fun b => b.amount)).getLast? =
        some (START_BID + (k : Int) * INCREMENT) := by rw [hlad, ladder_getLast?]
    rw [List.getLast?_map] at hl
    cases hF : F.getLast? with
    | none => rw [hF] at hl; simp at hl
    | some b =>
      rw [hF] at hl hm
      simp only [Option.map_some', Option.some.injEq] at hl
      simp only [lastMatches] at hm
      rw [hm.1, hl]
      simp only [START_BID, INCREMENT]
      push_cast
      split_ifs <;> omega

theorem setBid_id (teamId : String) (c : Int) (l : Option Int) (t : Team) :
    (if t.id = teamId then { t with currentBid := c, lastBidTime := l } else t).id = t.id := by
  split_ifs <;> rfl

theorem setBid_token (teamId : String) (c : Int) (l : Option Int) (t : Team) :
    (if t.id = teamId then { t with currentBid := c, lastBidTime := l } else t).token =
      t.token := by
  split_ifs <;> rfl

theorem setBid_name (teamId : String) (c : Int) (l : Option Int) (t : Team) :
    (if t.id = teamId then { t with currentBid := c, lastBidTime := l } else t).name =
      t.name := by
  split_ifs <;> rfl

/-- An accepted bid keeps the invariant. -/
theorem LedgerInv.bid {teams : List Team} {rounds : List Round} {bids : List Bid}
    {rs bs : Nat} (h : LedgerInv teams rounds bids rs bs) (round : Round)
    (hround : latestOpenRound rounds = some round) (fresh : Team) (hfresh : fresh ∈ teams)
    (now : Int) (n : Int)
    (hn : n = if fresh.currentBid = 0 then START_BID else fresh.currentBid + INCREMENT)
    (hmax : ¬ (n > MAX_BID)) (nb : Bid) (hnb : nb.id = bs + 1)
    (hnbr : nb.roundId = round.id) (hnbt : nb.teamId = fresh.id) (hnba : nb.amount = n)
    (hnbs : nb.timestamp = now) :
    LedgerInv
      (teams.map (fun t =>
        if t.id = fresh.id then { t with currentBid := n, lastBidTime := some now } else t))
      rounds (bids ++ [nb]) rs (bs + 1) := by
  obtain ⟨k, hk9, hlad⟩ := h.ladders round.id fresh.id
  have hsync := h.sync round hround fresh hfresh
  have hn2 : n = START_BID + (k : Int) * INCREMENT := by rw [hn]; exact next_rung hlad hsync
  have hk8 : k ≤ 8 := by
    simp only [START_BID, INCREMENT, MAX_BID] at hn2 hmax
    omega
  have hone : ∀ rid tid, bidsOf [nb] rid tid =
      if fresh.id = tid ∧ round.id = rid then [nb] else [] := by
    intro rid tid
    simp only [bidsOf, List.filter_cons, List.filter_nil, hnbt, hnbr]
    by_cases hc : fresh.id = tid ∧ round.id = rid
    · simp [hc]
    · simp [hc]
  refine ⟨?_, ?_, ?_, h.roundSeq_le, h.noPending, h.oneActive, ?_, ?_, ?_, ?_, ?_,
    h.roundIds,
    nodup_map_key _ _ (fun t => setBid_id _ _ _ t) h.teamIds,
    nodup_map_key _ _ (fun t => setBid_token _ _ _ t) h.tokens,
    nodup_map_key _ (fun t => sqlLower t.name) (fun t => congrArg sqlLower (setBid_name _ _ _ t)) h.names⟩
  · refine List.pairwise_append.mpr ⟨h.bidIds, List.pairwise_singleton _ _, ?_⟩
    intro a ha b hb
    simp only [List.mem_singleton] at hb
    have := h.bidSeq_le a ha
    rw [hb, hnb]
    omega
  · intro b hb
    rcases List.mem_append.mp hb with hb | hb
    · exact Nat.le_succ_of_le (h.bidSeq_le b hb)
    · simp only [List.mem_singleton] at hb
      rw [hb, hnb]
  · intro b hb
    rcases List.mem_append.mp hb with hb | hb
    · exact h.bidRound_le b hb
    · simp only [List.mem_singleton] at hb
      rw [hb, hnbr]
      exact h.roundSeq_le round (latestOpenRound_mem hround).1
  · intro b hb
    rcases List.mem_append.mp hb with hb | hb
    · obtain ⟨t, ht, hid⟩ := h.fk b hb
      exact ⟨_, List.mem_map.mpr ⟨t, ht, rfl⟩, by rw [setBid_id, hid]⟩
    · simp only [List.mem_singleton] at hb
      exact ⟨_, List.mem_map.mpr ⟨fresh, hfresh, rfl⟩, by rw [setBid_id, hb, hnbt]⟩
  · intro rid tid
    rw [bidsOf_append, hone]
    by_cases hc : fresh.id = tid ∧ round.id = rid
    · rw [if_pos hc, ← hc.1, ← hc.2]
      refine ⟨k + 1, by omega, ?_⟩
      rw [List.map_append, hlad, ladder_succ, List.map_singleton, hnba, hn2]
    · rw [if_neg hc, List.append_nil]
      exact h.ladders rid tid
  · intro r hr u hu
    rw [hround] at hr
    simp only [Option.some.injEq] at hr
    subst hr
    obtain ⟨t, ht, rfl⟩ := List.mem_map.mp hu
    rw [setBid_id, bidsOf_append, hone]
    by_cases hid : t.id = fresh.id
    · rw [if_pos hid, if_pos ⟨hid.symm, rfl⟩, List.getLast?_concat]
      simp [lastMatches, hnba, hnbs]
    · rw [if_neg hid, if_neg (fun hc => hid hc.1.symm), List.append_nil]
      exact h.sync _ hround t ht
  · intro u hu
    obtain ⟨t, ht, rfl⟩ := List.mem_map.mp hu
    by_cases hid : t.id = fresh.id
    · rw [if_pos hid]
      exact Or.inr ⟨k, hk8, hn2⟩
    · rw [if_neg hid]
      exact h.rungs t ht
  · intro u hu
    obtain ⟨t, ht, rfl⟩ := List.mem_map.mp hu
    rw [setBid_id, setBid_token]
    exact h.ids t ht

/-- Cancelling the latest bid of a team in the current round keeps the invariant. -/
theorem LedgerInv.cancel {teams : List Team} {rounds : List Round} {bids : List Bid}
    {rs bs : Nat} (h : LedgerInv teams rounds bids rs bs) (round : Round)
    (hround : latestOpenRound rounds = some round) (teamId : String) (lb : Bid)
    (hlb : (bidsOf bids round.id teamId).getLast? = some lb) (c : Int) (l : Option Int)
    (hc : c = prevAmount
      (bidsOf (bids.filter (fun b => decide (b.id ≠ lb.id))) round.id teamId).getLast?)
    (hl : l = prevTimestamp
      (bidsOf (bids.filter (fun b => decide (b.id ≠ lb.id))) round.id teamId).getLast?) :
    LedgerInv
      (teams.map (fun t =>
        if t.id = teamId then { t with currentBid := c, lastBidTime := l } else t))
      rounds (bids.filter (fun b => decide (b.id ≠ lb.id))) rs bs := by
  have hlbmem := mem_bidsOf.mp (List.mem_of_mem_getLast? hlb)
  have hpF := bidsOf_pairwise h.bidIds round.id teamId
  have hF2 : bidsOf (bids.filter (fun b => decide (b.id ≠ lb.id))) round.id teamId =
      (bidsOf bids round.id teamId).dropLast := by
    rw [bidsOf_filter, filter_ne_last hpF hlb]
  have hother : ∀ rid tid, ¬ (tid = teamId ∧ rid = round.id) →
      bidsOf (bids.filter (fun b => decide (b.id ≠ lb.id))) rid tid = bidsOf bids rid tid := by
    intro rid tid hne
    rw [bidsOf_filter, List.filter_eq_self]
    intro b hb
    have hbm := mem_bidsOf.mp hb
    simp only [ne_eq, decide_not, Bool.not_eq_true', decide_eq_false_iff_not]
    intro hid
    have hbl := pairwise_id_unique h.bidIds b hbm.1 lb hlbmem.1 hid
    rw [hbl] at hbm
    exact hne ⟨hbm.2.1.symm.trans hlbmem.2.1, hbm.2.2.symm.trans hlbmem.2.2⟩
  obtain ⟨k, hk9, hlad⟩ := h.ladders round.id teamId
  have hsplit : (bidsOf bids round.id teamId).dropLast ++ [lb] = bidsOf bids round.id teamId :=
    List.dropLast_append_getLast? lb hlb
  have hlad2 : ∃ k2, k2 + 1 = k ∧
      ((bidsOf bids round.id teamId).dropLast).map (fun b => b.amount) = ladder k2 := by
    cases k with
    | zero =>
      have : bidsOf bids round.id teamId = [] := by
        have : (bidsOf bids round.id teamId).map (fun b => b.amount) = [] := by
          rw [hlad]; rfl
        exact List.map_eq_nil_iff.mp this
      rw [this] at hlb
      simp at hlb
    | succ k2 =>
      refine ⟨k2, rfl, ?_⟩
      rw [← hsplit, List.map_append, ladder_succ] at hlad
      exact (List.append_inj' hlad (by simp)).1
  obtain ⟨k2, hk2, hlad2⟩ := hlad2
  have hcl : ∀ u : Team, u.currentBid = c → u.lastBidTime = l → lastMatches u
      (bidsOf (bids.filter (fun b => decide (b.id ≠ lb.id))) round.id teamId).getLast? := by
    intro u h1 h2
    cases hprev : (bidsOf (bids.filter (fun b => decide (b.id ≠ lb.id)))
      round.id teamId).getLast? with
    | none =>
      rw [hprev] at hc hl
      simp [lastMatches, h1, h2, hc, hl, prevAmount, prevTimestamp]
    | some p =>
      rw [hprev] at hc hl
      simp [lastMatches, h1, h2, hc, hl, prevAmount, prevTimestamp]
  refine ⟨List.Pairwise.filter _ h.bidIds, ?_, ?_, h.roundSeq_le, h.noPending, h.oneActive,
    ?_, ?_, ?_, ?_, ?_, h.roundIds,
    nodup_map_key _ _ (fun t => setBid_id _ _ _ t) h.teamIds,
    nodup_map_key _ _ (fun t => setBid_token _ _ _ t) h.tokens,
    nodup_map_key _ (fun t => sqlLower t.name) (fun t => congrArg sqlLower (setBid_name _ _ _ t)) h.names⟩
  · intro b hb
    exact h.bidSeq_le b (List.mem_filter.mp hb).1
  · intro b hb
    exact h.bidRound_le b (List.mem_filter.mp hb).1
  · intro b hb
    obtain ⟨t, ht, hid⟩ := h.fk b (List.mem_filter.mp hb).1
    exact ⟨_, List.mem_map.mpr ⟨t, ht, rfl⟩, by rw [setBid_id, hid]⟩
  · intro rid tid
    by_cases hkey : tid = teamId ∧ rid = round.id
    · rw [hkey.1, hkey.2, hF2]
      exact ⟨k2, by omega, hlad2⟩
    · rw [hother rid tid hkey]
      exact h.ladders rid tid
  · intro r hr u hu
    rw [hround] at hr
    simp only [Option.some.injEq] at hr
    subst hr
    obtain ⟨t, ht, rfl⟩ := List.mem_map.mp hu
    rw [setBid_id]
    by_cases hid : t.id = teamId
    · rw [if_pos hid, hid]
      exact hcl _ rfl rfl
    · rw [if_neg hid, hother _ _ (fun hkey => hid hkey.1)]
      exact h.sync _ hround t ht
  · intro u hu
    obtain ⟨t, ht, rfl⟩ := List.mem_map.mp hu
    by_cases hid : t.id = teamId
    · rw [if_pos hid]
      show isRung c
      rw [hF2] at hc
      cases hprev : (bidsOf bids round.id teamId).dropLast.getLast? with
      | none =>
        rw [hprev] at hc
        exact Or.inl hc
      | some p =>
        rw [hprev] at hc
        have hp : p.amount ∈ ladder k2 := by
          rw [← hlad2]
          exact List.mem_map.mpr ⟨p, List.mem_of_mem_getLast? hprev, rfl⟩
        obtain ⟨j, hj, hpj⟩ := mem_ladder hp
        exact Or.inr ⟨j, by omega, hc.trans hpj⟩
    · rw [if_neg hid]
      exact h.rungs t ht
  · intro u hu
    obtain ⟨t, ht, rfl⟩ := List.mem_map.mp hu
    rw [setBid_id, setBid_token]
    exact h.ids t ht

/-- Removing a team together with its bids keeps the invariant. -/
theorem LedgerInv.remove {teams : List Team} {rounds : List Round} {bids : List Bid}
    {rs bs : Nat} (h : LedgerInv teams rounds bids rs bs) (teamId : String) :
    LedgerInv (teams.filter (fun t => decide (t.id ≠ teamId))) rounds
      (bids.filter (fun b => decide (b.teamId ≠ teamId))) rs bs := by
  have hsame : ∀ rid tid, tid ≠ teamId →
      bidsOf (bids.filter (fun b => decide (b.teamId ≠ teamId))) rid tid =
        bidsOf bids rid tid := by
    intro rid tid hne
    rw [bidsOf_filter, List.filter_eq_self]
    intro b hb
    have hbm := mem_bidsOf.mp hb
    simp only [ne_eq, decide_not, Bool.not_eq_true', decide_eq_false_iff_not]
    rw [hbm.2.1]
    exact hne
  have hgone : ∀ rid,
      bidsOf (bids.filter (fun b => decide (b.teamId ≠ teamId))) rid teamId = [] := by
    intro rid
    rw [bidsOf_filter, List.filter_eq_nil_iff]
    intro b hb
    have hbm := mem_bidsOf.mp hb
    simp [hbm.2.1]
  refine ⟨List.Pairwise.filter _ h.bidIds, ?_, ?_, h.roundSeq_le, h.noPending, h.oneActive,
    ?_, ?_, ?_, ?_, ?_, h.roundIds, nodup_filter_key _ _ h.teamIds,
    nodup_filter_key _ _ h.tokens, nodup_filter_key _ _ h.names⟩
  · intro b hb
    exact h.bidSeq_le b (List.mem_filter.mp hb).1
  · intro b hb
    exact h.bidRound_le b (List.mem_filter.mp hb).1
  · intro b hb
    have hbm := List.mem_filter.mp hb
    obtain ⟨t, ht, hid⟩ := h.fk b hbm.1
    refine ⟨t, List.mem_filter.mpr ⟨ht, ?_⟩, hid⟩
    have := hbm.2
    simp only [ne_eq, decide_not, Bool.not_eq_true', decide_eq_false_iff_not] at this ⊢
    rw [hid]
    exact this
  · intro rid tid
    by_cases hc : tid = teamId
    · rw [hc, hgone]
      exact ⟨0, by omega, rfl⟩
    · rw [hsame rid tid hc]
      exact h.ladders rid tid
  · intro r hr t ht
    have htm := List.mem_filter.mp ht
    have hne : t.id ≠ teamId := by simpa using htm.2
    rw [hsame _ _ hne]
    exact h.sync r hr t htm.1
  · intro t ht
    exact h.rungs t (List.mem_filter.mp ht).1
  · intro t ht
    exact h.ids t (List.mem_filter.mp ht).1

/-- Adding a fresh team (no stored row has its id) with no current bid keeps the invariant. -/
theorem LedgerInv.join {teams : List Team} {rounds : List Round} {bids : List Bid}
    {rs bs : Nat} (h : LedgerInv teams rounds bids rs bs) (new : Team)
    (hnew : ∀ u ∈ teams, u.id ≠ new.id) (hbid : new.currentBid = 0)
    (htime : new.lastBidTime = none) (hids : new.id ≠ "" ∧ new.token ≠ "")
    (hnewToken : ∀ u ∈ teams, u.token ≠ new.token)
    (hnewName : ∀ u ∈ teams, sqlLower u.name ≠ sqlLower new.name) :
    LedgerInv (teams ++ [new]) rounds bids rs bs := by
  refine ⟨h.bidIds, h.bidSeq_le, h.bidRound_le, h.roundSeq_le, h.noPending, h.oneActive,
    ?_, h.ladders, ?_, ?_, ?_, h.roundIds, nodup_concat_key _ h.teamIds hnew,
    nodup_concat_key _ h.tokens hnewToken,
    nodup_concat_key (fun t => sqlLower t.name) h.names hnewName⟩
  · intro b hb
    obtain ⟨t, ht, hid⟩ := h.fk b hb
    exact ⟨t, List.mem_append_left _ ht, hid⟩
  · intro r hr t ht
    rcases List.mem_append.mp ht with ht | ht
    · exact h.sync r hr t ht
    · simp only [List.mem_singleton] at ht
      subst ht
      have hempty : bidsOf bids r.id t.id = [] := by
        rw [bidsOf, List.filter_eq_nil_iff]
        intro b hb
        obtain ⟨u, hu, hid⟩ := h.fk b hb
        simp only [decide_eq_true_eq, not_and]
        intro hbt
        exact absurd (hid.trans hbt) (hnew u hu)
      rw [hempty]
      exact ⟨hbid, htime⟩
  · intro t ht
    rcases List.mem_append.mp ht with ht | ht
    · exact h.rungs t ht
    · simp only [List.mem_singleton] at ht
      rw [ht, hbid]
      exact isRung_zero
  · intro t ht
    rcases List.mem_append.mp ht with ht | ht
    · exact h.ids t ht
    · simp only [List.mem_singleton] at ht
      rw [ht]
      exact hids

/-! ## Every request keeps the invariant -/

theorem teamById_mem {db : Db} {teamId : String} {t : Team} (h : teamById db teamId = some t) :
    t ∈ db.teams ∧ t.id = teamId := by
  unfold teamById at h
  exact ⟨List.mem_of_find?_eq_some h, by simpa using List.find?_some h⟩

/-- The two outcomes of a bid attempt: the state is kept, or the bid of the re-read team
row is written (team row, bid row, event, cooldown entry). -/
theorem attemptBid_cases (s : State) (token : String) (now : Int) :
    ((attemptBid s token now).1 = s ∧ ∃ msg, (attemptBid s token now).2 = .error msg) ∨
    ∃ team round fresh n, teamByToken s.db token = some team ∧
      getActiveRound s.db = some round ∧ round.status = .active ∧
      teamById s.db team.id = some fresh ∧
      n = (if fresh.currentBid = 0 then START_BID else fresh.currentBid + INCREMENT) ∧
      ¬ (n > MAX_BID) ∧ ¬ (n > fresh.wallet) ∧
      (attemptBid s token now).1 =
        { db := logEvent (insertBid (setTeamBid s.db team.id n (some now))
            round.id team.id n now) (.bid round.id team.id n) now,
          teamCooldowns := cooldownSet s.teamCooldowns team.id now } := by
  by_cases h1 : token = ""
  · left; simp [attemptBid, h1]
  · cases hteam : teamByToken s.db token with
    | none => left; simp [attemptBid, h1, hteam]
    | some team =>
      cases hround : getActiveRound s.db with
      | none => left; simp [attemptBid, h1, hteam, hround]
      | some round =>
        by_cases hact : round.status = .active
        · by_cases hl : team.locked = 0
          · by_cases hc : now - cooldownGet s.teamCooldowns team.id < COOLDOWN_MS
            · left; simp [attemptBid, h1, hteam, hround, hact, hl, hc]
            · cases hf : teamById s.db team.id with
              | none => left; simp [attemptBid, h1, hteam, hround, hact, hl, hc, bidTx, hf]
              | some fresh =>
                by_cases hm : (if fresh.currentBid = 0 then START_BID
                    else fresh.currentBid + INCREMENT) > MAX_BID
                · left
                  simp [attemptBid, h1, hteam, hround, hact, hl, hc, bidTx, hf, hm]
                · by_cases hw : (if fresh.currentBid = 0 then START_BID
                      else fresh.currentBid + INCREMENT) > fresh.wallet
                  · left
                    simp [attemptBid, h1, hteam, hround, hact, hl, hc, bidTx, hf, hm, hw]
                  · right
                    refine ⟨team, round, fresh, _, rfl, rfl, hact, hf, rfl, hm, hw, ?_⟩
                    have htx : bidTx s.db team.id round.id now = .ok
                        (logEvent (insertBid (setTeamBid s.db team.id
                          (if fresh.currentBid = 0 then START_BID
                            else fresh.currentBid + INCREMENT)
                          (some now)) round.id team.id
                          (if fresh.currentBid = 0 then START_BID
                            else fresh.currentBid + INCREMENT)
                          now) (.bid round.id team.id
                          (if fresh.currentBid = 0 then START_BID
                            else fresh.currentBid + INCREMENT))
                          now) := by
                      simp only [bidTx, hf, hm, hw, if_false]
                    obtain ⟨view, hview⟩ := teamStateFor_isSome _ team.id (bidTx_ok_team htx)
                    simp [attemptBid, h1, hteam, hround, hact, hl, hc, htx, hview]
          · left; simp [attemptBid, h1, hteam, hround, hact, hl]
        · left; simp [attemptBid, h1, hteam, hround, hact]

theorem inv_attemptBid (s : State) (token : String) (now : Int) (h : Inv s.db) :
    Inv (attemptBid s token now).1.db := by
  rcases attemptBid_cases s token now with hsame | ⟨team, round, fresh, n, _, hround, _, hf,
    hn, hm, _, hrun⟩
  · rw [hsame.1]; exact h
  · rw [hrun]
    have hfm := teamById_mem hf
    have := LedgerInv.bid h round hround fresh hfm.1 now n hn hm
      { id := s.db.bidSeq + 1, roundId := round.id, teamId := team.id, amount := n,
        timestamp := now } rfl rfl hfm.2.symm rfl rfl
    rw [hfm.2] at this
    exact this

theorem inv_join (s : State) (name token newId newToken : String) (now : Int)
    (huuid : newId ≠ "" ∧ newToken ≠ "") (h : Inv s.db) :
    Inv (join s name token newId newToken now).1.db := by
  unfold join
  by_cases hname : name = ""
  · rw [if_pos hname]; exact h
  · rw [if_neg hname]
    simp only
    cases (if token = "" then none else teamByToken s.db token) with
    | some existing =>
      simp only
      cases teamStateFor s.db existing.id <;> exact h
    | none =>
      simp only
      cases hfind : s.db.teams.find?
          (fun t => decide (sqlLower t.name = sqlLower (jsTrim name))) with
      | some _ => exact h
      | none =>
        simp only
        cases hins : insertTeam s.db (newTeam newId (jsTrim name) newToken) with
        | none => exact h
        | some db1 =>
          simp only
          have hdb1 : Inv db1 := by
            unfold insertTeam at hins
            split_ifs at hins with hany
            simp only [Option.some.injEq] at hins
            subst hins
            refine LedgerInv.join h _ ?_ rfl rfl huuid ?_ ?_
            · intro u hu hid
              apply hany
              simp only [List.any_eq_true, decide_eq_true_eq]
              exact ⟨u, hu, Or.inl hid⟩
            · intro u hu hid
              apply hany
              simp only [List.any_eq_true, decide_eq_true_eq]
              exact ⟨u, hu, Or.inr (Or.inr hid)⟩
            · intro u hu hlow
              have := List.find?_eq_none.mp hfind u hu
              simp only [decide_eq_true_eq] at this
              exact this hlow
          cases teamStateFor (logEvent db1 (.teamJoin newId (jsTrim name)) now) newId <;>
            exact hdb1

theorem inv_adminStart (s : State) (bugName : String) (durationSeconds : Int) (now : Int)
    (h : Inv s.db) : Inv (adminStart s bugName durationSeconds now).1.db := by
  unfold adminStart
  simp only
  by_cases hconf : roundActive s.db = true
  · rw [if_pos hconf]; exact h
  · rw [if_neg hconf]
    have hnone : latestOpenRound s.db.rounds = none := by
      cases hround : latestOpenRound s.db.rounds with
      | none => rfl
      | some existing =>
        exfalso
        have hmem := latestOpenRound_mem hround
        have hact : existing.status = .active := by
          rcases hmem.2 with h1 | h1
          · exact h1
          · exact absurd h1 (h.noPending existing hmem.1)
        apply hconf
        simp [roundActive, getActiveRound, hround, hact]
    exact LedgerInv.start h hnone _ rfl rfl

theorem inv_adminClose (s : State) (now : Int) (h : Inv s.db) :
    Inv (adminClose s now).1.db := by
  unfold adminClose
  cases hround : getActiveRound s.db with
  | none => exact h
  | some round =>
    simp only
    have hclosed := LedgerInv.close h round hround now
    cases htx : closeTx s.db round.id (computeWinners s.db round.id) now with
    | error e => exact h
    | ok db1 =>
      simp only
      show Inv db1
      unfold closeTx at htx
      simp only at htx
      split at htx
      · simp only [Except.ok.injEq] at htx
        subst htx
        exact hclosed
      · split at htx
        · simp at htx
        · simp only [Except.ok.injEq] at htx
          subst htx
          exact LedgerInv.map_teams _ (fun t => by split_ifs <;> exact ⟨rfl, rfl, rfl, rfl, rfl⟩) hclosed

theorem inv_adminReset (s : State) (now : Int) (h : Inv s.db) :
    Inv (adminReset s now).1.db :=
  LedgerInv.reset h

theorem inv_adminSetWallet (s : State) (teamId : String) (wallet : Int) (now : Int)
    (h : Inv s.db) : Inv (adminSetWallet s teamId wallet now).1.db := by
  unfold adminSetWallet
  by_cases hid : teamId = ""
  · rw [if_pos hid]; exact h
  · rw [if_neg hid]
    exact LedgerInv.map_teams _ (fun t => by split_ifs <;> exact ⟨rfl, rfl, rfl, rfl, rfl⟩) h

theorem inv_adminSetLocked (s : State) (teamId : String) (locked : Bool) (now : Int)
    (h : Inv s.db) : Inv (adminSetLocked s teamId locked now).1.db := by
  unfold adminSetLocked
  by_cases hid : teamId = ""
  · rw [if_pos hid]; exact h
  · rw [if_neg hid]
    exact LedgerInv.map_teams _ (fun t => by split_ifs <;> exact ⟨rfl, rfl, rfl, rfl, rfl⟩) h

theorem inv_adminResetAllWallets (s : State) (now : Int) (h : Inv s.db) :
    Inv (adminResetAllWallets s now).1.db :=
  LedgerInv.map_teams _ (fun _ => ⟨rfl, rfl, rfl, rfl, rfl⟩) h

theorem inv_adminRemoveTeam (s : State) (teamId : String) (now : Int) (h : Inv s.db) :
    Inv (adminRemoveTeam s teamId now).1.db := by
  unfold adminRemoveTeam
  by_cases hid : teamId = ""
  · rw [if_pos hid]; exact h
  · rw [if_neg hid]
    exact LedgerInv.remove h teamId

theorem inv_adminCancelLastBid (s : State) (teamId : String) (now : Int) (h : Inv s.db) :
    Inv (adminCancelLastBid s teamId now).1.db := by
  unfold adminCancelLastBid
  by_cases hid : teamId = ""
  · rw [if_pos hid]; exact h
  · rw [if_neg hid]
    cases hround : getActiveRound s.db with
    | none => exact h
    | some round =>
      simp only
      have hpF := bidsOf_pairwise h.bidIds round.id teamId
      rw [orderByIdDescLimit1_eq_getLast? _ _ hpF]
      cases hlb : (bidsOf s.db.bids round.id teamId).getLast? with
      | none => exact h
      | some lb =>
        simp only
        have hpF2 := bidsOf_pairwise (List.Pairwise.filter
          (fun b => decide (b.id ≠ lb.id)) h.bidIds) round.id teamId
        rw [orderByIdDescLimit1_eq_getLast? _ _ hpF2]
        exact LedgerInv.cancel h round hround teamId lb hlb _ _ rfl rfl

theorem inv_step (s : State) (now : Int) (op : Op) (hop : op.uuidsOk) (h : Inv s.db) :
    Inv (step s now op).db := by
  cases op with
  | join name token newId newToken => exact inv_join s name token newId newToken now hop h
  | attemptBid token => exact inv_attemptBid s token now h
  | adminStart bugName durationSeconds => exact inv_adminStart s bugName durationSeconds now h
  | adminClose => exact inv_adminClose s now h
  | adminReset => exact inv_adminReset s now h
  | adminSetWallet teamId wallet => exact inv_adminSetWallet s teamId wallet now h
  | adminSetLocked teamId locked => exact inv_adminSetLocked s teamId locked now h
  | adminCancelLastBid teamId => exact inv_adminCancelLastBid s teamId now h
  | adminRemoveTeam teamId => exact inv_adminRemoveTeam s teamId now h
  | adminResetAllWallets => exact inv_adminResetAllWallets s now h

theorem reachable_inv {s : State} (hs : Reachable s) : Inv s.db := by
  induction hs with
  | init => exact inv_init
  | next now op hop _ ih => exact inv_step _ now op hop ih

/-! ## The bid ladder in reachable states -/

theorem teamRoundBids_eq {db : Db} (h : Inv db) (roundId : Nat) (teamId : String) :
    teamRoundBids db roundId teamId = bidsOf db.bids roundId teamId := by
  unfold teamRoundBids
  apply List.Sorted.insertionSort_eq
  exact (bidsOf_pairwise h.bidIds roundId teamId).imp (fun hab => le_of_lt hab)

/-- Claim C2. In every reachable state, for every round and every team, the amounts of the
team's bid rows in that round, in id order, are exactly the first `k` rungs START_BID,
START_BID + INCREMENT, ... of the ladder for some `k`, none exceeds MAX_BID, and every
team's currentBid is 0 or a rung START_BID + j * INCREMENT that is at most MAX_BID. -/
theorem reachable_ladder (s : State) (hs : Reachable s) :
    (∀ roundId teamId, ∃ k,
      (teamRoundBids s.db roundId teamId).map (fun b => b.amount) = ladder k ∧
      ∀ a ∈ (teamRoundBids s.db roundId teamId).map (fun b => b.amount), a ≤ MAX_BID) ∧
    (∀ t ∈ s.db.teams, t.currentBid = 0 ∨
      (t.currentBid ≤ MAX_BID ∧ ∃ j : Nat, t.currentBid = START_BID + (j : Int) * INCREMENT)) := by
  have h := reachable_inv hs
  constructor
  · intro roundId teamId
    obtain ⟨k, hk, hlad⟩ := h.ladders roundId teamId
    rw [teamRoundBids_eq h]
    refine ⟨k, hlad, ?_⟩
    intro a ha
    rw [hlad] at ha
    obtain ⟨j, hj, rfl⟩ := mem_ladder ha
    simp only [START_BID, INCREMENT, MAX_BID]
    omega
  · intro t ht
    rcases h.rungs t ht with h0 | ⟨j, hj, hc⟩
    · exact Or.inl h0
    · refine Or.inr ⟨?_, j, hc⟩
      rw [hc]
      simp only [START_BID, INCREMENT, MAX_BID]
      omega

/-- Witness for C2: after Ada, Bob and Ada again have bid in round 1, the bids of Ada are
the ladder prefix 400, 600. -/
theorem reachable_ladder_witness :
    (∃ k, (teamRoundBids (run State.empty twoBidsOps).db 1 "a").map (fun b => b.amount)
        = ladder k ∧
      ∀ a ∈ (teamRoundBids (run State.empty twoBidsOps).db 1 "a").map (fun b => b.amount),
        a ≤ MAX_BID) ∧
    (teamRoundBids (run State.empty twoBidsOps).db 1 "a").map (fun b => b.amount)
      = [400, 600] :=
  ⟨(reachable_ladder (run State.empty twoBidsOps)
      (reachable_run _ (by decide) _ Reachable.init)).1 1 "a", by decide⟩

/-! ## Cancelling the latest bid -/

/-- The reply and state of a cancel request that finds a bid to cancel. -/
theorem adminCancelLastBid_ok (s : State) (teamId : String) (now : Int) (round : Round)
    (lb : Bid) (hid : teamId ≠ "") (hinv : Inv s.db)
    (hround : getActiveRound s.db = some round)
    (hlb : (bidsOf s.db.bids round.id teamId).getLast? = some lb) :
    (adminCancelLastBid s teamId now).2 = .ok () ∧
    (adminCancelLastBid s teamId now).1.db.bids =
      s.db.bids.filter (fun b => decide (b.id ≠ lb.id)) ∧
    (adminCancelLastBid s teamId now).1.db.teams =
      s.db.teams.map (fun t =>
        if t.id = teamId then
          { t with
            currentBid := prevAmount
              (bidsOf (s.db.bids.filter (fun b => decide (b.id ≠ lb.id)))
                round.id teamId).getLast?,
            lastBidTime := prevTimestamp
              (bidsOf (s.db.bids.filter (fun b => decide (b.id ≠ lb.id)))
                round.id teamId).getLast? }
        else t) := by
  unfold adminCancelLastBid
  rw [if_neg hid]
  simp only [hround]
  have hpF := bidsOf_pairwise hinv.bidIds round.id teamId
  rw [orderByIdDescLimit1_eq_getLast? _ _ hpF, hlb]
  simp only
  have hpF2 := bidsOf_pairwise (List.Pairwise.filter
    (fun b => decide (b.id ≠ lb.id)) hinv.bidIds) round.id teamId
  rw [orderByIdDescLimit1_eq_getLast? _ _ hpF2]
  exact ⟨trivial, rfl, rfl⟩

theorem setBid_restore (t : Team) (ob : Option Bid) (h : lastMatches t ob) :
    { t with currentBid := prevAmount ob, lastBidTime := prevTimestamp ob } = t := by
  cases t
  cases ob <;> simp only [lastMatches, prevAmount, prevTimestamp] at h ⊢ <;>
    simp [h.1, h.2]

/-- Claim C5. In a reachable state, when the bid attempt of a team succeeds, cancelling that
team's last bid right after succeeds and restores the `teams` table (so the team's
currentBid and lastBidTime are back to their former values, and every other team and every
wallet is unchanged) and the `bids` table; the former values are those of the team's prior
bid in the round, or 0 and null when it had none. -/
theorem cancel_inverts_bid (s : State) (hs : Reachable s) (token : String) (now later : Int)
    (team : Team) (hteam : teamByToken s.db token = some team)
    (hok : rejection (attemptBid s token now).2 = none) :
    (adminCancelLastBid (attemptBid s token now).1 team.id later).2 = .ok () ∧
    (adminCancelLastBid (attemptBid s token now).1 team.id later).1.db.teams = s.db.teams ∧
    (adminCancelLastBid (attemptBid s token now).1 team.id later).1.db.bids = s.db.bids ∧
    (∀ round, getActiveRound s.db = some round →
      lastMatches team (teamRoundBids s.db round.id team.id).getLast?) := by
  have h := reachable_inv hs
  have hmem := (teamByToken_mem hteam).1
  have hsyncAll : ∀ round, getActiveRound s.db = some round →
      lastMatches team (teamRoundBids s.db round.id team.id).getLast? := by
    intro round hround
    rw [teamRoundBids_eq h]
    exact h.sync round hround team hmem
  rcases attemptBid_cases s token now with ⟨_, msg, hmsg⟩ | ⟨team2, round, fresh, n, hteam2,
    hround, _, hf, hn, hm, _, hrun⟩
  · rw [hmsg] at hok
    simp [rejection] at hok
  · rw [hteam] at hteam2
    simp only [Option.some.injEq] at hteam2
    subst hteam2
    have hinv1 : Inv (attemptBid s token now).1.db := inv_attemptBid s token now h
    rw [hrun] at hinv1 ⊢
    have hid : team.id ≠ "" := (h.ids team hmem).1
    have hlb : (bidsOf (s.db.bids ++ [Bid.mk (s.db.bidSeq + 1) round.id team.id n now])
        round.id team.id).getLast? =
        some (Bid.mk (s.db.bidSeq + 1) round.id team.id n now) := by
      rw [bidsOf_append]
      simp [bidsOf]
    have hfilter : (s.db.bids ++ [Bid.mk (s.db.bidSeq + 1) round.id team.id n now]).filter
        (fun b => decide (b.id ≠ s.db.bidSeq + 1)) = s.db.bids := by
      rw [List.filter_append]
      have hold : s.db.bids.filter (fun b => decide (b.id ≠ s.db.bidSeq + 1)) = s.db.bids := by
        rw [List.filter_eq_self]
        intro b hb
        have := h.bidSeq_le b hb
        simp only [ne_eq, decide_not, Bool.not_eq_true', decide_eq_false_iff_not]
        omega
      rw [hold]
      simp
    obtain ⟨hr, hb, ht⟩ := adminCancelLastBid_ok _ team.id later round _ hid hinv1 hround hlb
    refine ⟨hr, ?_, ?_, hsyncAll⟩
    · rw [ht]
      show List.map _ (List.map _ s.db.teams) = s.db.teams
      rw [List.map_map]
      conv_rhs => rw [← List.map_id s.db.teams]
      apply List.map_congr_left
      intro t htm
      simp only [Function.comp, id]
      have hfl : (bidsOf (List.filter (fun b => decide (b.id ≠ s.db.bidSeq + 1))
          (s.db.bids ++ [Bid.mk (s.db.bidSeq + 1) round.id team.id n now])) round.id team.id) =
          bidsOf s.db.bids round.id team.id := by
        rw [hfilter]
      by_cases hti : t.id = team.id
      · have hsync := h.sync round hround t htm
        rw [hti] at hsync
        simp only [hti, if_true]
        have := setBid_restore t _ hsync
        rw [← hfl, hti] at this
        exact this
      · simp only [hti, if_false]
    · rw [hb]
      exact hfilter

/-- Witness for C5: Ada has one bid (400 at time 3000); her second bid at time 5000 is
cancelled at time 6000, which restores the teams and bids tables. -/
theorem cancel_inverts_bid_witness :
    (adminCancelLastBid (attemptBid (run State.empty oneBidOps) "ta" 5000).1
      "a" 6000).1.db.teams = (run State.empty oneBidOps).db.teams ∧
    (adminCancelLastBid (attemptBid (run State.empty oneBidOps) "ta" 5000).1
      "a" 6000).1.db.bids = (run State.empty oneBidOps).db.bids ∧
    (attemptBid (run State.empty oneBidOps) "ta" 5000).1.db.bids ≠
      (run State.empty oneBidOps).db.bids :=
  ⟨(cancel_inverts_bid (run State.empty oneBidOps)
      (reachable_run _ (by decide) _ Reachable.init) "ta" 5000 6000
      { sampleAda with currentBid := 400, lastBidTime := some 3000 }
      (by decide) (by decide)).2.1,
   (cancel_inverts_bid (run State.empty oneBidOps)
      (reachable_run _ (by decide) _ Reachable.init) "ta" 5000 6000
      { sampleAda with currentBid := 400, lastBidTime := some 3000 }
      (by decide) (by decide)).2.2.1,
   by decide⟩

/-! ## Closing a round without bids -/

theorem roundRows_of_no_bids (db : Db) (roundId : Nat)
    (h : ∀ b ∈ db.bids, b.roundId ≠ roundId) : roundRows db roundId = [] := by
  have hfil : db.bids.filter (fun b => decide (b.roundId = roundId)) = [] := by
    rw [List.filter_eq_nil_iff]
    intro b hb
    simpa using h b hb
  unfold roundRows
  rw [hfil]
  rfl

/-- Claim C14. When the round returned by `getActiveRound` has no bid row, closing it
replies with winner, secondHighest and fastestBidder all null, sets that round row to
closed (with end time `now`) and changes no other round row, and leaves the `teams` table,
hence every wallet, and the `bids` table unchanged. -/
theorem adminClose_no_bids (s : State) (now : Int) (round : Round)
    (hround : getActiveRound s.db = some round)
    (hnone : ∀ b ∈ s.db.bids, b.roundId ≠ round.id) :
    (adminClose s now).2 =
      .ok { winner := none, secondHighest := none, fastestBidder := none } ∧
    (adminClose s now).1.db.teams = s.db.teams ∧
    (adminClose s now).1.db.bids = s.db.bids ∧
    (adminClose s now).1.db.rounds = s.db.rounds.map (fun r =>
      if r.id = round.id then { r with status := .closed, endTime := now } else r) ∧
    (∃ r ∈ (adminClose s now).1.db.rounds, r.id = round.id) ∧
    (∀ r ∈ (adminClose s now).1.db.rounds, r.id = round.id →
      r.status = .closed ∧ r.endTime = now) := by
  have hw : computeWinners s.db round.id =
      { winner := none, secondHighest := none, fastestBidder := none } := by
    unfold computeWinners
    rw [roundRows_of_no_bids s.db round.id hnone]
  have hrounds : (adminClose s now).1.db.rounds = s.db.rounds.map (fun r =>
      if r.id = round.id then { r with status := .closed, endTime := now } else r) := by
    simp only [adminClose, hround, hw, closeTx, logEvent]
  refine ⟨?_, ?_, ?_, hrounds, ?_, ?_⟩
  · simp only [adminClose, hround, hw, closeTx]
  · simp only [adminClose, hround, hw, closeTx, logEvent]
  · simp only [adminClose, hround, hw, closeTx, logEvent]
  · rw [hrounds]
    have hmem := (latestOpenRound_mem hround).1
    exact ⟨_, List.mem_map.mpr ⟨round, hmem, rfl⟩, by simp⟩
  · rw [hrounds]
    intro r hr hid
    obtain ⟨r0, _, rfl⟩ := List.mem_map.mp hr
    by_cases h0 : r0.id = round.id
    · simp [h0]
    · rw [if_neg h0] at hid
      exact absurd hid h0

/-- Witness for C14: the running round of `sampleState` has no bid; closing it at time
9000 leaves the teams as they are. -/
theorem adminClose_no_bids_witness :
    (adminClose sampleState 9000).2 =
      .ok { winner := none, secondHighest := none, fastestBidder := none } ∧
    (adminClose sampleState 9000).1.db.teams = sampleState.db.teams ∧
    (∀ r ∈ (adminClose sampleState 9000).1.db.rounds, r.id = sampleRound.id →
      r.status = .closed ∧ r.endTime = 9000) :=
  ⟨(adminClose_no_bids sampleState 9000 sampleRound (by decide) (by decide)).1,
   (adminClose_no_bids sampleState 9000 sampleRound (by decide) (by decide)).2.1,
   (adminClose_no_bids sampleState 9000 sampleRound (by decide) (by decide)).2.2.2.2.2⟩

/-! ## Fastest bidder -/

/-- The step of the `reduce` that computes `fastestBidder`. -/
theorem fastest_fold (l : List WinRow) : ∀ (acc : Option WinRow) (x : WinRow),
    l.foldl (fun min b =>
      match min with
      | none => some b
      | some m => if b.timestamp < m.timestamp then some b else some m) acc = some x →
    (x ∈ l ∨ acc = some x) ∧ (∀ y ∈ l, x.timestamp ≤ y.timestamp) ∧
      (∀ m, acc = some m → x.timestamp ≤ m.timestamp) := by
  induction l with
  | nil =>
    intro acc x h
    simp only [List.foldl_nil] at h
    refine ⟨Or.inr h, by simp, ?_⟩
    intro m hm
    rw [h] at hm
    simp only [Option.some.injEq] at hm
    rw [hm]
  | cons b bs ih =>
    intro acc x h
    simp only [List.foldl_cons] at h
    cases acc with
    | none =>
      obtain ⟨h1, h2, h3⟩ := ih _ x h
      refine ⟨?_, ?_, by simp⟩
      · rcases h1 with h1 | h1
        · exact Or.inl (List.mem_cons_of_mem _ h1)
        · simp only [Option.some.injEq] at h1
          exact Or.inl (h1 ▸ List.mem_cons_self _ _)
      · intro y hy
        rcases List.mem_cons.mp hy with hy | hy
        · rw [hy]; exact h3 b rfl
        · exact h2 y hy
    | some m =>
      by_cases hlt : b.timestamp < m.timestamp
      · simp only [hlt, if_true] at h
        obtain ⟨h1, h2, h3⟩ := ih _ x h
        have hb := h3 b rfl
        refine ⟨?_, ?_, ?_⟩
        · rcases h1 with h1 | h1
          · exact Or.inl (List.mem_cons_of_mem _ h1)
          · simp only [Option.some.injEq] at h1
            exact Or.inl (h1 ▸ List.mem_cons_self _ _)
        · intro y hy
          rcases List.mem_cons.mp hy with hy | hy
          · rw [hy]; exact hb
          · exact h2 y hy
        · intro m2 hm2
          simp only [Option.some.injEq] at hm2
          rw [← hm2]
          omega
      · simp only [hlt, if_false] at h
        obtain ⟨h1, h2, h3⟩ := ih _ x h
        have hm := h3 m rfl
        refine ⟨?_, ?_, ?_⟩
        · rcases h1 with h1 | h1
          · exact Or.inl (List.mem_cons_of_mem _ h1)
          · exact Or.inr h1
        · intro y hy
          rcases List.mem_cons.mp hy with hy | hy
          · rw [hy]; omega
          · exact h2 y hy
        · intro m2 hm2
          simp only [Option.some.injEq] at hm2
          rw [← hm2]
          exact hm

theorem fastest_fold_isSome (l : List WinRow) : ∀ (acc : Option WinRow),
    (acc ≠ none ∨ l ≠ []) →
    ∃ x, l.foldl (fun min b =>
      match min with
      | none => some b
      | some m => if b.timestamp < m.timestamp then some b else some m) acc = some x := by
  induction l with
  | nil =>
    intro acc h
    rcases h with h | h
    · cases acc with
      | none => exact absurd rfl h
      | some a => exact ⟨a, rfl⟩
    · exact absurd rfl h
  | cons b bs ih =>
    intro acc _
    simp only [List.foldl_cons]
    apply ih
    left
    cases acc with
    | none => simp
    | some m => simp only; split_ifs <;> simp

theorem fastestBidder_eq (db : Db) (roundId : Nat) :
    (computeWinners db roundId).fastestBidder =
      (roundRows db roundId).foldl (fun min b =>
        match min with
        | none => some b
        | some m => if b.timestamp < m.timestamp then some b else some m) none := by
  unfold computeWinners
  cases roundRows db roundId <;> rfl

/-- Claim C15. When every bid row references a stored team and the round has at least one
bid, `fastestBidder` is a bid of that round whose timestamp is at most the timestamp of
every bid of the round; nothing is required of its amount, and on the bids (A,1000,t=5),
(B,1000,t=3), (C,800,t=1) it is C, which is not the winner B. -/
theorem computeWinners_fastest (db : Db) (roundId : Nat)
    (hfk : ∀ b ∈ db.bids, ∃ t ∈ db.teams, t.id = b.teamId)
    (hbid : ∃ b ∈ db.bids, b.roundId = roundId) :
    (∃ x, (computeWinners db roundId).fastestBidder = some x ∧
      (∃ b ∈ db.bids, b.roundId = roundId ∧ b.teamId = x.teamId ∧ b.amount = x.amount ∧
        b.timestamp = x.timestamp) ∧
      (∀ b ∈ db.bids, b.roundId = roundId → x.timestamp ≤ b.timestamp)) ∧
    ((computeWinners sampleTie 1).fastestBidder =
        some { teamId := "C", name := "Team C", amount := 800, timestamp := 1 } ∧
      (computeWinners sampleTie 1).winner =
        some { teamId := "B", name := "Team B", amount := 1000, timestamp := 3 }) := by
  refine ⟨?_, by decide⟩
  obtain ⟨b0, hb0, hr0⟩ := hbid
  obtain ⟨t0, ht0, hid0⟩ := hfk b0 hb0
  have hne : roundRows db roundId ≠ [] :=
    List.ne_nil_of_mem (mem_roundRows.mpr ⟨b0, hb0, hr0, t0, ht0, hid0, rfl⟩)
  obtain ⟨x, hx⟩ := fastest_fold_isSome (roundRows db roundId) none (Or.inr hne)
  obtain ⟨h1, h2, _⟩ := fastest_fold (roundRows db roundId) none x hx
  have hxmem : x ∈ roundRows db roundId := by
    rcases h1 with h1 | h1
    · exact h1
    · simp at h1
  refine ⟨x, by rw [fastestBidder_eq, hx], ?_, ?_⟩
  · obtain ⟨b, hb, hr, t, _, _, hxe⟩ := mem_roundRows.mp hxmem
    exact ⟨b, hb, hr, by rw [hxe]; rfl, by rw [hxe]; rfl, by rw [hxe]; rfl⟩
  · intro b hb hr
    obtain ⟨t, ht, hid⟩ := hfk b hb
    exact h2 _ (mem_roundRows.mpr ⟨b, hb, hr, t, ht, hid, rfl⟩)

/-- Witness for C15: the example bids of round 1. -/
theorem computeWinners_fastest_witness :
    ∃ x, (computeWinners sampleTie 1).fastestBidder = some x ∧
      (∃ b ∈ sampleTie.bids, b.roundId = 1 ∧ b.teamId = x.teamId ∧ b.amount = x.amount ∧
        b.timestamp = x.timestamp) ∧
      (∀ b ∈ sampleTie.bids, b.roundId = 1 → x.timestamp ≤ b.timestamp) :=
  (computeWinners_fastest sampleTie 1 (by decide) (by decide)).1

/-! ## Reset -/

/-- Claim C17. `adminReset` always replies ok. After it every team row has currentBid 0
and lastBidTime null with all its other columns (wallet, lock flag, ...) as before, no
round is active or pending (so `getActiveRound` finds none), the bid rows are unchanged
and the event rows are the former ones followed by one `round_reset` event. A second reset
changes no team, round or bid row and appends exactly one more event. -/
theorem adminReset_idempotent (s : State) (now later : Int) :
    (adminReset s now).2 = .ok () ∧
    (adminReset s now).1.db.teams =
      s.db.teams.map (fun t => { t with currentBid := 0, lastBidTime := none }) ∧
    (adminReset s now).1.db.teams.map (fun t => (t.id, t.name, t.wallet, t.locked, t.token)) =
      s.db.teams.map (fun t => (t.id, t.name, t.wallet, t.locked, t.token)) ∧
    (∀ r ∈ (adminReset s now).1.db.rounds,
      r.status ≠ .active ∧ r.status ≠ .pendingClose) ∧
    getActiveRound (adminReset s now).1.db = none ∧
    (adminReset s now).1.db.bids = s.db.bids ∧
    (adminReset s now).1.db.events =
      s.db.events ++ [Event.mk (s.db.eventSeq + 1) .roundReset now] ∧
    (adminReset (adminReset s now).1 later).2 = .ok () ∧
    (adminReset (adminReset s now).1 later).1.db.teams = (adminReset s now).1.db.teams ∧
    (adminReset (adminReset s now).1 later).1.db.rounds = (adminReset s now).1.db.rounds ∧
    (adminReset (adminReset s now).1 later).1.db.bids = (adminReset s now).1.db.bids ∧
    (adminReset (adminReset s now).1 later).1.db.events =
      (adminReset s now).1.db.events ++ [Event.mk (s.db.eventSeq + 2) .roundReset later] := by
  have hclosed : ∀ r ∈ (adminReset s now).1.db.rounds,
      r.status ≠ .active ∧ r.status ≠ .pendingClose := by
    intro r hr
    have hr2 : r ∈ s.db.rounds.map (fun r =>
        if r.status = .active ∨ r.status = .pendingClose then { r with status := .idle }
        else r) := hr
    obtain ⟨r0, _, rfl⟩ := List.mem_map.mp hr2
    by_cases hop : r0.status = .active ∨ r0.status = .pendingClose
    · simp [hop]
    · rw [if_neg hop]
      exact ⟨fun h => hop (Or.inl h), fun h => hop (Or.inr h)⟩
  refine ⟨rfl, rfl, ?_, hclosed, ?_, rfl, rfl, rfl, ?_, ?_, rfl, rfl⟩
  · show List.map _ (List.map _ s.db.teams) = _
    rw [List.map_map]
    rfl
  · exact latestOpenRound_eq_none.mpr (fun r hr h =>
      h.elim (hclosed r hr).1 (hclosed r hr).2)
  · show List.map _ (List.map _ s.db.teams) = List.map _ s.db.teams
    rw [List.map_map]
    rfl
  · show List.map _ (adminReset s now).1.db.rounds = (adminReset s now).1.db.rounds
    conv_rhs => rw [← List.map_id (adminReset s now).1.db.rounds]
    apply List.map_congr_left
    intro r hr
    have := hclosed r hr
    simp [this.1, this.2]

/-! ## Rejoining with a session token -/

/-- Counterexample to C18 as stated: the token of Ada resolves, yet a join that carries it
with an empty name is answered 400 "Team name is required" instead of her session. -/
theorem join_empty_name_counterexample :
    teamByToken sampleState.db "ta" = some sampleAda ∧
    join sampleState "" "ta" "x" "tx" 7000 =
      (sampleState, .error { status := 400, error := "Team name is required" }) := by
  constructor
  · decide
  · rfl

/-- Claim C18, amended. For a token that resolves to a stored team: with every non-empty
name the join replies with that token and the team's current view and returns the state it
was given (no team, round, bid or event row changes); with an empty name it replies
400 "Team name is required", also without any change. -/
theorem join_existing_token (s : State) (name token newId newToken : String) (now : Int)
    (team : Team) (htoken : token ≠ "") (hteam : teamByToken s.db token = some team) :
    (name ≠ "" → ∃ view, teamStateFor s.db team.id = some view ∧
      join s name token newId newToken now = (s, .ok { token := token, state := view })) ∧
    (name = "" → join s name token newId newToken now =
      (s, .error { status := 400, error := "Team name is required" })) := by
  constructor
  · intro hname
    have hmem := teamByToken_mem hteam
    obtain ⟨view, hview⟩ := teamStateFor_isSome s.db team.id ⟨team, hmem.1, rfl⟩
    refine ⟨view, hview, ?_⟩
    simp only [join, hname, htoken, hteam, hview, if_false, hmem.2]
  · intro hname
    simp only [join, hname, if_true]

/-- Witness for C18: Ada reloads the page and joins again under another name. -/
theorem join_existing_token_witness :
    ∃ view, teamStateFor sampleState.db sampleAda.id = some view ∧
      join sampleState "Grace" "ta" "x" "tx" 7000 =
        (sampleState, .ok { token := "ta", state := view }) :=
  (join_existing_token sampleState "Grace" "ta" "x" "tx" 7000 sampleAda
    (by decide) (by decide)).1 (by decide)

/-! ## Names of joined teams -/

/-- Claim C20 at its failing input. On the empty store a join whose name is three blanks is
not rejected: the name passes the required-name test untrimmed, is trimmed to the empty
string, and a team with that empty name is stored. -/
theorem join_whitespace_name :
    jsTrim "   " = "" ∧
    rejection ((join State.empty "   " "" "a" "ta" 1000).2.mapError (fun e => e.error)) = none ∧
    (join State.empty "   " "" "a" "ta" 1000).1.db.teams = [newTeam "a" "" "ta"] ∧
    (newTeam "a" "" "ta").name.length = 0 := by
  decide

/-! ## Starting a round -/

theorem roundActive_iff {db : Db} (h : Inv db) :
    roundActive db = true ↔ ∃ r ∈ db.rounds, r.status = .active := by
  unfold roundActive getActiveRound
  constructor
  · intro hact
    cases hround : latestOpenRound db.rounds with
    | none => rw [hround] at hact; simp at hact
    | some r =>
      rw [hround] at hact
      exact ⟨r, (latestOpenRound_mem hround).1, by simpa using hact⟩
  · rintro ⟨r, hr, hact⟩
    rw [h.oneActive r hr hact]
    simp [hact]

theorem close_no_open {teams : List Team} {rounds : List Round} {bids : List Bid}
    {rs bs : Nat} (h : LedgerInv teams rounds bids rs bs) (round : Round)
    (hround : latestOpenRound rounds = some round) (now : Int) :
    ∀ r ∈ rounds.map (fun r =>
      if r.id = round.id then { r with status := .closed, endTime := now } else r),
      ¬ (r.status = .active ∨ r.status = .pendingClose) := by
  intro r hr
  obtain ⟨r0, hr0, rfl⟩ := List.mem_map.mp hr
  by_cases hid : r0.id = round.id
  · simp [hid]
  · simp only [hid, if_false]
    rintro (hact | hpend)
    · have := h.oneActive r0 hr0 hact
      rw [hround] at this
      simp only [Option.some.injEq] at this
      exact hid (by rw [this])
    · exact h.noPending r0 hr0 hpend

theorem closeTx_ok {db db1 : Db} {roundId : Nat} {w : Winners} {now : Int}
    (h : closeTx db roundId w now = .ok db1) :
    db1.rounds = db.rounds.map (fun r =>
      if r.id = roundId then { r with status := .closed, endTime := now } else r) ∧
    db1.bids = db.bids := by
  unfold closeTx at h
  simp only at h
  split at h
  · simp only [Except.ok.injEq] at h
    subst h
    exact ⟨rfl, rfl⟩
  · split at h
    · simp at h
    · simp only [Except.ok.injEq] at h
      subst h
      exact ⟨rfl, rfl⟩

/-- A close that replies ok has closed the round returned by `getActiveRound`. -/
theorem adminClose_ok_rounds (s : State) (now : Int) (w : Winners)
    (hok : (adminClose s now).2 = .ok w) :
    ∃ round, getActiveRound s.db = some round ∧ w = computeWinners s.db round.id ∧
      (adminClose s now).1.db.rounds = s.db.rounds.map (fun r =>
        if r.id = round.id then { r with status := .closed, endTime := now } else r) ∧
      (adminClose s now).1.db.bids = s.db.bids := by
  cases hround : getActiveRound s.db with
  | none => simp [adminClose, hround] at hok
  | some round =>
    cases htx : closeTx s.db round.id (computeWinners s.db round.id) now with
    | error e => simp [adminClose, hround, htx] at hok
    | ok db1 =>
      have hdb := closeTx_ok htx
      have hrun : adminClose s now =
          (State.mk (logEvent db1 (.roundClose round.id (computeWinners s.db round.id)) now)
            s.teamCooldowns, .ok (computeWinners s.db round.id)) := by
        simp only [adminClose, hround, htx]
      rw [hrun] at hok ⊢
      simp only [Except.ok.injEq] at hok
      exact ⟨round, rfl, hok.symm, hdb.1, hdb.2⟩

theorem adminStart_ok (s : State) (bugName : String) (durationSeconds now : Int)
    (h : roundActive s.db = false) :
    (adminStart s bugName durationSeconds now).2 = .ok () ∧
    (adminStart s bugName durationSeconds now).1.db.rounds =
      s.db.rounds ++ [Round.mk (s.db.roundSeq + 1) bugName now
        (now + (if durationSeconds = 0 then 90 else durationSeconds) * 1000) .active] ∧
    (adminStart s bugName durationSeconds now).1.db.teams =
      s.db.teams.map (fun t => { t with currentBid := 0, lastBidTime := none }) ∧
    (adminStart s bugName durationSeconds now).1.db.bids = s.db.bids := by
  simp only [adminStart, h]
  exact ⟨rfl, rfl, rfl, rfl⟩

/-- Claim C11. In a reachable state `adminStart` is rejected (400 "There is already an
active round", state unchanged) exactly when some round row has status active. When none
has, it replies ok, appends exactly one round row, which is active and whose id is greater
than every stored round id, sets currentBid to 0 and lastBidTime to null in every team row
and changes no other column (wallet, lock flag) and no bid row. Right after a reset, and
right after a close that replied ok, no round is active and a start replies ok. -/
theorem adminStart_conflict (s : State) (hs : Reachable s) (bugName : String)
    (durationSeconds now : Int) :
    ((∃ r ∈ s.db.rounds, r.status = .active) →
      adminStart s bugName durationSeconds now =
        (s, .error { status := 400, error := "There is already an active round" })) ∧
    ((¬ ∃ r ∈ s.db.rounds, r.status = .active) →
      (adminStart s bugName durationSeconds now).2 = .ok () ∧
      (∃ new, (adminStart s bugName durationSeconds now).1.db.rounds = s.db.rounds ++ [new] ∧
        new.status = .active ∧ ∀ r ∈ s.db.rounds, r.id < new.id) ∧
      (adminStart s bugName durationSeconds now).1.db.teams =
        s.db.teams.map (fun t => { t with currentBid := 0, lastBidTime := none }) ∧
      (adminStart s bugName durationSeconds now).1.db.bids = s.db.bids) ∧
    (∀ t0, (¬ ∃ r ∈ (adminReset s t0).1.db.rounds, r.status = .active) ∧
      (adminStart (adminReset s t0).1 bugName durationSeconds now).2 = .ok ()) ∧
    (∀ t0 w, (adminClose s t0).2 = .ok w →
      (¬ ∃ r ∈ (adminClose s t0).1.db.rounds, r.status = .active) ∧
      (adminStart (adminClose s t0).1 bugName durationSeconds now).2 = .ok ()) := by
  have h := reachable_inv hs
  have hfalse : ∀ s2 : State, Inv s2.db → (¬ ∃ r ∈ s2.db.rounds, r.status = .active) →
      roundActive s2.db = false := by
    intro s2 h2 hno
    cases hra : roundActive s2.db with
    | false => rfl
    | true => exact absurd ((roundActive_iff h2).mp hra) hno
  refine ⟨?_, ?_, ?_, ?_⟩
  · intro hact
    have hra := (roundActive_iff h).mpr hact
    simp only [adminStart, hra, if_true]
  · intro hno
    obtain ⟨h1, h2, h3, h4⟩ := adminStart_ok s bugName durationSeconds now (hfalse s h hno)
    refine ⟨h1, ⟨_, h2, rfl, ?_⟩, h3, h4⟩
    intro r hr
    exact Nat.lt_succ_of_le (h.roundSeq_le r hr)
  · intro t0
    have hinv : Inv (adminReset s t0).1.db := inv_adminReset s t0 h
    have hno : ¬ ∃ r ∈ (adminReset s t0).1.db.rounds, r.status = .active := by
      rintro ⟨r, hr, hact⟩
      have hr2 : r ∈ s.db.rounds.map (fun r =>
          if r.status = .active ∨ r.status = .pendingClose then { r with status := .idle }
          else r) := hr
      obtain ⟨r0, _, rfl⟩ := List.mem_map.mp hr2
      by_cases hop : r0.status = .active ∨ r0.status = .pendingClose
      · simp [hop] at hact
      · rw [if_neg hop] at hact
        exact hop (Or.inl hact)
    exact ⟨hno, (adminStart_ok _ bugName durationSeconds now (hfalse _ hinv hno)).1⟩
  · intro t0 w hok
    have hinv : Inv (adminClose s t0).1.db := inv_adminClose s t0 h
    obtain ⟨round, hround, _, hrounds, _⟩ := adminClose_ok_rounds s t0 w hok
    have hno : ¬ ∃ r ∈ (adminClose s t0).1.db.rounds, r.status = .active := by
      rintro ⟨r, hr, hact⟩
      rw [hrounds] at hr
      exact close_no_open h round hround t0 r hr (Or.inl hact)
    exact ⟨hno, (adminStart_ok _ bugName durationSeconds now (hfalse _ hinv hno)).1⟩

/-- Witness for C11: with the round of `oneBidOps` running a start is rejected, and in the
lobby (two teams, no round yet) a start appends the round with id 1. -/
theorem adminStart_conflict_witness :
    adminStart (run State.empty oneBidOps) "race" 60 7000 =
      (run State.empty oneBidOps,
        .error { status := 400, error := "There is already an active round" }) ∧
    (adminStart (run State.empty lobbyOps) "race" 60 7000).2 = .ok () :=
  ⟨(adminStart_conflict (run State.empty oneBidOps)
      (reachable_run _ (by decide) _ Reachable.init) "race" 60 7000).1 (by decide),
   ((adminStart_conflict (run State.empty lobbyOps)
      (reachable_run _ (by decide) _ Reachable.init) "race" 60 7000).2.1 (by decide)).1⟩

/-! ## One active round -/

/-- Claim C16. In every reachable state no round row is pending-close, at most one round
row is active, an active row is the round `getActiveRound` returns, and the round
`getActiveRound` returns is a stored active row. -/
theorem reachable_one_active (s : State) (hs : Reachable s) :
    (∀ r ∈ s.db.rounds, r.status ≠ .pendingClose) ∧
    (s.db.rounds.filter (fun r => decide (r.status = .active))).length ≤ 1 ∧
    (∀ r ∈ s.db.rounds, r.status = .active → getActiveRound s.db = some r) ∧
    (∀ r, getActiveRound s.db = some r → r ∈ s.db.rounds ∧ r.status = .active) := by
  have h := reachable_inv hs
  refine ⟨h.noPending, ?_, h.oneActive, ?_⟩
  · have hnd : (s.db.rounds.filter (fun r => decide (r.status = .active))).Nodup := by
      have hp : s.db.rounds.Pairwise (fun a b => a ≠ b) :=
        h.roundIds.imp (fun hab heq => by rw [heq] at hab; exact lt_irrefl _ hab)
      exact List.Pairwise.filter _ hp
    have hall : ∀ a ∈ s.db.rounds.filter (fun r => decide (r.status = .active)),
        ∀ b ∈ s.db.rounds.filter (fun r => decide (r.status = .active)), a = b := by
      intro a ha b hb
      have ha2 := List.mem_filter.mp ha
      have hb2 := List.mem_filter.mp hb
      have e1 := h.oneActive a ha2.1 (by simpa using ha2.2)
      have e2 := h.oneActive b hb2.1 (by simpa using hb2.2)
      rw [e1] at e2
      exact Option.some.inj e2
    generalize s.db.rounds.filter (fun r => decide (r.status = .active)) = l at hnd hall
    match l, hnd, hall with
    | [], _, _ => simp
    | [_], _, _ => simp
    | a :: b :: _, hnd, hall =>
      have hab := hall a (by simp) b (by simp)
      rw [hab] at hnd
      simp at hnd
  · intro r hr
    have hmem := latestOpenRound_mem hr
    refine ⟨hmem.1, ?_⟩
    rcases hmem.2 with h1 | h1
    · exact h1
    · exact absurd h1 (h.noPending r hmem.1)

/-- Witness for C16: after a round was started and a bid placed, one round row is active. -/
theorem reachable_one_active_witness :
    (∀ r ∈ (run State.empty oneBidOps).db.rounds, r.status ≠ .pendingClose) ∧
    ((run State.empty oneBidOps).db.rounds.filter
      (fun r => decide (r.status = .active))).length ≤ 1 ∧
    ((run State.empty oneBidOps).db.rounds.filter
      (fun r => decide (r.status = .active))).length = 1 :=
  ⟨(reachable_one_active (run State.empty oneBidOps)
      (reachable_run _ (by decide) _ Reachable.init)).1,
   (reachable_one_active (run State.empty oneBidOps)
      (reachable_run _ (by decide) _ Reachable.init)).2.1,
   by decide⟩

/-! ## Shrinking a wallet below the current bid -/

/-- Counterexample to C12 as stated: Ada stands at currentBid 2000 (MAX_BID) in a reachable
state; her wallet is set to 1500; her next attempt, after the cooldown, is rejected with
"Max bid reached", the bid ceiling, not with the wallet check. -/
theorem wallet_below_max_bid_counterexample :
    Reachable (run State.empty maxedOps) ∧
    (run State.empty maxedOps).db.teams.map (fun t => (t.currentBid, t.wallet, t.locked)) =
      [(2000, 12000, 0)] ∧
    roundActive (run State.empty maxedOps).db = true ∧
    rejection (attemptBid (adminSetWallet (run State.empty maxedOps) "a" 1500 12000).1
      "ta" 13000).2 = some "Max bid reached" := by
  refine ⟨reachable_run _ (by decide) _ Reachable.init, ?_, ?_, ?_⟩ <;> decide

/-- Claim C12, amended. In a reachable state, for a team with currentBid c > 0, setting its
wallet to w < c changes only the wallet column of that team (currentBid, lastBidTime and
the bid rows are unchanged), and the team's next attempt in an active round, unlocked and
after its cooldown, is rejected without any change: with "Insufficient wallet" when
c + INCREMENT is at most MAX_BID, and with "Max bid reached" when c + INCREMENT exceeds
MAX_BID. -/
theorem setWallet_then_bid (s : State) (hs : Reachable s) (token : String) (team : Team)
    (w t1 now : Int) (hteam : teamByToken s.db token = some team)
    (hc : 0 < team.currentBid) (hw : w < team.currentBid) :
    (adminSetWallet s team.id w t1).1.db.teams =
      s.db.teams.map (fun t => if t.id = team.id then { t with wallet := w } else t) ∧
    teamByToken (adminSetWallet s team.id w t1).1.db token = some { team with wallet := w } ∧
    (adminSetWallet s team.id w t1).1.db.bids = s.db.bids ∧
    (roundActive s.db = true → team.locked = 0 →
      COOLDOWN_MS ≤ now - cooldownGet s.teamCooldowns team.id →
      (team.currentBid + INCREMENT ≤ MAX_BID →
        attemptBid (adminSetWallet s team.id w t1).1 token now =
          ((adminSetWallet s team.id w t1).1, .error "Insufficient wallet")) ∧
      (MAX_BID < team.currentBid + INCREMENT →
        attemptBid (adminSetWallet s team.id w t1).1 token now =
          ((adminSetWallet s team.id w t1).1, .error "Max bid reached"))) := by
  have h := reachable_inv hs
  have hmem := teamByToken_mem hteam
  have hid : team.id ≠ "" := (h.ids team hmem.1).1
  have htok : token ≠ "" := by rw [← hmem.2]; exact (h.ids team hmem.1).2
  have hrun : (adminSetWallet s team.id w t1).1 =
      State.mk (logEvent (setTeamWallet s.db team.id w) (.walletEdit team.id w) t1)
        s.teamCooldowns := by
    simp only [adminSetWallet, hid, if_false]
  rw [hrun]
  have hteam1 : teamByToken
      (logEvent (setTeamWallet s.db team.id w) (.walletEdit team.id w) t1) token =
      some { team with wallet := w } := by
    show List.find? _ (List.map _ s.db.teams) = _
    rw [List.find?_map]
    have hcomp : ((fun t : Team => decide (t.token = token)) ∘ fun t : Team =>
        if t.id = team.id then { t with wallet := w } else t)
        = fun t : Team => decide (t.token = token) := by
      funext t
      simp only [Function.comp]
      split_ifs <;> rfl
    rw [hcomp]
    have := hteam
    unfold teamByToken at this
    rw [this]
    simp
  have hpk1 : ((logEvent (setTeamWallet s.db team.id w) (.walletEdit team.id w) t1).teams.map
      (fun t => t.id)).Nodup :=
    nodup_map_key _ _ (fun t => by split_ifs <;> rfl) h.teamIds
  have hfresh1 := teamById_of_mem _ _ hpk1 (teamByToken_mem hteam1).1
  refine ⟨rfl, hteam1, rfl, ?_⟩
  intro hact hl hcool
  unfold roundActive at hact
  cases hround : getActiveRound s.db with
  | none => simp [hround] at hact
  | some round =>
    simp only [hround, decide_eq_true_eq] at hact
    have hround1 : getActiveRound
        (logEvent (setTeamWallet s.db team.id w) (.walletEdit team.id w) t1) = some round :=
      hround
    have hc0 : team.currentBid ≠ 0 := ne_of_gt hc
    constructor
    · intro hle
      have h1 : ¬ (team.currentBid + INCREMENT > MAX_BID) := not_lt.mpr hle
      have h2 : team.currentBid + INCREMENT > w := by
        simp only [INCREMENT]
        omega
      simp [attemptBid, htok, hteam1, hround1, hact, hl, not_lt.mpr hcool, bidTx,
        hfresh1, hc0, h1, h2]
    · intro hgt
      have h1 : team.currentBid + INCREMENT > MAX_BID := hgt
      simp [attemptBid, htok, hteam1, hround1, hact, hl, not_lt.mpr hcool, bidTx,
        hfresh1, hc0, h1]

/-- Witness for C12: Ada stands at 400; her wallet is set to 300; her next attempt is
rejected with "Insufficient wallet". -/
theorem setWallet_then_bid_witness :
    attemptBid (adminSetWallet (run State.empty oneBidOps) "a" 300 4000).1 "ta" 5000 =
      ((adminSetWallet (run State.empty oneBidOps) "a" 300 4000).1,
        .error "Insufficient wallet") :=
  ((setWallet_then_bid (run State.empty oneBidOps)
    (reachable_run _ (by decide) _ Reachable.init) "ta"
    { sampleAda with currentBid := 400, lastBidTime := some 3000 } 300 4000 5000
    (by decide) (by decide) (by decide)).2.2.2 (by decide) (by decide) (by decide)).1
    (by decide)

/-! ## Cooldown -/

theorem lookup_append_new (k : String) (v : Int) (m : List (String × Int))
    (h : ∀ e ∈ m, e.1 ≠ k) : List.lookup k (m ++ [(k, v)]) = some v := by
  induction m with
  | nil => simp [List.lookup]
  | cons e m ih =>
    obtain ⟨a, b⟩ := e
    have hne : a ≠ k := h (a, b) (List.mem_cons_self _ _)
    have hbeq : (k == a) = false := by simpa using fun h => hne h.symm
    simp only [List.cons_append, List.lookup_cons, hbeq]
    exact ih (fun e he => h e (List.mem_cons_of_mem _ he))

theorem lookup_map_set (k : String) (v : Int) (m : List (String × Int))
    (h : ∃ e ∈ m, e.1 = k) :
    List.lookup k (m.map (fun e => if e.1 = k then (k, v) else e)) = some v := by
  induction m with
  | nil => simp at h
  | cons e m ih =>
    obtain ⟨a, b⟩ := e
    by_cases hak : a = k
    · simp [List.lookup_cons, hak]
    · have hbeq : (k == a) = false := by simpa using fun h => hak h.symm
      simp only [List.map_cons, hak, if_false, List.lookup_cons, hbeq]
      apply ih
      obtain ⟨e, he, hek⟩ := h
      rcases List.mem_cons.mp he with rfl | he
      · exact absurd hek hak
      · exact ⟨e, he, hek⟩

/-- Reading the cooldown map right after `teamCooldowns.set(id, now)` gives `now`. -/
theorem cooldownGet_set (m : List (String × Int)) (k : String) (v : Int) :
    cooldownGet (cooldownSet m k v) k = v := by
  unfold cooldownGet cooldownSet
  by_cases hany : m.any (fun e => decide (e.1 = k)) = true
  · obtain ⟨e, he, hd⟩ := List.any_eq_true.mp hany
    rw [if_pos hany, lookup_map_set k v m ⟨e, he, of_decide_eq_true hd⟩]
  · rw [if_neg hany, lookup_append_new k v m
      (fun e he hek => hany (List.any_eq_true.mpr ⟨e, he, decide_eq_true hek⟩))]

theorem bidTx_error {db : Db} {teamId : String} {roundId : Nat} {now : Int} {msg : String}
    (h : bidTx db teamId roundId now = .error msg) :
    msg = "TypeError" ∨ msg = "Max bid reached" ∨ msg = "Insufficient wallet" := by
  unfold bidTx at h
  split at h
  · simp only [Except.error.injEq] at h
    exact Or.inl h.symm
  · simp only at h
    split_ifs at h <;> cases h <;> simp

/-- An attempt that is answered with an error returns the state it was given. -/
theorem attemptBid_error_keeps (s : State) (token : String) (now : Int) (msg : String)
    (hmsg : (attemptBid s token now).2 = .error msg) : (attemptBid s token now).1 = s := by
  by_cases h1 : token = ""
  · simp [attemptBid, h1]
  · cases hteam : teamByToken s.db token with
    | none => simp [attemptBid, h1, hteam]
    | some team =>
      cases hround : getActiveRound s.db with
      | none => simp [attemptBid, h1, hteam, hround]
      | some round =>
        by_cases hact : round.status = .active
        · by_cases hl : team.locked = 0
          · by_cases hc : now - cooldownGet s.teamCooldowns team.id < COOLDOWN_MS
            · simp [attemptBid, h1, hteam, hround, hact, hl, hc]
            · cases htx : bidTx s.db team.id round.id now with
              | error e => simp [attemptBid, h1, hteam, hround, hact, hl, hc, htx]
              | ok db1 =>
                obtain ⟨view, hview⟩ := teamStateFor_isSome db1 _ (bidTx_ok_team htx)
                simp [attemptBid, h1, hteam, hround, hact, hl, hc, htx, hview] at hmsg
          · simp [attemptBid, h1, hteam, hround, hact, hl]
        · simp [attemptBid, h1, hteam, hround, hact]

theorem rejection_eq_some {α : Type} {r : Except String α} {msg : String}
    (h : rejection r = some msg) : r = .error msg := by
  cases r with
  | error e => simp only [rejection, Option.some.injEq] at h; rw [h]
  | ok a => simp [rejection] at h

theorem join_cooldowns (s : State) (name token newId newToken : String) (now : Int) :
    (join s name token newId newToken now).1.teamCooldowns = s.teamCooldowns := by
  unfold join
  by_cases hname : name = ""
  · rw [if_pos hname]
  · rw [if_neg hname]
    simp only
    cases (if token = "" then none else teamByToken s.db token) with
    | some existing =>
      simp only
      cases teamStateFor s.db existing.id <;> rfl
    | none =>
      simp only
      cases s.db.teams.find? (fun t => decide (sqlLower t.name = sqlLower (jsTrim name))) with
      | some _ => rfl
      | none =>
        simp only
        cases insertTeam s.db (newTeam newId (jsTrim name) newToken) with
        | none => rfl
        | some db1 =>
          simp only
          cases teamStateFor (logEvent db1 (.teamJoin newId (jsTrim name)) now) newId <;> rfl

theorem adminClose_cooldowns (s : State) (now : Int) :
    (adminClose s now).1.teamCooldowns = s.teamCooldowns := by
  unfold adminClose
  cases getActiveRound s.db with
  | none => rfl
  | some round =>
    simp only
    cases closeTx s.db round.id (computeWinners s.db round.id) now <;> rfl

theorem adminCancelLastBid_cooldowns (s : State) (teamId : String) (now : Int) :
    (adminCancelLastBid s teamId now).1.teamCooldowns = s.teamCooldowns := by
  unfold adminCancelLastBid
  by_cases hid : teamId = ""
  · rw [if_pos hid]
  · rw [if_neg hid]
    cases getActiveRound s.db with
    | none => rfl
    | some round =>
      simp only
      cases orderByIdDescLimit1 (fun b => b.id) (bidsOf s.db.bids round.id teamId) <;> rfl

/-- Every request other than a bid attempt leaves the cooldown map as it is. -/
theorem step_cooldowns (s : State) (now : Int) (op : Op)
    (hop : ∀ token, op ≠ .attemptBid token) :
    (step s now op).teamCooldowns = s.teamCooldowns := by
  cases op with
  | join name token newId newToken => exact join_cooldowns s name token newId newToken now
  | attemptBid token => exact absurd rfl (hop token)
  | adminStart bugName durationSeconds =>
    simp only [step, adminStart]
    split_ifs <;> rfl
  | adminClose => exact adminClose_cooldowns s now
  | adminReset => rfl
  | adminSetWallet teamId wallet =>
    simp only [step, adminSetWallet]
    split_ifs <;> rfl
  | adminSetLocked teamId locked =>
    simp only [step, adminSetLocked]
    by_cases hid : teamId = ""
    · rw [if_pos hid]
    · rw [if_neg hid]
  | adminCancelLastBid teamId => exact adminCancelLastBid_cooldowns s teamId now
  | adminRemoveTeam teamId =>
    simp only [step, adminRemoveTeam]
    split_ifs <;> rfl
  | adminResetAllWallets => rfl

/-- Claim C13. For a known, unlocked team in an active round whose cooldown entry is `t`
(the time of its last accepted bid), an attempt at time `now` is rejected with the
cooldown message exactly when `now - t < COOLDOWN_MS`; at `now = t + COOLDOWN_MS` it is not
rejected by the cooldown check. An accepted attempt sets the entry to `now`, a rejected
attempt leaves the cooldown map unchanged, and so does every request that is not a bid
attempt. -/
theorem cooldown_check (s : State) (token : String) (now : Int) (team : Team)
    (htoken : token ≠ "") (hteam : teamByToken s.db token = some team)
    (hactive : roundActive s.db = true) (hunlocked : team.locked = 0) :
    (rejection (attemptBid s token now).2 = some "Slow down! Cooldown in effect." ↔
      now - cooldownGet s.teamCooldowns team.id < COOLDOWN_MS) ∧
    (now = cooldownGet s.teamCooldowns team.id + COOLDOWN_MS →
      rejection (attemptBid s token now).2 ≠ some "Slow down! Cooldown in effect.") ∧
    (rejection (attemptBid s token now).2 = none →
      cooldownGet (attemptBid s token now).1.teamCooldowns team.id = now) ∧
    (∀ msg, rejection (attemptBid s token now).2 = some msg →
      (attemptBid s token now).1.teamCooldowns = s.teamCooldowns) ∧
    (∀ op t0, (∀ tok, op ≠ .attemptBid tok) →
      (step s t0 op).teamCooldowns = s.teamCooldowns) := by
  have hiff : rejection (attemptBid s token now).2 = some "Slow down! Cooldown in effect." ↔
      now - cooldownGet s.teamCooldowns team.id < COOLDOWN_MS := by
    unfold roundActive at hactive
    cases hround : getActiveRound s.db with
    | none => simp [hround] at hactive
    | some round =>
      simp only [hround, decide_eq_true_eq] at hactive
      by_cases hc : now - cooldownGet s.teamCooldowns team.id < COOLDOWN_MS
      · simp [attemptBid, htoken, hteam, hround, hactive, hunlocked, hc, rejection]
      · cases htx : bidTx s.db team.id round.id now with
        | error e =>
          have he := bidTx_error htx
          have hne : e ≠ "Slow down! Cooldown in effect." := by
            rcases he with he | he | he <;> rw [he] <;> decide
          simp [attemptBid, htoken, hteam, hround, hactive, hunlocked, hc, htx, rejection, hne]
        | ok db1 =>
          cases hview : teamStateFor db1 team.id with
          | none =>
            simp [attemptBid, htoken, hteam, hround, hactive, hunlocked, hc, htx, hview,
              rejection]
          | some view =>
            simp [attemptBid, htoken, hteam, hround, hactive, hunlocked, hc, htx, hview,
              rejection]
  refine ⟨hiff, ?_, ?_, ?_, fun op t0 => step_cooldowns s t0 op⟩
  · intro hnow hrej
    have := hiff.mp hrej
    rw [hnow] at this
    omega
  · intro hnone
    rcases attemptBid_cases s token now with ⟨_, msg, hmsg⟩ | ⟨team2, round, fresh, n, hteam2,
      _, _, _, _, _, _, hrun⟩
    · rw [hmsg] at hnone
      simp [rejection] at hnone
    · rw [hteam] at hteam2
      simp only [Option.some.injEq] at hteam2
      subst hteam2
      rw [hrun]
      exact cooldownGet_set _ _ _
  · intro msg hmsg
    rw [attemptBid_error_keeps s token now msg (rejection_eq_some hmsg)]

/-- Witness for C13: Dee bid last at 4900 and is unlocked here; an attempt at 5000 is inside
the cooldown, an attempt at exactly 5200 is not rejected by it. -/
theorem cooldown_check_witness :
    (rejection (attemptBid sampleCooling "td" 5000).2 = some "Slow down! Cooldown in effect." ↔
      5000 - cooldownGet sampleCooling.teamCooldowns "d" < COOLDOWN_MS) ∧
    rejection (attemptBid sampleCooling "td" 5200).2 ≠ some "Slow down! Cooldown in effect." :=
  ⟨(cooldown_check sampleCooling "td" 5000 { sampleDee with locked := 0 }
      (by decide) (by decide) (by decide) (by decide)).1,
   (cooldown_check sampleCooling "td" 5200 { sampleDee with locked := 0 }
      (by decide) (by decide) (by decide) (by decide)).2.1 (by decide)⟩

/-! ## Unique team names -/

theorem insertTeam_some {db db1 : Db} {t : Team} (h : insertTeam db t = some db1) :
    db1 = { db with teams := db.teams ++ [t] } ∧
    ∀ u ∈ db.teams, u.id ≠ t.id ∧ u.name ≠ t.name ∧ u.token ≠ t.token := by
  unfold insertTeam at h
  split_ifs at h with hany
  simp only [Option.some.injEq] at h
  refine ⟨h.symm, ?_⟩
  intro u hu
  have hnot : ¬ (u.id = t.id ∨ u.name = t.name ∨ u.token = t.token) := by
    intro hor
    apply hany
    simp only [List.any_eq_true, decide_eq_true_eq]
    exact ⟨u, hu, hor⟩
  exact ⟨fun h1 => hnot (Or.inl h1), fun h1 => hnot (Or.inr (Or.inl h1)),
    fun h1 => hnot (Or.inr (Or.inr h1))⟩

/-- The two outcomes of a join for the `teams` table: it is unchanged, or the request had a
non-empty name and the row `newTeam newId (jsTrim name) newToken` is appended, no stored
team having its id, its token or its lower-cased name. -/
theorem join_cases (s : State) (name token newId newToken : String) (now : Int) :
    (join s name token newId newToken now).1.db.teams = s.db.teams ∨
    (name ≠ "" ∧
      (join s name token newId newToken now).1.db.teams =
        s.db.teams ++ [newTeam newId (jsTrim name) newToken] ∧
      ∀ u ∈ s.db.teams, u.id ≠ newId ∧ u.token ≠ newToken ∧
        sqlLower u.name ≠ sqlLower (jsTrim name)) := by
  unfold join
  by_cases hname : name = ""
  · left; rw [if_pos hname]
  · rw [if_neg hname]
    simp only
    cases (if token = "" then none else teamByToken s.db token) with
    | some existing =>
      left
      simp only
      cases teamStateFor s.db existing.id <;> rfl
    | none =>
      simp only
      cases hfind : s.db.teams.find?
          (fun t => decide (sqlLower t.name = sqlLower (jsTrim name))) with
      | some _ => left; rfl
      | none =>
        simp only
        cases hins : insertTeam s.db (newTeam newId (jsTrim name) newToken) with
        | none => left; rfl
        | some db1 =>
          right
          obtain ⟨hdb1, hfresh⟩ := insertTeam_some hins
          subst hdb1
          refine ⟨hname, ?_, ?_⟩
          · simp only
            cases teamStateFor (logEvent _ (.teamJoin newId (jsTrim name)) now) newId <;> rfl
          · intro u hu
            have hlow := List.find?_eq_none.mp hfind u hu
            simp only [decide_eq_true_eq] at hlow
            exact ⟨(hfresh u hu).1, (hfresh u hu).2.2, hlow⟩

/-- Claim C19 at its failing input. A team has joined as "ÉCOLE", a reachable state. A
join as "école" with no token, a name equal to the stored one ignoring case, is not
rejected as taken: the lookup compares `LOWER(name)`, which folds the letters A..Z only, the
two lower-cased names differ, and a second team is stored, so in a reachable state two teams
have names that are equal ignoring case. For names that differ in the case of ASCII letters the same lookup
does reject: with "Ada" stored, a join as "ADA" is answered "Team name already taken". -/
theorem join_case_insensitive_names :
    Reachable (run State.empty ecoleOps) ∧
    (run State.empty ecoleOps).db.teams.map (fun t => t.name) = ["ÉCOLE"] ∧
    equalIgnoringCase "ÉCOLE" "école" ∧
    sqlLower "ÉCOLE" ≠ sqlLower "école" ∧
    rejection ((join (run State.empty ecoleOps) "école" "" "b" "tb" 2000).2.mapError
      (fun e => e.error)) = none ∧
    Reachable (join (run State.empty ecoleOps) "école" "" "b" "tb" 2000).1 ∧
    (join (run State.empty ecoleOps) "école" "" "b" "tb" 2000).1.db.teams.map
      (fun t => (t.name, t.wallet, t.currentBid, t.locked, t.token)) =
      [("ÉCOLE", 12000, 0, 0, "ta"), ("école", 12000, 0, 0, "tb")] ∧
    equalIgnoringCase "Ada" "ADA" ∧
    join (run State.empty lobbyOps) "ADA" "" "c" "tc" 3000 =
      (run State.empty lobbyOps,
        .error { status := 400, error := "Team name already taken" }) := by
  refine ⟨reachable_run _ (by decide) _ Reachable.init, by decide, by decide, by decide,
    by decide, ?_, by decide, by decide, rfl⟩
  exact Reachable.next 2000 (.join "école" "" "b" "tb") (by decide)
    (reachable_run _ (by decide) _ Reachable.init)

/-! ## Wallets stay non-negative -/

theorem closeTx_wallets {db db1 : Db} {roundId : Nat} {w : Winners} {now : Int}
    (h : closeTx db roundId w now = .ok db1) (hnn : ∀ t ∈ db.teams, 0 ≤ t.wallet) :
    ∀ t ∈ db1.teams, 0 ≤ t.wallet := by
  unfold closeTx at h
  simp only at h
  split at h
  · simp only [Except.ok.injEq] at h
    subst h
    exact hnn
  · split at h
    · simp at h
    · simp only [Except.ok.injEq] at h
      subst h
      intro t ht
      simp only [setTeamWallet, List.mem_map] at ht
      obtain ⟨u, hu, rfl⟩ := ht
      split_ifs
      · exact le_max_left 0 _
      · exact hnn u hu

/-- One request whose wallet amount, if it carries one, is not negative keeps every
wallet non-negative. -/
theorem step_wallets (s : State) (now : Int) (op : Op) (hop : op.walletOk)
    (hnn : ∀ t ∈ s.db.teams, 0 ≤ t.wallet) :
    ∀ t ∈ (step s now op).db.teams, 0 ≤ t.wallet := by
  cases op with
  | join name token newId newToken =>
    show ∀ t ∈ (join s name token newId newToken now).1.db.teams, 0 ≤ t.wallet
    rcases join_cases s name token newId newToken now with h | ⟨_, h, _⟩
    · rw [h]; exact hnn
    · rw [h]
      intro t ht
      rcases List.mem_append.mp ht with ht | ht
      · exact hnn t ht
      · rw [List.mem_singleton.mp ht]
        show (0 : Int) ≤ START_WALLET
        decide
  | attemptBid token =>
    show ∀ t ∈ (attemptBid s token now).1.db.teams, 0 ≤ t.wallet
    rcases attemptBid_cases s token now with ⟨h, _⟩ | ⟨team, round, fresh, n, _, _, _, _, _, _, _, h⟩
    · rw [h]; exact hnn
    · rw [h]
      intro t ht
      simp only [logEvent, insertBid, setTeamBid, List.mem_map] at ht
      obtain ⟨u, hu, rfl⟩ := ht
      split_ifs <;> exact hnn u hu
  | adminStart bugName durationSeconds =>
    show ∀ t ∈ (adminStart s bugName durationSeconds now).1.db.teams, 0 ≤ t.wallet
    unfold adminStart
    simp only
    by_cases hact : roundActive s.db = true
    · rw [if_pos hact]; exact hnn
    · rw [if_neg hact]
      intro t ht
      simp only [logEvent, resetBids, insertRound, List.mem_map] at ht
      obtain ⟨u, hu, rfl⟩ := ht
      exact hnn u hu
  | adminClose =>
    show ∀ t ∈ (adminClose s now).1.db.teams, 0 ≤ t.wallet
    unfold adminClose
    cases getActiveRound s.db with
    | none => exact hnn
    | some round =>
      simp only
      cases htx : closeTx s.db round.id (computeWinners s.db round.id) now with
      | error e => exact hnn
      | ok db1 =>
        intro t ht
        exact @closeTx_wallets s.db db1 round.id (computeWinners s.db round.id) now htx hnn t ht
  | adminReset =>
    intro t ht
    have ht2 : t ∈ s.db.teams.map
        (fun t => { t with currentBid := 0, lastBidTime := none }) := ht
    obtain ⟨u, hu, rfl⟩ := List.mem_map.mp ht2
    exact hnn u hu
  | adminSetWallet teamId wallet =>
    show ∀ t ∈ (adminSetWallet s teamId wallet now).1.db.teams, 0 ≤ t.wallet
    unfold adminSetWallet
    split_ifs
    · exact hnn
    · intro t ht
      simp only [logEvent, setTeamWallet, List.mem_map] at ht
      obtain ⟨u, hu, rfl⟩ := ht
      split_ifs
      · exact hop
      · exact hnn u hu
  | adminSetLocked teamId locked =>
    show ∀ t ∈ (adminSetLocked s teamId locked now).1.db.teams, 0 ≤ t.wallet
    unfold adminSetLocked
    by_cases hid : teamId = ""
    · rw [if_pos hid]; exact hnn
    · rw [if_neg hid]
      intro t ht
      simp only [logEvent, List.mem_map] at ht
      obtain ⟨u, hu, rfl⟩ := ht
      split_ifs <;> exact hnn u hu
  | adminCancelLastBid teamId =>
    show ∀ t ∈ (adminCancelLastBid s teamId now).1.db.teams, 0 ≤ t.wallet
    unfold adminCancelLastBid
    split_ifs
    · exact hnn
    · cases getActiveRound s.db with
      | none => exact hnn
      | some round =>
        simp only
        cases orderByIdDescLimit1 (fun b => b.id) (bidsOf s.db.bids round.id teamId) with
        | none => exact hnn
        | some lastBid =>
          intro t ht
          simp only [logEvent, setTeamBid, List.mem_map] at ht
          obtain ⟨u, hu, rfl⟩ := ht
          split_ifs <;> exact hnn u hu
  | adminRemoveTeam teamId =>
    show ∀ t ∈ (adminRemoveTeam s teamId now).1.db.teams, 0 ≤ t.wallet
    unfold adminRemoveTeam
    split_ifs
    · exact hnn
    · intro t ht
      simp only [logEvent] at ht
      exact hnn t (List.mem_filter.mp ht).1
  | adminResetAllWallets =>
    intro t ht
    have ht2 : t ∈ s.db.teams.map (fun t => { t with wallet := START_WALLET }) := ht
    obtain ⟨u, _, rfl⟩ := List.mem_map.mp ht2
    show (0 : Int) ≤ START_WALLET
    decide

theorem run_wallets (ops : List (Int × Op)) (hops : ∀ o ∈ ops, o.2.walletOk) :
    ∀ s : State, (∀ t ∈ s.db.teams, 0 ≤ t.wallet) →
      ∀ t ∈ (run s ops).db.teams, 0 ≤ t.wallet := by
  induction ops with
  | nil => intro s h; exact h
  | cons o rest ih =>
    intro s h
    show ∀ t ∈ (run (step s o.1 o.2) rest).db.teams, 0 ≤ t.wallet
    exact ih (fun o2 ho2 => hops o2 (List.mem_cons_of_mem _ ho2)) _
      (step_wallets s o.1 o.2 (hops o (List.mem_cons_self _ _)) h)

/-- Counterexample to C21 as stated: with Ada and Bob joined, the wallet handler accepts
the amount -5 for Ada, and in the reachable state after it her wallet is -5. -/
theorem negative_wallet_counterexample :
    Reachable (run State.empty negativeWalletOps) ∧
    (adminSetWallet (run State.empty lobbyOps) "a" (-5) 2000).2 = .ok () ∧
    (run State.empty negativeWalletOps).db.teams.map (fun t => (t.id, t.wallet)) =
      [("a", -5), ("b", 12000)] := by
  exact ⟨reachable_run _ (by decide) _ Reachable.init, rfl, by decide⟩

/-- Claim C21, amended. After any sequence of requests from the empty store in which every
wallet edit carries a non-negative amount, every team's wallet is non-negative (joins and
the reset of all wallets write START_WALLET, a close writes a value floored at 0, no other
request writes a wallet). A wallet edit for a non-empty team id stores the amount it is
given, whatever its sign. -/
theorem wallets_nonneg (ops : List (Int × Op)) (hops : ∀ o ∈ ops, o.2.walletOk) :
    (∀ t ∈ (run State.empty ops).db.teams, 0 ≤ t.wallet) ∧
    (∀ (s : State) (teamId : String) (w now : Int), teamId ≠ "" →
      ∀ t ∈ (adminSetWallet s teamId w now).1.db.teams, t.id = teamId → t.wallet = w) := by
  refine ⟨run_wallets ops hops State.empty (fun t ht => by cases ht), ?_⟩
  intro s teamId w now hid t ht htid
  unfold adminSetWallet at ht
  rw [if_neg hid] at ht
  simp only [logEvent, setTeamWallet, List.mem_map] at ht
  obtain ⟨u, _, rfl⟩ := ht
  by_cases hu : u.id = teamId
  · rw [if_pos hu]
  · rw [if_neg hu] at htid
    exact absurd htid hu

/-- Witness for C21: Ada bids 400, her wallet is set to 300 and the close floors the
settlement at 0. -/
theorem wallets_nonneg_witness :
    (run State.empty settleOps).db.teams.map (fun t => t.wallet) = [0] ∧
    (∀ t ∈ (run State.empty settleOps).db.teams, 0 ≤ t.wallet) :=
  ⟨by decide, (wallets_nonneg settleOps (by decide)).1⟩

/-! ## The admin view pushed after a close -/

/-- Claim C22 at its failing input. Ada and Bob join, a round starts and Ada bids 400. The
close at time 6000 replies with Ada as winner, and the state it leaves is the one
`broadcastAll` reads; yet the admin payload of `broadcastAll` has winner null, and it has
winner, secondHighest and fastestBidder null for every database. -/
theorem adminClose_broadcast_winner :
    Reachable (run State.empty oneBidOps) ∧
    (adminClose (run State.empty oneBidOps) 6000).2 =
      .ok { winner := some sampleAdaWin, secondHighest := none,
            fastestBidder := some sampleAdaWin } ∧
    (broadcastAll (adminClose (run State.empty oneBidOps) 6000).1.db).admin.winner = none ∧
    (∀ db : Db, (broadcastAll db).admin.winner = none ∧
      (broadcastAll db).admin.secondHighest = none ∧
      (broadcastAll db).admin.fastestBidder = none) := by
  exact ⟨reachable_run _ (by decide) _ Reachable.init, rfl, rfl, fun db => ⟨rfl, rfl, rfl⟩⟩

/-! ## Bids and the deadline -/

theorem moveDeadline_id (e : Int) (r : Round) : (moveDeadline e r).id = r.id := by
  unfold moveDeadline; split_ifs <;> rfl

theorem moveDeadline_status (e : Int) (r : Round) :
    (moveDeadline e r).status = r.status := by
  unfold moveDeadline; split_ifs <;> rfl

theorem orderByIdDescLimit1_map {α : Type} (key : α → Nat) (g : α → α)
    (hg : ∀ x, key (g x) = key x) :
    ∀ l : List α, orderByIdDescLimit1 key (l.map g) = (orderByIdDescLimit1 key l).map g := by
  intro l
  induction l with
  | nil => rfl
  | cons r rs ih =>
    simp only [List.map_cons, orderByIdDescLimit1, ih]
    cases orderByIdDescLimit1 key rs with
    | none => rfl
    | some b =>
      simp only [Option.map_some', hg]
      split_ifs <;> rfl

theorem getActiveRound_setDeadline (db : Db) (e : Int) :
    getActiveRound (setDeadline db e) = (getActiveRound db).map (moveDeadline e) := by
  unfold getActiveRound latestOpenRound setDeadline
  simp only
  rw [List.filter_map, orderByIdDescLimit1_map _ _ (moveDeadline_id e)]
  congr 2
  apply List.filter_congr
  intro r _
  simp only [Function.comp, moveDeadline_status]

theorem teamStateFor_setDeadline (db : Db) (e : Int) (teamId : String) :
    teamStateFor (setDeadline db e) teamId =
      (teamStateFor db teamId).map (viewWithDeadline e) := by
  have hround : (getCurrentState (setDeadline db e)).round =
      (getCurrentState db).round.map (moveDeadline e) := getActiveRound_setDeadline db e
  have hteams : (getCurrentState (setDeadline db e)).teams = (getCurrentState db).teams := rfl
  have hhigh : (getCurrentState (setDeadline db e)).highestBid =
      (getCurrentState db).highestBid := rfl
  unfold teamStateFor
  simp only [hround, hteams, hhigh]
  cases (getCurrentState db).teams.find? (fun t => decide (t.id = teamId)) with
  | none => rfl
  | some current =>
    cases (getCurrentState db).round with
    | none => rfl
    | some r =>
      by_cases hact : r.status = .active
      · simp [viewWithDeadline, moveDeadline, hact]
      · simp [viewWithDeadline, moveDeadline, hact]

theorem bidTx_setDeadline (db : Db) (e : Int) (teamId : String) (roundId : Nat) (now : Int) :
    bidTx (setDeadline db e) teamId roundId now =
      (bidTx db teamId roundId now).map (fun d => setDeadline d e) := by
  have hteam : teamById (setDeadline db e) teamId = teamById db teamId := rfl
  unfold bidTx
  rw [hteam]
  cases teamById db teamId with
  | none => rfl
  | some fresh =>
    simp only
    split_ifs <;> rfl

/-- A bid attempt on the state with another deadline gives the state of the attempt with
that deadline, and the same reply up to the deadline shown in the view. -/
theorem attemptBid_withDeadline (s : State) (token : String) (now e : Int) :
    attemptBid (withDeadline s e) token now =
      (withDeadline (attemptBid s token now).1 e,
        (attemptBid s token now).2.map (viewWithDeadline e)) := by
  have hteam : teamByToken (withDeadline s e).db token = teamByToken s.db token := rfl
  have hround : getActiveRound (withDeadline s e).db =
      (getActiveRound s.db).map (moveDeadline e) := getActiveRound_setDeadline s.db e
  have hcool : (withDeadline s e).teamCooldowns = s.teamCooldowns := rfl
  unfold attemptBid
  by_cases htok : token = ""
  · rw [if_pos htok, if_pos htok]; rfl
  · rw [if_neg htok, if_neg htok, hteam, hround, hcool]
    cases teamByToken s.db token with
    | none => rfl
    | some team =>
      cases getActiveRound s.db with
      | none => rfl
      | some round =>
        simp only [Option.map_some', moveDeadline_status, moveDeadline_id]
        by_cases hact : round.status ≠ .active
        · rw [if_pos hact, if_pos hact]; rfl
        · rw [if_neg hact, if_neg hact]
          by_cases hlock : team.locked ≠ 0
          · rw [if_pos hlock, if_pos hlock]; rfl
          · rw [if_neg hlock, if_neg hlock]
            by_cases hc : now - cooldownGet s.teamCooldowns team.id < COOLDOWN_MS
            · rw [if_pos hc, if_pos hc]; rfl
            · rw [if_neg hc, if_neg hc]
              have hdb : (withDeadline s e).db = setDeadline s.db e := rfl
              rw [hdb, bidTx_setDeadline]
              cases bidTx s.db team.id round.id now with
              | error msg => rfl
              | ok db1 =>
                simp only [Except.map]
                rw [teamStateFor_setDeadline]
                cases teamStateFor db1 team.id with
                | none => rfl
                | some view => rfl

/-- Claim C23. For every state `s`, deadline `e` and time `now`, a bid attempt on the state
that differs from `s` only in the deadline of the active round is accepted or rejected
(with the same message) as on `s`, and leaves the same team rows, bid rows, event rows and
cooldown map; the resulting states again differ only in that deadline and the views
returned differ only in the deadline they show. In the sample round, whose deadline is
92000, the bid of Bob at time 100000 is accepted. -/
theorem attemptBid_ignores_deadline (s : State) (token : String) (now e : Int) :
    rejection (attemptBid (withDeadline s e) token now).2 =
      rejection (attemptBid s token now).2 ∧
    (attemptBid (withDeadline s e) token now).1.db.teams =
      (attemptBid s token now).1.db.teams ∧
    (attemptBid (withDeadline s e) token now).1.db.bids =
      (attemptBid s token now).1.db.bids ∧
    (attemptBid (withDeadline s e) token now).1.db.events =
      (attemptBid s token now).1.db.events ∧
    (attemptBid (withDeadline s e) token now).1.teamCooldowns =
      (attemptBid s token now).1.teamCooldowns ∧
    (attemptBid (withDeadline s e) token now).1 =
      withDeadline (attemptBid s token now).1 e ∧
    (attemptBid (withDeadline s e) token now).2 =
      (attemptBid s token now).2.map (viewWithDeadline e) ∧
    ((getActiveRound (run State.empty oneBidOps).db).map (fun r => (r.status, r.endTime)) =
        some (.active, 92000) ∧
      rejection (attemptBid (run State.empty oneBidOps) "tb" 100000).2 = none ∧
      (attemptBid (run State.empty oneBidOps) "tb" 100000).1.db.bids.map
        (fun b => (b.teamId, b.amount, b.timestamp)) =
        [("a", 400, 3000), ("b", 400, 100000)]) := by
  rw [attemptBid_withDeadline]
  refine ⟨?_, rfl, rfl, rfl, rfl, rfl, rfl, by decide, by decide, by decide⟩
  cases (attemptBid s token now).2 <;> rfl

/-! ## The second-highest bid under ladder bidding -/

theorem ladder_nodup (k : Nat) : (ladder k).Nodup := by
  unfold ladder
  apply List.Nodup.map _ (List.nodup_range k)
  intro i j hij
  simp only [START_BID, INCREMENT] at hij
  omega

theorem keys_nodup_of_groups (l : List Bid)
    (hl : ∀ team, ((l.filter (fun b => decide (b.teamId = team))).map
      (fun b => b.amount)).Nodup) :
    (l.map (fun b => (b.teamId, b.amount))).Nodup := by
  induction l with
  | nil => exact List.nodup_nil
  | cons a l ih =>
    rw [List.map_cons, List.nodup_cons]
    constructor
    · intro hmem
      obtain ⟨b, hb, hkey⟩ := List.mem_map.mp hmem
      have h1 : b.teamId = a.teamId := congrArg Prod.fst hkey
      have h2 : b.amount = a.amount := congrArg Prod.snd hkey
      have hgroup := hl a.teamId
      rw [List.filter_cons_of_pos (by simp), List.map_cons, List.nodup_cons] at hgroup
      apply hgroup.1
      rw [← h2]
      exact List.mem_map.mpr ⟨b, List.mem_filter.mpr ⟨hb, by simpa using h1⟩, rfl⟩
    · apply ih
      intro team
      have hgroup := hl team
      by_cases h : a.teamId = team
      · rw [List.filter_cons_of_pos (by simpa using h), List.map_cons,
          List.nodup_cons] at hgroup
        exact hgroup.2
      · rw [List.filter_cons_of_neg (by simpa using h)] at hgroup
        exact hgroup

/-- In a round no two bid rows have the same team and the same amount. -/
theorem round_keys_nodup {db : Db} (h : Inv db) (roundId : Nat) :
    ((db.bids.filter (fun b => decide (b.roundId = roundId))).map
      (fun b => (b.teamId, b.amount))).Nodup := by
  apply keys_nodup_of_groups
  intro team
  obtain ⟨k, _, hk⟩ := h.ladders roundId team
  have hsel : (db.bids.filter (fun b => decide (b.roundId = roundId))).filter
      (fun b => decide (b.teamId = team)) = bidsOf db.bids roundId team := by
    unfold bidsOf
    rw [List.filter_filter]
    apply List.filter_congr
    intro b _
    simp
  rw [hsel, hk]
  exact ladder_nodup k

/-- The rows of `computeWinners` have pairwise different (team, amount) pairs. -/
theorem roundRows_keys_nodup {db : Db} (h : Inv db) (roundId : Nat) :
    ((roundRows db roundId).map (fun w => (w.teamId, w.amount))).Nodup := by
  unfold roundRows
  rw [((List.perm_insertionSort winOrder _).map _).nodup_iff, List.map_flatMap,
    List.nodup_flatMap]
  constructor
  · intro b _
    rw [List.map_map]
    apply List.Nodup.map_on
    · intro x hx y hy _
      have hx2 := List.mem_filter.mp hx
      have hy2 := List.mem_filter.mp hy
      have hxid : x.id = b.teamId := by simpa using hx2.2
      have hyid : y.id = b.teamId := by simpa using hy2.2
      exact List.inj_on_of_nodup_map h.teamIds hx2.1 hy2.1 (hxid.trans hyid.symm)
    · exact (List.Nodup.of_map _ h.teamIds).filter _
  · have hk := round_keys_nodup h roundId
    rw [List.Nodup, List.pairwise_map] at hk
    refine hk.imp ?_
    intro a b hab
    show List.Disjoint _ _
    rw [List.disjoint_left]
    intro x hxa hxb
    simp only [List.mem_map, List.mem_filter] at hxa hxb
    obtain ⟨_, ⟨_, _, rfl⟩, rfl⟩ := hxa
    obtain ⟨_, ⟨_, _, rfl⟩, hkey⟩ := hxb
    exact hab hkey.symm

/-- Every row of `computeWinners` carries a rung of the ladder, and its team has a bid of
START_BID in the round. -/
theorem roundRows_rung {db : Db} (h : Inv db) {roundId : Nat} {w : WinRow}
    (hw : w ∈ roundRows db roundId) :
    (∃ j : Nat, w.amount = START_BID + (j : Int) * INCREMENT) ∧
    ∃ w0 ∈ roundRows db roundId, w0.teamId = w.teamId ∧ w0.amount = START_BID := by
  obtain ⟨b, hb, hr, t, ht, hid, rfl⟩ := mem_roundRows.mp hw
  obtain ⟨k, _, hk⟩ := h.ladders roundId b.teamId
  have hmem : b.amount ∈ ladder k := by
    rw [← hk]
    exact List.mem_map.mpr ⟨b, mem_bidsOf.mpr ⟨hb, rfl, hr⟩, rfl⟩
  obtain ⟨j, hj, hamt⟩ := mem_ladder hmem
  refine ⟨⟨j, hamt⟩, ?_⟩
  have h0 : START_BID ∈ ladder k := by
    unfold ladder
    refine List.mem_map.mpr ⟨0, List.mem_range.mpr (by omega), ?_⟩
    simp
  rw [← hk] at h0
  obtain ⟨b0, hb0, hamt0⟩ := List.mem_map.mp h0
  have hb0' := mem_bidsOf.mp hb0
  refine ⟨WinRow.ofJoin b0 t, mem_roundRows.mpr ⟨b0, hb0'.1, hb0'.2.2, t, ht,
    hid.trans hb0'.2.1.symm, rfl⟩, hb0'.2.1, hamt0⟩

/-- A non-null secondHighest is one of the rows after the winner. -/
theorem secondHighest_mem {db : Db} {roundId : Nat} {w x : WinRow} {rest : List WinRow}
    (hrows : roundRows db roundId = w :: rest)
    (hx : (computeWinners db roundId).secondHighest = some x) : x ∈ rest := by
  rw [secondHighest_eq_find db roundId w rest hrows] at hx
  cases hfind : rest.find? (fun b => decide (b.amount < w.amount)) with
  | some b =>
    rw [hfind] at hx
    simp only [Option.some.injEq] at hx
    subst hx
    exact List.mem_of_find?_eq_some hfind
  | none =>
    rw [hfind] at hx
    simp only at hx
    exact List.mem_of_mem_head? hx

/-- Counterexample to C26 as stated: in a reachable state only Ada has bid in round 1
(400, then 600), the winner is her bid of 600, and secondHighest is not null: it is her
own bid of 400. -/
theorem secondHighest_same_team_counterexample :
    Reachable (run State.empty soloOps) ∧
    (run State.empty soloOps).db.bids.map (fun b => (b.roundId, b.teamId, b.amount)) =
      [(1, "a", 400), (1, "a", 600)] ∧
    (computeWinners (run State.empty soloOps).db 1).winner = some sampleAdaWin600 ∧
    (computeWinners (run State.empty soloOps).db 1).secondHighest =
      some { teamId := "a", name := "Ada", amount := 400, timestamp := 3000 } := by
  refine ⟨reachable_run _ (by decide) _ Reachable.init, ?_, ?_, ?_⟩ <;> decide

/-- Claim C26, amended. In a reachable state let `w` be the winner `computeWinners` returns
for a round. A non-null secondHighest is another row than the winner's: its amount is
strictly below the winning amount (it may then be a lower rung of the winning team), or it
has the winning amount and is a bid of another team. When the winning amount is above
START_BID, secondHighest is not null and has a smaller amount. When only one team has bid in
the round, a non-null secondHighest is that team's own bid with a smaller amount, and
secondHighest is null exactly when the winning amount is START_BID. -/
theorem computeWinners_second_team (s : State) (hs : Reachable s) (roundId : Nat)
    (w : WinRow) (hw : (computeWinners s.db roundId).winner = some w) :
    (∀ x, (computeWinners s.db roundId).secondHighest = some x →
      x.amount < w.amount ∨ (x.amount = w.amount ∧ x.teamId ≠ w.teamId)) ∧
    (START_BID < w.amount →
      ∃ x, (computeWinners s.db roundId).secondHighest = some x ∧ x.amount < w.amount) ∧
    ((∀ b ∈ s.db.bids, b.roundId = roundId → b.teamId = w.teamId) →
      (∀ x, (computeWinners s.db roundId).secondHighest = some x →
        x.teamId = w.teamId ∧ x.amount < w.amount) ∧
      ((computeWinners s.db roundId).secondHighest = none ↔ w.amount = START_BID)) := by
  have h := reachable_inv hs
  rw [winner_eq_head] at hw
  obtain ⟨rest, hrows⟩ : ∃ rest, roundRows s.db roundId = w :: rest := by
    cases hr : roundRows s.db roundId with
    | nil => rw [hr] at hw; cases hw
    | cons a rest =>
      rw [hr] at hw
      simp only [List.head?_cons, Option.some.injEq] at hw
      exact ⟨rest, by rw [hw]⟩
  have hsorted := roundRows_sorted s.db roundId
  rw [hrows, List.sorted_cons] at hsorted
  have hle : ∀ y ∈ rest, y.amount ≤ w.amount := by
    intro y hy
    have := hsorted.1 y hy
    unfold winOrder at this
    omega
  have hnodup := roundRows_keys_nodup h roundId
  rw [hrows, List.map_cons, List.nodup_cons] at hnodup
  have hwmem : w ∈ roundRows s.db roundId := by rw [hrows]; exact List.mem_cons_self _ _
  have hpart1 : ∀ x, (computeWinners s.db roundId).secondHighest = some x →
      x.amount < w.amount ∨ (x.amount = w.amount ∧ x.teamId ≠ w.teamId) := by
    intro x hx
    have hxmem := secondHighest_mem hrows hx
    by_cases hlt : x.amount < w.amount
    · exact Or.inl hlt
    · right
      have heq : x.amount = w.amount := le_antisymm (hle x hxmem) (not_lt.mp hlt)
      refine ⟨heq, ?_⟩
      intro hteam
      apply hnodup.1
      refine List.mem_map.mpr ⟨x, hxmem, ?_⟩
      rw [heq, hteam]
  have hpart2 : START_BID < w.amount →
      ∃ x, (computeWinners s.db roundId).secondHighest = some x ∧ x.amount < w.amount := by
    intro hgt
    obtain ⟨w0, hw0, _, hamt0⟩ := (roundRows_rung h hwmem).2
    have hw0rest : w0 ∈ rest := by
      rw [hrows] at hw0
      rcases List.mem_cons.mp hw0 with heq | hmem
      · rw [heq] at hamt0
        omega
      · exact hmem
    have hsome : (rest.find? (fun b => decide (b.amount < w.amount))).isSome := by
      rw [List.find?_isSome]
      exact ⟨w0, hw0rest, by simpa [hamt0] using hgt⟩
    obtain ⟨x, hfind⟩ := Option.isSome_iff_exists.mp hsome
    refine ⟨x, ?_, by simpa using List.find?_some hfind⟩
    rw [secondHighest_eq_find s.db roundId w rest hrows, hfind]
  refine ⟨hpart1, hpart2, ?_⟩
  intro hone
  have hteam : ∀ x ∈ roundRows s.db roundId, x.teamId = w.teamId := by
    intro x hx
    obtain ⟨b, hb, hr, t, _, _, rfl⟩ := mem_roundRows.mp hx
    exact hone b hb hr
  have hsame : ∀ x, (computeWinners s.db roundId).secondHighest = some x →
      x.teamId = w.teamId ∧ x.amount < w.amount := by
    intro x hx
    have hxt := hteam x (by rw [hrows]; exact List.mem_cons_of_mem _ (secondHighest_mem hrows hx))
    rcases hpart1 x hx with hlt | ⟨_, hne⟩
    · exact ⟨hxt, hlt⟩
    · exact absurd hxt hne
  refine ⟨hsame, ?_⟩
  obtain ⟨j, hj⟩ := (roundRows_rung h hwmem).1
  constructor
  · intro hnone
    by_contra hne
    have hgt : START_BID < w.amount := by
      rw [hj] at hne ⊢
      simp only [START_BID, INCREMENT] at hne ⊢
      omega
    obtain ⟨x, hx, _⟩ := hpart2 hgt
    rw [hnone] at hx
    cases hx
  · intro heq
    cases hsec : (computeWinners s.db roundId).secondHighest with
    | none => rfl
    | some x =>
      exfalso
      have hlt := (hsame x hsec).2
      have hxmem : x ∈ roundRows s.db roundId := by
        rw [hrows]; exact List.mem_cons_of_mem _ (secondHighest_mem hrows hsec)
      obtain ⟨i, hi⟩ := (roundRows_rung h hxmem).1
      rw [hi, heq] at hlt
      simp only [START_BID, INCREMENT] at hlt
      omega

/-- Witness for C26: with Ada alone in the round and her winning bid of 600, secondHighest
is not null and has a smaller amount. -/
theorem computeWinners_second_team_witness :
    (computeWinners (run State.empty soloOps).db 1).winner = some sampleAdaWin600 ∧
    ∃ x, (computeWinners (run State.empty soloOps).db 1).secondHighest = some x ∧
      x.amount < sampleAdaWin600.amount :=
  ⟨by decide, (computeWinners_second_team (run State.empty soloOps)
    (reachable_run _ (by decide) _ Reachable.init) 1 sampleAdaWin600 (by decide)).2.1
      (by decide)⟩

/-! ## Standings and winner resolution agree -/

theorem foldl_max_bid (l : List Standing) : ∀ init : Int,
    init ≤ l.foldl (fun max t => if t.currentBid > max then t.currentBid else max) init ∧
    (∀ r ∈ l, r.currentBid ≤
      l.foldl (fun max t => if t.currentBid > max then t.currentBid else max) init) ∧
    (l.foldl (fun max t => if t.currentBid > max then t.currentBid else max) init = init ∨
      ∃ r ∈ l, r.currentBid =
        l.foldl (fun max t => if t.currentBid > max then t.currentBid else max) init) := by
  induction l with
  | nil =>
    intro init
    refine ⟨le_refl _, ?_, Or.inl rfl⟩
    intro r hr
    exact absurd hr (List.not_mem_nil r)
  | cons a l ih =>
    intro init
    simp only [List.foldl_cons]
    obtain ⟨h1, h2, h3⟩ := ih (if a.currentBid > init then a.currentBid else init)
    have hstep : init ≤ (if a.currentBid > init then a.currentBid else init) ∧
        a.currentBid ≤ (if a.currentBid > init then a.currentBid else init) := by
      split_ifs <;> constructor <;> omega
    refine ⟨le_trans hstep.1 h1, ?_, ?_⟩
    · intro r hr
      rcases List.mem_cons.mp hr with hr | hr
      · rw [hr]; exact le_trans hstep.2 h1
      · exact h2 r hr
    · rcases h3 with h3 | ⟨r, hr, h3⟩
      · by_cases hgt : a.currentBid > init
        · right
          refine ⟨a, List.mem_cons_self _ _, ?_⟩
          rw [h3, if_pos hgt]
        · left
          rw [h3, if_neg hgt]
      · exact Or.inr ⟨r, List.mem_cons_of_mem _ hr, h3⟩

/-- The standings rows and the team rows carry the same (id, currentBid) pairs. -/
theorem standings_rows (db : Db) :
    (∀ t ∈ db.teams, ∃ r ∈ (getCurrentState db).teams,
      r.id = t.id ∧ r.currentBid = t.currentBid) ∧
    (∀ r ∈ (getCurrentState db).teams, ∃ t ∈ db.teams,
      r.id = t.id ∧ r.currentBid = t.currentBid) := by
  constructor
  · intro t ht
    have hmem : (t.id, t.currentBid) ∈
        (rankLoop 1 none (db.teams.insertionSort standingsOrder)).map
          (fun r => (r.id, r.currentBid)) := by
      rw [rankLoop_rows]
      exact List.mem_map.mpr
        ⟨t, (List.perm_insertionSort standingsOrder db.teams).mem_iff.mpr ht, rfl⟩
    obtain ⟨r, hr, hkey⟩ := List.mem_map.mp hmem
    exact ⟨r, hr, congrArg Prod.fst hkey, congrArg Prod.snd hkey⟩
  · intro r hr
    obtain ⟨t, ht, h1, h2⟩ := rankLoop_mem _ 1 none r hr
    exact ⟨t, (List.perm_insertionSort standingsOrder db.teams).mem_iff.mp ht, h1, h2⟩

/-- The latest bid of a team in a round carries the highest amount of that team. -/
theorem last_bid_top {db : Db} (h : Inv db) {b : Bid} (hb : b ∈ db.bids) :
    ∃ bl, (bidsOf db.bids b.roundId b.teamId).getLast? = some bl ∧
      b.amount ≤ bl.amount := by
  obtain ⟨k, _, hk⟩ := h.ladders b.roundId b.teamId
  have hbF : b ∈ bidsOf db.bids b.roundId b.teamId := mem_bidsOf.mpr ⟨hb, rfl, rfl⟩
  have hmem : b.amount ∈ ladder k := by
    rw [← hk]
    exact List.mem_map.mpr ⟨b, hbF, rfl⟩
  obtain ⟨j, hj, hamt⟩ := mem_ladder hmem
  cases k with
  | zero => omega
  | succ k =>
    have hl : ((bidsOf db.bids b.roundId b.teamId).map (fun b => b.amount)).getLast? =
        some (START_BID + (k : Int) * INCREMENT) := by rw [hk, ladder_getLast?]
    rw [List.getLast?_map] at hl
    cases hF : (bidsOf db.bids b.roundId b.teamId).getLast? with
    | none => rw [hF] at hl; simp at hl
    | some bl =>
      rw [hF] at hl
      simp only [Option.map_some', Option.some.injEq] at hl
      refine ⟨bl, rfl, ?_⟩
      rw [hl, hamt]
      simp only [START_BID, INCREMENT]
      omega

/-- In the current round no team's current bid exceeds an amount that bounds the rows of
`computeWinners`. -/
theorem currentBid_le_top {db : Db} (h : Inv db) {round : Round}
    (hround : getActiveRound db = some round) {top : Int} (htop : 0 ≤ top)
    (hmax : ∀ y ∈ roundRows db round.id, y.amount ≤ top) :
    ∀ u ∈ db.teams, u.currentBid ≤ top := by
  intro u hu
  have hsync := h.sync round hround u hu
  cases hF : (bidsOf db.bids round.id u.id).getLast? with
  | none =>
    rw [hF] at hsync
    simp only [lastMatches] at hsync
    rw [hsync.1]
    exact htop
  | some bl =>
    rw [hF] at hsync
    simp only [lastMatches] at hsync
    have hbl := mem_bidsOf.mp (List.mem_of_getLast?_eq_some hF)
    rw [hsync.1]
    exact hmax (WinRow.ofJoin bl u)
      (mem_roundRows.mpr ⟨bl, hbl.1, hbl.2.2, u, hu, hbl.2.1.symm, rfl⟩)

theorem isRung_nonneg {c : Int} (h : isRung c) : 0 ≤ c := by
  rcases h with h | ⟨j, _, h⟩
  · rw [h]
  · rw [h]
    simp only [START_BID, INCREMENT]
    omega

/-- Claim C25. In a reachable state whose current round has a bid, `computeWinners` returns
a winner `w` for that round whose amount is the `highestBid` of `getCurrentState`; the team
row of the winner has `currentBid = w.amount` and `lastBidTime = w.timestamp`, it has a row
in the standings, and every standings row of that team carries that bid and rank 1. -/
theorem winner_matches_standings (s : State) (hs : Reachable s) (round : Round)
    (hround : getActiveRound s.db = some round)
    (hbid : ∃ b ∈ s.db.bids, b.roundId = round.id) :
    ∃ w team, (computeWinners s.db round.id).winner = some w ∧
      w.amount = (getCurrentState s.db).highestBid ∧
      team ∈ s.db.teams ∧ team.id = w.teamId ∧
      team.currentBid = w.amount ∧ team.lastBidTime = some w.timestamp ∧
      (∃ r ∈ (getCurrentState s.db).teams, r.id = team.id) ∧
      (∀ r ∈ (getCurrentState s.db).teams, r.id = team.id →
        r.currentBid = w.amount ∧ r.rank = some 1) := by
  have h := reachable_inv hs
  obtain ⟨b0, hb0, hr0⟩ := hbid
  obtain ⟨t0, ht0, hid0⟩ := h.fk b0 hb0
  have hmem0 : WinRow.ofJoin b0 t0 ∈ roundRows s.db round.id :=
    mem_roundRows.mpr ⟨b0, hb0, hr0, t0, ht0, hid0, rfl⟩
  cases hrows : roundRows s.db round.id with
  | nil =>
    rw [hrows] at hmem0
    cases hmem0
  | cons w rest =>
    have hwin : (computeWinners s.db round.id).winner = some w := by
      rw [winner_eq_head, hrows]
      rfl
    have hsorted := roundRows_sorted s.db round.id
    rw [hrows, List.sorted_cons] at hsorted
    have hwmem : w ∈ roundRows s.db round.id := by
      rw [hrows]
      exact List.mem_cons_self _ _
    have hmax : ∀ y ∈ roundRows s.db round.id, y.amount ≤ w.amount := by
      intro y hy
      rw [hrows] at hy
      rcases List.mem_cons.mp hy with hy | hy
      · rw [hy]
      · have := hsorted.1 y hy
        unfold winOrder at this
        omega
    obtain ⟨j, hj⟩ := (roundRows_rung h hwmem).1
    have hpos : 0 < w.amount := by
      rw [hj]
      simp only [START_BID, INCREMENT]
      omega
    obtain ⟨b, hb, hr, t, ht, hid, hwb⟩ := mem_roundRows.mp hwmem
    have hwa : w.amount = b.amount := by rw [hwb]; rfl
    have hwt : w.teamId = b.teamId := by rw [hwb]; rfl
    have hws : w.timestamp = b.timestamp := by rw [hwb]; rfl
    obtain ⟨bl, hlast, hble⟩ := last_bid_top h hb
    rw [hr, ← hid] at hlast
    have hblmem := mem_bidsOf.mp (List.mem_of_getLast?_eq_some hlast)
    have hblrow : bl.amount ≤ w.amount :=
      hmax (WinRow.ofJoin bl t)
        (mem_roundRows.mpr ⟨bl, hblmem.1, hblmem.2.2, t, ht, hblmem.2.1.symm, rfl⟩)
    have hbleq : bl = b := by
      have e1 : bl.teamId = b.teamId := hblmem.2.1.trans hid
      have e2 : bl.amount = b.amount := le_antisymm (by rw [← hwa]; exact hblrow) hble
      refine List.inj_on_of_nodup_map (round_keys_nodup h round.id)
        (List.mem_filter.mpr ⟨hblmem.1, by simpa using hblmem.2.2⟩)
        (List.mem_filter.mpr ⟨hb, by simpa using hr⟩) ?_
      show (bl.teamId, bl.amount) = (b.teamId, b.amount)
      rw [e1, e2]
    have hsync := h.sync round hround t ht
    rw [hlast, hbleq] at hsync
    simp only [lastMatches] at hsync
    have hbound := currentBid_le_top h hround (le_of_lt hpos) hmax
    obtain ⟨hst1, hst2⟩ := standings_rows s.db
    obtain ⟨_, f2, f3⟩ := foldl_max_bid (getCurrentState s.db).teams 0
    have hhigh : w.amount = (getCurrentState s.db).highestBid := by
      show w.amount = (getCurrentState s.db).teams.foldl
        (fun max t => if t.currentBid > max then t.currentBid else max) 0
      apply le_antisymm
      · obtain ⟨r, hr, _, hrc⟩ := hst1 t ht
        have := f2 r hr
        rw [hrc, hsync.1, ← hwa] at this
        exact this
      · rcases f3 with e | ⟨r, hr, e⟩
        · rw [e]
          exact le_of_lt hpos
        · rw [← e]
          obtain ⟨u, hu, _, huc⟩ := hst2 r hr
          rw [huc]
          exact hbound u hu
    have hnn : ∀ u ∈ s.db.teams, 0 ≤ u.currentBid :=
      fun u hu => isRung_nonneg (h.rungs u hu)
    refine ⟨w, t, hwin, hhigh, ht, hid.trans hwt.symm, by rw [hsync.1, hwa],
      by rw [hsync.2, hws], ?_, ?_⟩
    · obtain ⟨r, hr, hri, _⟩ := hst1 t ht
      exact ⟨r, hr, hri⟩
    · intro r hr hrid
      obtain ⟨u, hu, hui, huc⟩ := hst2 r hr
      have hut : u = t :=
        List.inj_on_of_nodup_map h.teamIds hu ht (hui.symm.trans hrid)
      subst hut
      have hrc : r.currentBid = w.amount := by rw [huc, hsync.1, hwa]
      refine ⟨hrc, ?_⟩
      have hspec := (getCurrentState_rank_spec s.db hnn r hr).2.1 (by rw [hrc]; exact hpos)
      rw [hspec]
      unfold denseRank
      have hempty : ((s.db.teams.map (fun t => t.currentBid)).toFinset.filter
          (fun v => r.currentBid < v)) = ∅ := by
        rw [Finset.filter_eq_empty_iff]
        intro v hv
        rw [List.mem_toFinset] at hv
        obtain ⟨u2, hu2, rfl⟩ := List.mem_map.mp hv
        have := hbound u2 hu2
        omega
      rw [hempty]
      rfl

/-- Witness for C25: after Ada's bid of 400 the winner of the round is her bid, the
highest bid of the standings is 400 and her row has rank 1. -/
theorem winner_matches_standings_witness :
    ∃ w team, (computeWinners (run State.empty oneBidOps).db sampleOpenRound.id).winner =
        some w ∧
      w.amount = (getCurrentState (run State.empty oneBidOps).db).highestBid ∧
      team ∈ (run State.empty oneBidOps).db.teams ∧ team.id = w.teamId ∧
      team.currentBid = w.amount ∧ team.lastBidTime = some w.timestamp ∧
      (∃ r ∈ (getCurrentState (run State.empty oneBidOps).db).teams, r.id = team.id) ∧
      (∀ r ∈ (getCurrentState (run State.empty oneBidOps).db).teams, r.id = team.id →
        r.currentBid = w.amount ∧ r.rank = some 1) :=
  winner_matches_standings (run State.empty oneBidOps)
    (reachable_run _ (by decide) _ Reachable.init) sampleOpenRound (by decide) (by decide)

end BugAuction
